import Mathlib

/-!
Verification of the BudgetHelper core: the row-layout builder and
formula/value generator (`website/src/utils/formulaGenerator.js`), the
live-total calculator (`website/src/utils/budgetCalculator.js`) and the
sheet reconstruction engine (`website/src/utils/sheetParser.js`).

Modelling conventions (shallow embedding of the JavaScript source):
* JavaScript strings are modelled as lists of characters (`Str`).
* JavaScript numbers are modelled as exact rationals (`ℚ`).  `NaN` only
  arises from `Number(...)` coercions, modelled by `Option ℚ` (`none` =
  NaN); the source idiom `Number(x) || 0` collapses NaN (and `-0`) to `0`.
* Spreadsheet cells are a tagged union of number, string and empty (a
  missing cell, i.e. `undefined`); a missing row is `Option Row = none`.
* `uuidv4()` is impure; it is modelled by a supply `uuid : Nat → Str`
  and a counter threaded in the source's call order.
* `JSON.parse(JSON.stringify(b))` (deep clone) is the identity on values.
* `JSON.stringify(a) !== JSON.stringify(b)` on budget sections is decidable
  inequality of the corresponding Lean values (field order is fixed and the
  serialization is injective on the modelled value space).
-/

namespace BudgetHelper

/-- JavaScript strings, modelled as lists of characters. -/
abbrev Str := List Char

/-- Characters of a Lean string literal. -/
def strOf (s : String) : Str := s.data

/-- Model of `String.prototype.trim()` (whitespace model: ASCII). -/
def jsTrim (s : Str) : Str :=
  ((s.dropWhile Char.isWhitespace).reverse.dropWhile Char.isWhitespace).reverse

/-- Model of `String.prototype.toLowerCase()` (ASCII model). -/
def jsToLower (s : Str) : Str := s.map Char.toLower

/-- JavaScript `\w` word characters, `[A-Za-z0-9_]`. -/
def isWordChar (c : Char) : Bool := c.isAlpha || c.isDigit || c = '_'

/-- Model of the regex test `/^w\b/i` for a fixed word `w` that ends in a
letter (used with `total` and `i alt`): the lower-cased label starts with
`w` and the next character, if any, is not a word character. -/
def testWordStartCI (w : Str) (l : Str) : Bool :=
  w.isPrefixOf (jsToLower l) &&
    (match l.drop w.length with
     | [] => true
     | c :: _ => !isWordChar c)

/-! ### Kernel-computable rational arithmetic

Mathlib's `ℚ` is the value model for JavaScript numbers, but the core
arithmetic on `Rat` is sealed against kernel reduction, which would leave
concrete runs of the embedded code undecidable.  The operations below
compute through `mkRat` (which the kernel reduces) and are proved equal to
the standard ones, so theorems can be stated with ordinary `+ - * / | |`. -/

/-- Addition on `ℚ` through `mkRat`. -/
def qAdd (a b : ℚ) : ℚ := mkRat (a.num * b.den + b.num * a.den) (a.den * b.den)

/-- Subtraction on `ℚ` through `mkRat`. -/
def qSub (a b : ℚ) : ℚ := mkRat (a.num * b.den - b.num * a.den) (a.den * b.den)

/-- Multiplication on `ℚ` through `mkRat`. -/
def qMul (a b : ℚ) : ℚ := mkRat (a.num * b.num) (a.den * b.den)

/-- An integer fraction as a `ℚ` (denominator sign moved to the numerator). -/
def qMkInt (n d : Int) : ℚ := if 0 ≤ d then mkRat n d.toNat else mkRat (-n) (-d).toNat

/-- Division on `ℚ` through `mkRat` (division by zero yields 0, as in `ℚ`). -/
def qDiv (a b : ℚ) : ℚ := qMkInt (a.num * b.den) (a.den * b.num)

/-- Negation on `ℚ` through `mkRat`. -/
def qNeg (a : ℚ) : ℚ := mkRat (-a.num) a.den

/-- `Math.abs` on the rational model. -/
def jsAbs (a : ℚ) : ℚ := if a.num < 0 then qNeg a else a

/-- The 0.001 comparison tolerance as a kernel-computable rational. -/
def TOL : ℚ := ⟨1, 1000, by decide, by decide⟩

/-- A natural number as a `ℚ`, through `mkRat`. -/
def qOfNat (n : Nat) : ℚ := mkRat n 1

/-- Numeric value of a decimal digit character. -/
def digVal (c : Char) : Nat := c.toNat - '0'.toNat

/-- Value of a string of decimal digits. -/
def natOfDigits (ds : Str) : Nat := ds.foldl (fun a c => a * 10 + digVal c) 0

/-- Model of JavaScript `Number(string)`: `none` is NaN.  The empty (or
all-whitespace) string coerces to `0`; a plain decimal literal with optional
sign and fraction part parses to its value; anything else is NaN.
(Exponent/hex literals are not modelled; they behave like NaN here, which is
faithful for every string this codebase produces or reads.) -/
def jsParseNum (raw : Str) : Option ℚ :=
  let t := jsTrim raw
  if t = [] then some 0 else
  let sgn : ℚ := match t with
    | '-' :: _ => mkRat (-1) 1
    | _ => 1
  let t1 : Str := match t with
    | '-' :: r => r
    | '+' :: r => r
    | _ => t
  let ip := t1.takeWhile Char.isDigit
  let r1 := t1.dropWhile Char.isDigit
  match r1 with
  | [] => if ip = [] then none else some (qMul sgn (qOfNat (natOfDigits ip)))
  | '.' :: r2 =>
    let fp := r2.takeWhile Char.isDigit
    let r3 := r2.dropWhile Char.isDigit
    if r3 ≠ [] then none
    else if ip = [] ∧ fp = [] then none
    else some (qMul sgn (qAdd (qOfNat (natOfDigits ip)) (mkRat (natOfDigits fp) (10 ^ fp.length))))
  | _ => none

/-- Decimal digits of a natural number. -/
def natDigits (n : Nat) : Str := (toString n).data

/-- Smallest `k` with `d ∣ 10 ^ k`, searched up to 39 (covers every
denominator of a decimal-representable rational that can appear here). -/
def pow10Exp (d : Nat) : Option Nat := (List.range 40).find? (fun k => d ∣ 10 ^ k)

/-- Model of JavaScript number-to-string conversion (template literal
interpolation) for the values this codebase interpolates: integers render
as decimal integers, and rationals with a power-of-ten denominator render
as the shortest decimal (e.g. `10/100` renders as `0.1`, exactly like JS).
Other rationals (which never occur in the modelled code paths) fall back to
a fraction rendering. -/
def jsNumStr (q : ℚ) : Str :=
  if q.den = 1 then
    (if q.num < 0 then '-' :: natDigits q.num.natAbs else natDigits q.num.natAbs)
  else
    match pow10Exp q.den with
    | some k =>
      let n := q.num.natAbs * (10 ^ k / q.den)
      let ds0 := natDigits n
      let ds := if ds0.length ≤ k then List.replicate (k + 1 - ds0.length) '0' ++ ds0 else ds0
      let s := ds.take (ds.length - k) ++ '.' :: ds.drop (ds.length - k)
      if q.num < 0 then '-' :: s else s
    | none => natDigits q.num.natAbs ++ '/' :: natDigits q.den

/-- A spreadsheet cell value: a number, a string, or empty/`undefined`. -/
inductive Cell where
  | num (q : ℚ)
  | str (s : Str)
  | emp
deriving DecidableEq

/-- A sheet row as returned by the read API. -/
abbrev Row := List Cell

/-- `row?.[c]`: bounds-checked cell access; a missing row or a missing
column yields `undefined` (`Cell.emp`). -/
def cellAt (row : Option Row) (c : Nat) : Cell :=
  match row with
  | none => .emp
  | some r => (r.get? c).getD .emp

/-- Model of `String(x ?? '')` on a cell. -/
def jsCellStr (c : Cell) : Str :=
  match c with
  | .num q => jsNumStr q
  | .str s => s
  | .emp => []

/-- Model of `Number(x) || 0` on a cell (`undefined` → NaN → 0). -/
def numOr0 (c : Cell) : ℚ :=
  match c with
  | .num q => q
  | .str s => (jsParseNum s).getD 0
  | .emp => 0

/-! ## Data model (§3 of the spec, as used by the source) -/

/-- A budget item. -/
structure Item where
  id : Str
  name : Str
  color : Option Str
  note : Str
  excluded : Bool
  negative : Bool
  savingsLink : Option Str
  savingsPercentage : Option ℚ
  monthlyValues : List ℚ
deriving DecidableEq

/-- A budget section. -/
structure Section where
  id : Str
  name : Str
  type : Str
  color : Str
  showTotal : Bool
  totalLabel : Str
  items : List Item
deriving DecidableEq

/-- The budget document. -/
structure Budget where
  id : Str
  title : Str
  year : Int
  linkedSheetId : Option Str
  sections : List Section
deriving DecidableEq

def INCOME : Str := strOf "income"
def EXPENSE : Str := strOf "expense"
def SAVINGS : Str := strOf "savings"
def SUMMARY : Str := strOf "summary"

/-! ## budgetCalculator.js -/

/-- `findSavingsLinkedItem(sections, savingsSectionId)`: the first item of
an income/expense section whose `savingsLink` equals the given savings
section id. -/
def findSavingsLinkedItem : List Section → Str → Option Item
  | [], _ => none
  | s :: rest, sid =>
    if s.type ≠ EXPENSE ∧ s.type ≠ INCOME then findSavingsLinkedItem rest sid
    else
      match s.items.find? (fun it => it.savingsLink = some sid) with
      | some it => some it
      | none => findSavingsLinkedItem rest sid

/-- The per-item monthly value used inside `computeSectionTotals`:
`(item.savingsPercentage != null && linkedItem) ? (Number(linkedItem.monthlyValues[m]) || 0) * item.savingsPercentage / 100 : Number(item.monthlyValues[m]) || 0`. -/
def itemMonthValue (it : Item) (linkedItem : Option Item) (m : Nat) : ℚ :=
  match it.savingsPercentage, linkedItem with
  | some p, some li => qDiv (qMul ((li.monthlyValues.get? m).getD 0) p) 100
  | _, _ => (it.monthlyValues.get? m).getD 0

/-- `computeSectionTotals(section, allSections)`: twelve monthly totals;
excluded items are skipped, negative items contribute with flipped sign,
savings-percentage items contribute the linked item's value times p/100
when a linked item resolves. -/
def computeSectionTotals (sec : Section) (allSections : Option (List Section)) : List ℚ :=
  let linkedItem : Option Item :=
    if sec.type = SAVINGS then allSections.bind (fun ss => findSavingsLinkedItem ss sec.id)
    else none
  (List.range 12).map (fun m =>
    sec.items.foldl (fun acc it =>
      if it.excluded then acc
      else qAdd acc (qMul (if it.negative then mkRat (-1) 1 else 1)
        (itemMonthValue it linkedItem m))) 0)

/-! ## formulaGenerator.js — row layout -/

/-- Column letter computation (`colLetter`), on the 1-based value `n`; the
first argument is fuel bounding the loop count (each pass divides by 26, so
`n` passes always suffice), keeping the recursion structural so that the
kernel can evaluate it. -/
def colLetterGo : Nat → Nat → Str
  | 0, _ => []
  | fuel + 1, n =>
    if n = 0 then []
    else colLetterGo fuel ((n - 1) / 26) ++ [Char.ofNat (65 + (n - 1) % 26)]

/-- `colLetter(colIndex)` for a 0-based column index. -/
def colLetter (c : Nat) : Str := colLetterGo (c + 1) (c + 1)

/-- `cellRef(row, col)` = `${colLetter(col)}${row}`. -/
def cellRef (r c : Nat) : Str := colLetter c ++ natDigits r

def sectionMarkTag : Str := strOf "__BH_SECTION__:"
def totalMarkTag : Str := strOf "__BH_TOTAL__:"

def MONTHS : List Str :=
  [strOf "Januar", strOf "Februar", strOf "Marts", strOf "April", strOf "Maj",
   strOf "Juni", strOf "Juli", strOf "August", strOf "September",
   strOf "Oktober", strOf "November", strOf "December"]

/-- One entry of the derived row layout. -/
inductive RowEntry where
  | header (rowIndex : Nat)
  | sectionHeader (rowIndex : Nat) (sec : Section)
  | savingsAuto (rowIndex : Nat) (sec : Section) (linkedItemRow : Nat) (linkedItemName : Str)
  | item (rowIndex : Nat) (it : Item) (sec : Section)
  | total (rowIndex : Nat) (sec : Section) (itemStartRow : Nat) (itemEndRow : Nat)
      (itemRowEntries : List (Nat × Item)) (autoRowIndex : Option Nat)
  | remaining (rowIndex : Nat) (sec : Section)
  | runningBalance (rowIndex : Nat) (remainingRow : Nat) (sec : Section)
  | expGrand (rowIndex : Nat) (sec : Section)
  | savGrand (rowIndex : Nat) (sec : Section)
  | separator (rowIndex : Nat)
deriving DecidableEq

def rowIndexOf : RowEntry → Nat
  | .header r => r
  | .sectionHeader r _ => r
  | .savingsAuto r _ _ _ => r
  | .item r _ _ => r
  | .total r _ _ _ _ _ => r
  | .remaining r _ => r
  | .runningBalance r _ _ => r
  | .expGrand r _ => r
  | .savGrand r _ => r
  | .separator r => r

/-- JS object used as a string-keyed map (`itemRowMap`): assignment
prepends, lookup takes the most recent assignment. -/
def mapInsert (m : List (Str × Nat)) (k : Str) (v : Nat) : List (Str × Nat) := (k, v) :: m

def mapLookup (m : List (Str × Nat)) (k : Str) : Option Nat :=
  (m.find? (fun p => decide (p.1 = k))).map (·.2)

/-- The key/value pairs of the JS object: one entry per distinct key, with
its most recent value (shadowed assignments dropped; `seen` accumulates the
keys already emitted). -/
def mapEntriesGo (seen : List Str) : List (Str × Nat) → List (Str × Nat)
  | [] => []
  | p :: r =>
    if seen.contains p.1 then mapEntriesGo seen r
    else p :: mapEntriesGo (p.1 :: seen) r

def mapEntries (m : List (Str × Nat)) : List (Str × Nat) := mapEntriesGo [] m

/-- The linked-item search loop of `buildRowLayout` (and of
`buildLayoutCandidate` in the parser): per income/expense section, the
first item with a matching `savingsLink` is taken; if its id is falsy
(empty) the outer loop is not broken and the scan moves to the next
section, otherwise the item is returned. -/
def layoutLinkedSearch : List Section → Str → Option Item
  | [], _ => none
  | s :: rest, sid =>
    if s.type ≠ EXPENSE ∧ s.type ≠ INCOME then layoutLinkedSearch rest sid
    else
      match s.items.find? (fun it => it.savingsLink = some sid) with
      | some it => if it.id ≠ [] then some it else layoutLinkedSearch rest sid
      | none => layoutLinkedSearch rest sid

/-- The mutable state threaded through `buildRowLayout`'s section loop. -/
structure LState where
  rowLayout : List RowEntry
  row : Nat
  incomeTotalRows : List Nat
  expenseTotalRows : List Nat
  savingsTotalRows : List Nat
  itemRowMap : List (Str × Nat)

/-- The linked-row resolution at the head of a savings section in
`buildRowLayout`'s loop: the first matching linked item together with its
already-assigned row, if any. -/
def secAutoLink (b : Budget) (map : List (Str × Nat)) (sec : Section) : Option (Nat × Str) :=
  if sec.type = SAVINGS then
    match layoutLinkedSearch b.sections sec.id with
    | some it =>
      match mapLookup map it.id with
      | some lr => some (lr, it.name)
      | none => none
    | none => none
  else none

/-- The body of the `for (const section of budget.sections)` loop of
`buildRowLayout`. -/
def layoutStep (b : Budget) (st : LState) (sec : Section) : LState :=
  if sec.type = SUMMARY then
    { st with
      rowLayout := st.rowLayout ++
        [.expGrand st.row sec, .savGrand (st.row + 1) sec, .remaining (st.row + 2) sec,
         .runningBalance (st.row + 3) (st.row + 2) sec, .separator (st.row + 4)],
      row := st.row + 5 }
  else
    let headerIdx := st.row
    let autoLink : Option (Nat × Str) := secAutoLink b st.itemRowMap sec
    let autoRowIndex : Option Nat := autoLink.map (fun _ => headerIdx + 1)
    let autoEntries : List RowEntry :=
      match autoLink with
      | some (lr, nm) => [.savingsAuto (headerIdx + 1) sec lr nm]
      | none => []
    let itemStartRow := headerIdx + 1 + autoEntries.length
    let itemRowEntries := sec.items.enum.map (fun p => (itemStartRow + p.1, p.2))
    let itemEntries : List RowEntry := itemRowEntries.map (fun p => .item p.1 p.2 sec)
    let newMap := sec.items.enum.foldl
      (fun m p => mapInsert m p.2.id (itemStartRow + p.1)) st.itemRowMap
    let itemEndRow := itemStartRow + sec.items.length - 1
    let totalAt := itemStartRow + sec.items.length
    if sec.showTotal ∧ (sec.items.length > 0 ∨ autoRowIndex ≠ none) then
      { rowLayout := st.rowLayout ++ [RowEntry.sectionHeader headerIdx sec] ++ autoEntries ++
          itemEntries ++
          [.total totalAt sec itemStartRow itemEndRow itemRowEntries autoRowIndex,
           .separator (totalAt + 1)],
        row := totalAt + 2,
        incomeTotalRows := st.incomeTotalRows ++ (if sec.type = INCOME then [totalAt] else []),
        expenseTotalRows := st.expenseTotalRows ++ (if sec.type = EXPENSE then [totalAt] else []),
        savingsTotalRows := st.savingsTotalRows ++ (if sec.type = SAVINGS then [totalAt] else []),
        itemRowMap := newMap }
    else if sec.showTotal ∧ sec.items.length = 0 then
      -- empty section (no items, no auto-row) still reserves a total row
      { rowLayout := st.rowLayout ++ [RowEntry.sectionHeader headerIdx sec] ++ autoEntries ++
          itemEntries ++
          [.total totalAt sec totalAt (totalAt - 1) [] none, .separator (totalAt + 1)],
        row := totalAt + 2,
        incomeTotalRows := st.incomeTotalRows ++ (if sec.type = INCOME then [totalAt] else []),
        expenseTotalRows := st.expenseTotalRows ++ (if sec.type = EXPENSE then [totalAt] else []),
        savingsTotalRows := st.savingsTotalRows ++ (if sec.type = SAVINGS then [totalAt] else []),
        itemRowMap := newMap }
    else
      { rowLayout := st.rowLayout ++ [RowEntry.sectionHeader headerIdx sec] ++ autoEntries ++
          itemEntries ++ [.separator totalAt],
        row := totalAt + 1,
        incomeTotalRows := st.incomeTotalRows,
        expenseTotalRows := st.expenseTotalRows,
        savingsTotalRows := st.savingsTotalRows,
        itemRowMap := newMap }

/-- The result object of `buildRowLayout`. -/
structure LayoutResult where
  rowLayout : List RowEntry
  incomeTotalRows : List Nat
  expenseTotalRows : List Nat
  savingsTotalRows : List Nat
  itemRowMap : List (Str × Nat)

/-- `buildRowLayout(budget)`. -/
def buildRowLayout (b : Budget) : LayoutResult :=
  let st0 : LState := ⟨[.header 1], 2, [], [], [], []⟩
  let st := b.sections.foldl (layoutStep b) st0
  ⟨st.rowLayout, st.incomeTotalRows, st.expenseTotalRows, st.savingsTotalRows, st.itemRowMap⟩

/-! ## formulaGenerator.js — value generation (`generateSheetsPayload`)

Only the value pass (`valueRanges`) is embedded; the formatting pass
(`formatRequests`) is not referenced by any claim. -/

/-- A `{ range, values }` element of `valueRanges`; `row` is the row both
endpoints of the emitted A1 range name refer to. -/
structure ValueRange where
  row : Nat
  rangeName : Str
  values : List Cell
deriving DecidableEq

/-- Build a `{ range: A{r}:Q{r}, values }` element. -/
def vrOf (r : Nat) (vs : List Cell) : ValueRange :=
  ⟨r, cellRef r 0 ++ ':' :: cellRef r 16, vs⟩

/-- `=SUM(B{r}:M{r})` — the annual-total cell. -/
def annualCell (r : Nat) : Cell :=
  .str ('=' :: strOf "SUM(" ++ cellRef r 1 ++ ':' :: cellRef r 12 ++ [')'])

/-- `=N{r}/12` — the monthly-average cell. -/
def avgCell (r : Nat) : Cell := .str ('=' :: cellRef r 13 ++ strOf "/12")

/-- The header-row values: `['', ...MONTHS, 'Total', 'Gns./måned', 'Noter', '']`. -/
def headerValues : List Cell :=
  .str [] :: MONTHS.map .str ++
    [.str (strOf "Total"), .str (strOf "Gns./måned"), .str (strOf "Noter"), .str []]

/-- Join formula parts with `+`. -/
def joinPlus (parts : List Str) : Str := List.intercalate ['+'] parts

/-- Emission for an `item` entry.  A savings item with `savingsPercentage`
set emits, per month, a formula referencing the section's `savings-auto`
row times `percentage/100`; otherwise the literal number. -/
def emitItem (layout : List RowEntry) (r : Nat) (it : Item) (sec : Section) : ValueRange :=
  let autoEntry : Option RowEntry :=
    if sec.type = SAVINGS ∧ it.savingsPercentage ≠ none then
      layout.find? (fun e =>
        match e with
        | .savingsAuto _ s _ _ => decide (s.id = sec.id)
        | _ => false)
    else none
  let monthCells := (List.range 12).map (fun m =>
    match autoEntry, it.savingsPercentage with
    | some e, some p =>
      Cell.str ('=' :: cellRef (rowIndexOf e) (1 + m) ++ '*' :: jsNumStr (qDiv p 100))
    | _, _ => Cell.num ((it.monthlyValues.get? m).getD 0))
  vrOf r (.str it.name :: monthCells ++ [annualCell r, avgCell r, .str it.note, .str []])

/-- Emission for a `section-header` entry: the name, 15 blank cells, and the
hidden `__BH_SECTION__:{id}:{type}` marker in the metadata column. -/
def emitSectionHeader (r : Nat) (sec : Section) : ValueRange :=
  vrOf r (.str sec.name :: List.replicate 15 (Cell.str []) ++
    [.str (sectionMarkTag ++ sec.id ++ ':' :: sec.type)])

/-- Emission for a `savings-auto` entry: `← {name}` label and per-month
formulas mirroring the linked item's cells. -/
def emitAuto (r : Nat) (linkedRow : Nat) (linkedName : Str) : ValueRange :=
  vrOf r (.str ('←' :: ' ' :: linkedName) ::
    (List.range 12).map (fun m => Cell.str ('=' :: cellRef linkedRow (1 + m))) ++
    [annualCell r, avgCell r, .str [], .str []])

/-- One month cell of a `total` row (the four/five formula shapes). -/
def totalMonthCell (col : Nat) (itemStartRow itemEndRow : Nat)
    (entries : List (Nat × Item)) (autoRowIndex : Option Nat) : Cell :=
  let hasSpecial := entries.any (fun p => p.2.excluded || p.2.negative)
  let hasItems := itemStartRow ≤ itemEndRow
  let included := entries.filter (fun p => !p.2.excluded)
  let partOf : Nat × Item → Str := fun p =>
    if p.2.negative then '-' :: colLetter col ++ natDigits p.1
    else colLetter col ++ natDigits p.1
  match autoRowIndex with
  | some a =>
    if ¬ hasItems then .str ('=' :: colLetter col ++ natDigits a)
    else if ¬ hasSpecial then
      .str ('=' :: colLetter col ++ natDigits a ++ '+' :: strOf "SUM(" ++
        colLetter col ++ natDigits itemStartRow ++ ':' :: colLetter col ++
        natDigits itemEndRow ++ [')'])
    else
      .str ('=' :: joinPlus ((colLetter col ++ natDigits a) :: included.map partOf))
  | none =>
    if hasItems ∧ ¬ hasSpecial then
      .str ('=' :: strOf "SUM(" ++ colLetter col ++ natDigits itemStartRow ++
        ':' :: colLetter col ++ natDigits itemEndRow ++ [')'])
    else if hasItems ∧ hasSpecial then
      (if included = [] then .num 0
       else .str ('=' :: joinPlus (included.map partOf)))
    else .num 0

/-- Emission for a `total` entry, with the hidden `__BH_TOTAL__:{id}`
marker in the metadata column. -/
def emitTotal (r : Nat) (sec : Section) (itemStartRow itemEndRow : Nat)
    (entries : List (Nat × Item)) (autoRowIndex : Option Nat) : ValueRange :=
  let label : Cell :=
    .str (if sec.totalLabel ≠ [] then sec.totalLabel else strOf "Total " ++ sec.name)
  vrOf r (label ::
    (List.range 12).map (fun m => totalMonthCell (1 + m) itemStartRow itemEndRow entries autoRowIndex) ++
    [annualCell r, avgCell r, .str [], .str (totalMarkTag ++ sec.id)])

/-- Emission for the `remaining` entry: per month,
`=({income refs or 0})-({expense refs or 0})`, or the literal 0 when both
total-row lists are empty. -/
def emitRemaining (r : Nat) (incomeTotalRows expenseTotalRows : List Nat) : ValueRange :=
  let monthCells := (List.range 12).map (fun m =>
    let col := 1 + m
    if incomeTotalRows ≠ [] ∨ expenseTotalRows ≠ [] then
      let incParts := if incomeTotalRows ≠ []
        then joinPlus (incomeTotalRows.map (fun tr => colLetter col ++ natDigits tr))
        else ['0']
      let expParts := if expenseTotalRows ≠ []
        then joinPlus (expenseTotalRows.map (fun tr => colLetter col ++ natDigits tr))
        else ['0']
      Cell.str ('=' :: '(' :: incParts ++ ')' :: '-' :: '(' :: expParts ++ [')'])
    else Cell.num 0)
  vrOf r (.str (strOf "Tilbage") :: monthCells ++ [annualCell r, avgCell r, .str [], .str []])

/-- Emission for the `expense-grand-total` / `savings-grand-total` entries. -/
def emitGrand (r : Nat) (isExpense : Bool) (sourceRows : List Nat) : ValueRange :=
  let monthCells := (List.range 12).map (fun m =>
    let col := 1 + m
    if sourceRows ≠ [] then
      Cell.str ('=' :: joinPlus (sourceRows.map (fun tr => colLetter col ++ natDigits tr)))
    else Cell.num 0)
  vrOf r (.str (if isExpense then strOf "Total expenses" else strOf "Total savings") ::
    monthCells ++ [annualCell r, avgCell r, .str [], .str []])

/-- Emission for the `running-balance` entry: January references the
remaining row directly; later months add the previous balance; the
annual/average columns are left blank. -/
def emitRunning (r : Nat) (remainingRow : Nat) : ValueRange :=
  vrOf r (.str (strOf "Løbende saldo") ::
    Cell.str ('=' :: cellRef remainingRow 1) ::
    (List.range 11).map (fun i =>
      let col := 2 + i
      Cell.str ('=' :: cellRef r (col - 1) ++ '+' :: cellRef remainingRow col)) ++
    [.str [], .str [], .str [], .str []])

/-- The per-entry emission of `generateSheetsPayload`'s data loop (the
header row is emitted separately, before the loop; separators emit
nothing). -/
def emitEntry (layout : List RowEntry)
    (incomeTotalRows expenseTotalRows savingsTotalRows : List Nat) :
    RowEntry → Option ValueRange
  | .header _ => none
  | .sectionHeader r sec => some (emitSectionHeader r sec)
  | .savingsAuto r _ linkedRow linkedName => some (emitAuto r linkedRow linkedName)
  | .item r it sec => some (emitItem layout r it sec)
  | .total r sec s e entries auto => some (emitTotal r sec s e entries auto)
  | .remaining r _ => some (emitRemaining r incomeTotalRows expenseTotalRows)
  | .expGrand r _ => some (emitGrand r true expenseTotalRows)
  | .savGrand r _ => some (emitGrand r false savingsTotalRows)
  | .runningBalance r remRow _ => some (emitRunning r remRow)
  | .separator _ => none

/-- `generateSheetsPayload(budget)` — the `valueRanges` list. -/
def generateSheetsPayload (b : Budget) : List ValueRange :=
  let L := buildRowLayout b
  let headerVRs : List ValueRange :=
    match L.rowLayout.find? (fun e => match e with | .header _ => true | _ => false) with
    | some e => [vrOf (rowIndexOf e) headerValues]
    | none => []
  headerVRs ++ L.rowLayout.filterMap
    (emitEntry L.rowLayout L.incomeTotalRows L.expenseTotalRows L.savingsTotalRows)

/-! ## Simulated read

A simulated read of the exact emitted cell values (§8 of the spec): each
emitted range writes its values at its row; rows never written (the
separator rows) read back as empty rows.  The generator emits ranges in
strictly increasing row order, which the accumulator below relies on. -/

def simulateReadGo (r : Nat) : List ValueRange → List Row
  | [] => []
  | v :: rest =>
    if v.row < r then simulateReadGo r rest
    else List.replicate (v.row - r) [] ++ v.values :: simulateReadGo (v.row + 1) rest

/-- Turn a payload into the 2-D array a subsequent read returns. -/
def simulateRead (p : List ValueRange) : List Row := simulateReadGo 1 p

/-! ## sheetParser.js — helpers -/

/-- `rowLabel(row)` = `String(row?.[COL_LABEL] ?? '').trim()`. -/
def rowLabel (row : Option Row) : Str := jsTrim (jsCellStr (cellAt row 0))

/-- `hasMonthData(row)`: some month cell is a number or a non-blank string. -/
def hasMonthData (row : Option Row) : Bool :=
  (List.range 12).any (fun m =>
    match cellAt row (1 + m) with
    | .num _ => true
    | .str s => decide (jsTrim s ≠ [])
    | .emp => false)

/-- `matchesAnyLabel(row, labels)`: the lower-cased trimmed label equals one
of the given labels, lower-cased. -/
def matchesAnyLabel (row : Option Row) (labels : List Str) : Bool :=
  labels.any (fun l => decide (jsToLower (rowLabel row) = jsToLower l))

/-- JS `payload.split(':')`. -/
def splitOnChar (c : Char) : Str → List Str
  | [] => [[]]
  | x :: r =>
    let rest := splitOnChar c r
    if x = c then [] :: rest
    else
      match rest with
      | h :: t => (x :: h) :: t
      | [] => [[x]]

/-- The `{ id, type }` object produced by `parseSectionMarker` (`null`
components are `none`). -/
structure MarkMeta where
  id : Option Str
  type : Option Str
deriving DecidableEq

/-- `parseSectionMarker(note)`: strip the `__BH_SECTION__:` lead-in, split
the payload on `:`, and null out empty components. -/
def parseSectionMarker (v : Cell) : Option MarkMeta :=
  let raw := jsTrim (jsCellStr v)
  if ¬ sectionMarkTag.isPrefixOf raw then none
  else
    let payload := raw.drop sectionMarkTag.length
    if payload = [] then none
    else
      let ps := splitOnChar ':' payload
      let idPart : Str := (ps.get? 0).getD []
      let tyPart : Option Str := ps.get? 1
      some ⟨if idPart = [] then none else some idPart,
            match tyPart with
            | some t => if t = [] then none else some t
            | none => none⟩

/-- `parseTotalMarker(note)`: strip the `__BH_TOTAL__:` lead-in; empty
payload is `null`. -/
def parseTotalMark (v : Cell) : Option Str :=
  let raw := jsTrim (jsCellStr v)
  if ¬ totalMarkTag.isPrefixOf raw then none
  else
    let payload := jsTrim (raw.drop totalMarkTag.length)
    if payload = [] then none else some payload

/-- `getSectionMarkerMeta(row)`: metadata column first, notes column second. -/
def getSectionMarkerMeta (row : Option Row) : Option MarkMeta :=
  match parseSectionMarker (cellAt row 16) with
  | some m => some m
  | none => parseSectionMarker (cellAt row 15)

/-- `getTotalMarkerId(row)`. -/
def getTotalMarkId (row : Option Row) : Option Str :=
  match parseTotalMark (cellAt row 16) with
  | some m => some m
  | none => parseTotalMark (cellAt row 15)

def hasSectionMarker (row : Option Row) : Bool := (getSectionMarkerMeta row).isSome

/-- The regex test `/^#[0-9a-f]{6}$/`. -/
def isHex6 (s : Str) : Bool :=
  match s with
  | '#' :: t => decide (t.length = 6) && t.all (fun c => c.isDigit || ('a' ≤ c && c ≤ 'f'))
  | _ => false

/-- `normalizeHexColor(color, fallback)`. -/
def normalizeHexColor (color : Option Str) (fallback : Str) : Str :=
  let raw := jsToLower (jsTrim (color.getD []))
  if isHex6 raw then raw else fallback

/-- The `forbiddenLabels` list of `candidateMatchesSheet` /
`buildNameMatchedRowMap`. -/
def forbiddenLabels : List Str :=
  [strOf "Tilbage", strOf "Remaining", strOf "Løbende saldo",
   strOf "Running Balance", strOf "Total expenses", strOf "Total savings"]

/-- The `boundaryLabels` list of `buildMarkerItemRowMap` /
`buildBudgetFromMarkers`. -/
def boundaryLabels : List Str :=
  [strOf "Total expenses", strOf "Total savings", strOf "Tilbage",
   strOf "Remaining", strOf "Løbende saldo", strOf "Running Balance"]

/-! ## sheetParser.js — item-row-map strategies -/

/-- `buildLayoutCandidate(budget, { includeSectionHeaders, includeGrandTotals })`:
replay the layout row arithmetic and return the predicted `itemRowMap`. -/
def buildLayoutCandidate (b : Budget) (includeSectionHeaders includeGrandTotals : Bool) :
    List (Str × Nat) :=
  let step : List (Str × Nat) × Nat → Section → List (Str × Nat) × Nat := fun (map, row) sec =>
    if sec.type = SUMMARY then
      (map, row + (if includeGrandTotals then 2 else 0) + 2 + 1)
    else
      let row1 := row + (if includeSectionHeaders then 1 else 0)
      let hasAuto : Bool :=
        if sec.type = SAVINGS then
          match layoutLinkedSearch b.sections sec.id with
          | some it => (mapLookup map it.id).isSome
          | none => false
        else false
      let row2 := row1 + (if hasAuto then 1 else 0)
      let map2 := sec.items.enum.foldl (fun m p => mapInsert m p.2.id (row2 + p.1)) map
      let row3 := row2 + sec.items.length
      let totalRows : Nat :=
        if sec.showTotal ∧ (sec.items.length > 0 ∨ hasAuto) then 1
        else if sec.showTotal ∧ sec.items.length = 0 then 1
        else 0
      (map2, row3 + totalRows + 1)
  (b.sections.foldl step ([], 2)).1

/-- `candidateMatchesSheet(candidate, sheetRows)`: every predicted item row
exists and carries a plausible item label. -/
def candidateMatchesSheet (map : List (Str × Nat)) (rows : List Row) : Bool :=
  (mapEntries map).all (fun p =>
    match rows.get? (p.2 - 1) with
    | none => false
    | some row =>
      let label := rowLabel (some row)
      decide (label ≠ []) && !hasSectionMarker (some row) &&
        !matchesAnyLabel (some row) forbiddenLabels &&
        !(decide (label.head? = some '←')))

/-- `pickExactItemRowMap(budget, sheetRows)`: the four layout permutations,
first match wins; an empty sheet returns the primary candidate directly. -/
def pickExactItemRowMap (b : Budget) (rows : List Row) : Option (List (Str × Nat)) :=
  if rows = [] then some (buildLayoutCandidate b true true)
  else
    let c1 := buildLayoutCandidate b true true
    let c2 := buildLayoutCandidate b false true
    let c3 := buildLayoutCandidate b true false
    let c4 := buildLayoutCandidate b false false
    if candidateMatchesSheet c1 rows then some c1
    else if candidateMatchesSheet c2 rows then some c2
    else if candidateMatchesSheet c3 rows then some c3
    else if candidateMatchesSheet c4 rows then some c4
    else none

/-- The `isRowUsable` check of `buildNameMatchedRowMap`. -/
def isRowUsable (row : Row) : Bool :=
  let label := rowLabel (some row)
  decide (label ≠ []) && !hasSectionMarker (some row) &&
    !matchesAnyLabel (some row) forbiddenLabels && !(decide (label.head? = some '←'))

/-- `buildNameMatchedRowMap(budget, sheetRows)`: per item, claim the first
unclaimed row whose label equals the item's name. -/
def buildNameMatchedRowMap (b : Budget) (rows : List Row) : List (Str × Nat) :=
  let itemStep : List (Str × Nat) × List Nat → Section → Item → List (Str × Nat) × List Nat :=
    fun (map, used) _sec it =>
      match rows.enum.find? (fun p =>
          !used.contains p.1 && decide (rowLabel (some p.2) = it.name) && isRowUsable p.2) with
      | some p => (mapInsert map it.id (p.1 + 1), p.1 :: used)
      | none => (map, used)
  let step : List (Str × Nat) × List Nat → Section → List (Str × Nat) × List Nat :=
    fun st sec =>
      if sec.type = SUMMARY then st
      else sec.items.foldl (fun st2 it =>
        if it.savingsPercentage ≠ none ∧ sec.type = SAVINGS then st2
        else itemStep st2 sec it) st
  (b.sections.foldl step ([], [])).1

/-- A row bearing a section marker, as collected by
`buildMarkerItemRowMap`. -/
structure MarkerRef where
  rowIndex : Nat
  name : Str
  markerId : Option Str
deriving DecidableEq

/-- The inner `while` of `buildMarkerItemRowMap`'s item loop: starting at
row `r`, skip blanks and auto-rows, stop at markers/boundaries (jumping to
`endRow`), or claim the row.  Returns the claimed row (if any) and the next
cursor position.  The first numeric argument is fuel, always called with
`endRow - r` — exactly the number of remaining iterations, keeping the
recursion structural. -/
def markerScanOne (rows : List Row) (endRow : Nat) : Nat → Nat → Option Nat × Nat
  | 0, r => (none, r)
  | fuel + 1, r =>
    if r < endRow then
      let row := rows.get? (r - 1)
      let label := rowLabel row
      if label = [] ∧ ¬ hasMonthData row then markerScanOne rows endRow fuel (r + 1)
      else if label.head? = some '←' then markerScanOne rows endRow fuel (r + 1)
      else if hasSectionMarker row then (none, endRow)
      else if matchesAnyLabel row boundaryLabels ∨ testWordStartCI (strOf "total") label then
        (none, endRow)
      else (some r, r + 1)
    else (none, r)

/-- `buildMarkerItemRowMap(budget, sheetRows)`: walk from each section
marker to the next, assigning sequential non-boundary rows to the section's
items in order. -/
def buildMarkerItemRowMap (b : Budget) (rows : List Row) : Option (List (Str × Nat)) :=
  let markers : List MarkerRef := rows.enum.filterMap (fun p =>
    (getSectionMarkerMeta (some p.2)).map (fun meta =>
      ⟨p.1 + 1, rowLabel (some p.2), meta.id⟩))
  if markers = [] then none
  else
    let findMarker : List Nat → Section → Option MarkerRef := fun used sec =>
      match markers.find? (fun m => !used.contains m.rowIndex && decide (m.markerId = some sec.id)) with
      | some m => some m
      | none =>
        match markers.find? (fun m => !used.contains m.rowIndex && decide (m.name = sec.name)) with
        | some m => some m
        | none => markers.find? (fun m => !used.contains m.rowIndex)
    let step : List (Str × Nat) × List Nat → Section → List (Str × Nat) × List Nat :=
      fun (map, used) sec =>
        if sec.type = SUMMARY then (map, used)
        else
          match findMarker used sec with
          | none => (map, used)
          | some marker =>
            let used1 := marker.rowIndex :: used
            let nextMarker := markers.find? (fun m => decide (m.rowIndex > marker.rowIndex))
            let sectionEndRow := (nextMarker.map (·.rowIndex)).getD (rows.length + 1)
            let r0 := marker.rowIndex + 1
            let r1 :=
              if sec.type = SAVINGS ∧ (rowLabel (rows.get? (r0 - 1))).head? = some '←'
              then r0 + 1 else r0
            let assign : List (Str × Nat) × Nat → Item → List (Str × Nat) × Nat :=
              fun (m, r) it =>
                let (claimed, r2) := markerScanOne rows sectionEndRow (sectionEndRow - r) r
                match claimed with
                | some ρ => (mapInsert m it.id ρ, r2)
                | none => (m, r2)
            ((sec.items.foldl assign (map, r1)).1, used1)
    let map := (b.sections.foldl step ([], [])).1
    if map ≠ [] then some map else none

/-! ## sheetParser.js — marker-based full rebuild -/

/-- A row bearing a section marker, as collected by
`buildBudgetFromMarkers`. -/
structure MarkerRow where
  rowIndex : Nat
  name : Str
  id : Option Str
  type : Option Str
deriving DecidableEq

/-- The mutable locals of `buildBudgetFromMarkers`' span walk. -/
structure CollectState where
  itemRows : List (Option Row)
  sawAutoRow : Bool
  autoLinkedItemName : Option Str
  totalLabel : Str

/-- The `while (cursor < nextMarkerRow)` walk of `buildBudgetFromMarkers`:
skip blank rows, record auto-rows, stop at boundaries/markers/total rows
(updating the total label), and push everything else as an item row.  The
first numeric argument is fuel, always called with `nextMarkerRow - cursor`
— exactly the number of remaining iterations, keeping the recursion
structural. -/
def collectSpan (rows : List Row) (markerId : Option Str) (nextMarkerRow : Nat) :
    Nat → Nat → CollectState → CollectState
  | 0, _, st => st
  | fuel + 1, cursor, st =>
    if cursor < nextMarkerRow then
      let row := rows.get? (cursor - 1)
      let label := rowLabel row
      let note := jsTrim (jsCellStr (cellAt row 15))
      let totalMarkSectionId := getTotalMarkId row
      let totalMarkHit : Bool :=
        match totalMarkSectionId with
        | some t => decide (markerId = none) || decide (markerId = some t)
        | none => false
      if label = [] ∧ note = [] ∧ ¬ hasMonthData row then
        collectSpan rows markerId nextMarkerRow fuel (cursor + 1) st
      else if label.head? = some '←' then
        let nm := jsTrim ((label.drop 1).dropWhile Char.isWhitespace)
        collectSpan rows markerId nextMarkerRow fuel (cursor + 1)
          { st with sawAutoRow := true,
                    autoLinkedItemName := if nm = [] then none else some nm }
      else if matchesAnyLabel row boundaryLabels then st
      else if hasSectionMarker row then st
      else if totalMarkHit then
        { st with totalLabel := if label ≠ [] then label else st.totalLabel }
      else
        let nextRow := if cursor + 1 < nextMarkerRow then rows.get? cursor else none
        let nextLabel := rowLabel nextRow
        let nextNote := jsTrim (jsCellStr (cellAt nextRow 15))
        let nextIsBlank := nextLabel = [] ∧ nextNote = [] ∧ ¬ hasMonthData nextRow
        let nextIsBoundary :=
          nextRow = none ∨ hasSectionMarker nextRow ∨ matchesAnyLabel nextRow boundaryLabels
        if (testWordStartCI (strOf "total") label ∨ testWordStartCI (strOf "i alt") label) ∧
            (nextIsBlank ∨ nextIsBoundary) then
          { st with totalLabel := label }
        else
          collectSpan rows markerId nextMarkerRow fuel (cursor + 1)
            { st with itemRows := st.itemRows ++ [row] }
    else st

/-- Pair each marker row with its successor's row index (the span end). -/
def withNext : List MarkerRow → List (MarkerRow × Option Nat)
  | [] => []
  | m :: rest => (m, (rest.head?).map (·.rowIndex)) :: withNext rest

/-- The `itemRows.map(...)` item construction of `buildBudgetFromMarkers`,
matching existing items by name (first unused match) and minting fresh ids
from the uuid supply otherwise. -/
def itemsFromRowsStep (existingItems : List Item) (uuid : Nat → Str)
    (acc3 : List Item × List Str × Nat) (row : Option Row) : List Item × List Str × Nat :=
  let acc := acc3.1
  let used := acc3.2.1
  let kk := acc3.2.2
  let name := rowLabel row
  let existingItem := existingItems.find? (fun it =>
    decide (it.name = name) && !used.contains it.id)
  let note := jsTrim (jsCellStr (cellAt row 15))
  let idk : Str × Nat :=
    match existingItem with
    | some e => (e.id, kk)
    | none => (uuid kk, kk + 1)
  let it : Item :=
    { id := idk.1
      name := name
      color := match existingItem with | some e => e.color | none => none
      note := note
      excluded := match existingItem with | some e => e.excluded | none => false
      negative := match existingItem with | some e => e.negative | none => false
      savingsLink := match existingItem with | some e => e.savingsLink | none => none
      savingsPercentage := match existingItem with | some e => e.savingsPercentage | none => none
      monthlyValues := (List.range 12).map (fun m => numOr0 (cellAt row (1 + m))) }
  let used2 := match existingItem with | some e => e.id :: used | none => used
  (acc ++ [it], used2, idk.2)

def itemsFromRows (existingItems : List Item) (itemRows : List (Option Row))
    (uuid : Nat → Str) (k : Nat) : List Item × Nat :=
  let res := itemRows.foldl (itemsFromRowsStep existingItems uuid) ([], [], k)
  (res.1, res.2.2)

/-- Substring occurrence test. -/
def strIncludes (w s : Str) : Bool :=
  (List.range (s.length + 1)).any (fun i => w.isPrefixOf (s.drop i))

/-- Case-insensitive substring test (regex `/w/i` for a literal word). -/
def containsCI (w : Str) (s : Str) : Bool := strIncludes (jsToLower w) (jsToLower s)

/-- `rowColors?.[r]` lookup. -/
def rcLookup (rc : Option (List (Nat × Str))) (r : Nat) : Option Str :=
  rc.bind (fun l => (l.find? (fun p => decide (p.1 = r))).map (·.2))

/-- A JS `Map` built from a keyed list: on duplicate keys the last entry
wins. -/
def mapGetLast (l : List Section) (key : Section → Str) (k : Str) : Option Section :=
  l.reverse.find? (fun s => decide (key s = k))

/-- The per-marker body of `buildBudgetFromMarkers`' reconstruction loop
(the fold's step closure, lifted to a definition). -/
def markerStep (rows : List Row) (rowColors : Option (List (Nat × Str)))
    (uuid : Nat → Str) (existingSections : List Section)
    (acc : List Section × List (Str × Str) × Nat)
    (markerNext : MarkerRow × Option Nat) : List Section × List (Str × Str) × Nat :=
  let secs := acc.1
  let hints := acc.2.1
  let k := acc.2.2
  let marker := markerNext.1
  let nextMarkerRow := markerNext.2.getD (rows.length + 1)
  let existingSection : Option Section :=
    match marker.id with
    | some mid =>
      match mapGetLast existingSections (·.id) mid with
      | some s => some s
      | none => mapGetLast existingSections (·.name) marker.name
    | none => mapGetLast existingSections (·.name) marker.name
  let totalLabel0 :=
    match existingSection with
    | some es => if es.totalLabel ≠ [] then es.totalLabel else strOf "Total " ++ marker.name
    | none => strOf "Total " ++ marker.name
  let c := collectSpan rows marker.id nextMarkerRow
    (nextMarkerRow - (marker.rowIndex + 1)) (marker.rowIndex + 1)
    ⟨[], false, none, totalLabel0⟩
  let existingItems := match existingSection with | some es => es.items | none => []
  let itemsK := itemsFromRows existingItems c.itemRows uuid k
  let st1 : Option Str :=
    match marker.type with
    | some t => some t
    | none =>
      match existingSection with
      | some es => if es.type ≠ [] then some es.type else none
      | none => none
  let sectionType : Str :=
    match st1 with
    | some t => t
    | none =>
      if c.sawAutoRow ∨ containsCI (strOf "savings") marker.name ∨
          containsCI (strOf "opsparing") marker.name then SAVINGS
      else if containsCI (strOf "income") marker.name ∨
          containsCI (strOf "indkomst") marker.name ∨
          containsCI (strOf "income") c.totalLabel ∨
          containsCI (strOf "indkomst") c.totalLabel then INCOME
      else EXPENSE
  let sidK : Str × Nat :=
    match marker.id with
    | some mid => (mid, itemsK.2)
    | none =>
      match existingSection with
      | some es => if es.id ≠ [] then (es.id, itemsK.2) else (uuid itemsK.2, itemsK.2 + 1)
      | none => (uuid itemsK.2, itemsK.2 + 1)
  let sname :=
    if marker.name ≠ [] then marker.name
    else
      match existingSection with
      | some es => if es.name ≠ [] then es.name else strOf "Section"
      | none => strOf "Section"
  let scolor := normalizeHexColor (rcLookup rowColors marker.rowIndex)
    (match existingSection with
     | some es => if es.color ≠ [] then es.color else strOf "#2560a0"
     | none => strOf "#2560a0")
  let parsedSection : Section :=
    ⟨sidK.1, sname, sectionType, scolor, true, c.totalLabel, itemsK.1⟩
  let hints2 :=
    if sectionType = SAVINGS then
      match c.autoLinkedItemName with
      | some nm => hints ++ [(sidK.1, nm)]
      | none => hints
    else hints
  (secs ++ [parsedSection], hints2, sidK.2)

/-- `buildBudgetFromMarkers(budget, sheetRows, rowColors)`: reconstruct the
sections entirely from marker boundaries (strategy 1 of the ladder);
`none` when no row carries a section marker. -/
def buildBudgetFromMarkers (b : Budget) (rows : List Row)
    (rowColors : Option (List (Nat × Str))) (uuid : Nat → Str) : Option Budget :=
  let markerRows : List MarkerRow := rows.enum.filterMap (fun p =>
    (getSectionMarkerMeta (some p.2)).map (fun meta =>
      ⟨p.1 + 1, rowLabel (some p.2), meta.id, meta.type⟩))
  if markerRows = [] then none
  else
    let existingSections := b.sections.filter (fun s => decide (s.type ≠ SUMMARY))
    let folded := (withNext markerRows).foldl
      (markerStep rows rowColors uuid existingSections) ([], [], 0)
    let parsedSections := folded.1
    let hints := folded.2.1
    let k9 := folded.2.2
    let linked := parsedSections.map (fun s =>
      if s.type = INCOME ∨ s.type = EXPENSE then
        { s with items := s.items.map (fun it =>
            hints.foldl (fun cur h =>
              if cur.name = h.2 then { cur with savingsLink := some h.1 } else cur) it) }
      else s)
    let summarySection :=
      match b.sections.find? (fun s => decide (s.type = SUMMARY)) with
      | some s => s
      | none => ⟨uuid k9, strOf "Summary", SUMMARY, strOf "#0a1828", false, [], []⟩
    some { b with sections := linked ++ [summarySection] }

/-! ## sheetParser.js — parseSheetData -/

/-- A change-record value (`oldValue`/`newValue` hold numbers for value
changes and strings for name/note changes). -/
inductive Cval where
  | num (q : ℚ)
  | str (s : Str)
deriving DecidableEq

/-- A detected difference, as recorded by `parseSheetData` (absent JS
object fields are `none`). -/
structure Change where
  type : Str
  sectionName : Str
  itemId : Str
  itemName : Option Str
  field : Option Str
  monthIndex : Option Nat
  oldValue : Cval
  newValue : Cval
deriving DecidableEq

/-- The single synthetic change entry of the marker-rebuild path. -/
def structRebuiltChange : Change :=
  ⟨strOf "name", strOf "Sheet structure", strOf "structure", none, none, none,
   .str (strOf "Local layout"), .str (strOf "Rebuilt from sheet markers")⟩

/-- The result object of `parseSheetData`. -/
structure ParseResult where
  updatedBudget : Budget
  changes : List Change
deriving DecidableEq

/-- The per-item body of `parseSheetData`'s read-back loop (row-mapped
path): name change, twelve unconditional value imports with tolerance-gated
change records, and note change.  The loop runs on the deep clone of the
budget, modelled as a pure item transformation. -/
def processItem (secName : Str) (secType : Str) (itemRowMap : List (Str × Nat))
    (rows : List Row) (it : Item) : Item × List Change :=
  match mapLookup itemRowMap it.id with
  | none => (it, [])
  | some r =>
    match rows.get? (r - 1) with
    | none => (it, [])
    | some sheetRow =>
      if it.savingsPercentage ≠ none ∧ secType = SAVINGS then (it, [])
      else
        let sheetName := jsTrim (jsCellStr (cellAt (some sheetRow) 0))
        let nameChanged : Bool := decide (sheetName ≠ []) && decide (sheetName ≠ it.name)
        let name1 := if nameChanged then sheetName else it.name
        let nameChanges : List Change :=
          if nameChanged then
            [⟨strOf "name", secName, it.id, none, some (strOf "name"), none,
              .str it.name, .str sheetName⟩]
          else []
        let sheetVal : Nat → ℚ := fun m => numOr0 (cellAt (some sheetRow) (1 + m))
        let localVal : Nat → ℚ := fun m => (it.monthlyValues.get? m).getD 0
        let valueChanges : List Change := (List.range 12).filterMap (fun m =>
          if jsAbs (qSub (sheetVal m) (localVal m)) > TOL then
            some ⟨strOf "value", secName, it.id, some name1,
              some (strOf "month_" ++ natDigits m), some m,
              .num (localVal m), .num (sheetVal m)⟩
          else none)
        let newMonthly := (List.range 12).map sheetVal ++ it.monthlyValues.drop 12
        let sheetNote := jsTrim (jsCellStr (cellAt (some sheetRow) 15))
        let localNote := jsTrim it.note
        let noteChanged : Bool := decide (sheetNote ≠ localNote)
        let noteChanges : List Change :=
          if noteChanged then
            [⟨strOf "note", secName, it.id, some name1, some (strOf "note"), none,
              .str localNote, .str sheetNote⟩]
          else []
        let note1 := if noteChanged then sheetNote else it.note
        ({ it with name := name1, note := note1, monthlyValues := newMonthly },
         nameChanges ++ valueChanges ++ noteChanges)

/-- The per-section body of the read-back loop (summary sections are
skipped entirely). -/
def processSection (itemRowMap : List (Str × Nat)) (rows : List Row) (sec : Section) :
    Section × List Change :=
  if sec.type = SUMMARY then (sec, [])
  else
    let results := sec.items.map (processItem sec.name sec.type itemRowMap rows)
    ({ sec with items := results.map (·.1) }, results.flatMap (·.2))

/-- The item-row map `parseSheetData` settles on for the row-mapped paths:
`buildMarkerItemRowMap(...) ?? pickExactItemRowMap(...) ?? buildNameMatchedRowMap(...)`. -/
def effectiveItemRowMap (b : Budget) (rows : List Row) : List (Str × Nat) :=
  (buildMarkerItemRowMap b rows).getD
    ((pickExactItemRowMap b rows).getD (buildNameMatchedRowMap b rows))

/-- `parseSheetData(budget, sheetRows, rowColors)`.  The deep clone
(`JSON.parse(JSON.stringify(budget))`) is the identity on modelled values,
and the stringify-based structural comparison of the rebuild path is
decidable equality of the section lists. -/
def parseSheetData (b : Budget) (rows : List Row)
    (rowColors : Option (List (Nat × Str))) (uuid : Nat → Str) : ParseResult :=
  match buildBudgetFromMarkers b rows rowColors uuid with
  | some rebuiltBudget =>
    let changes := if rebuiltBudget.sections ≠ b.sections then [structRebuiltChange] else []
    ⟨rebuiltBudget, changes⟩
  | none =>
    let results := b.sections.map (processSection (effectiveItemRowMap b rows) rows)
    ⟨{ b with sections := results.map (·.1) }, results.flatMap (·.2)⟩

/-! ## Round-trip machinery: what each layout row reads back as

`generateSheetsPayload` writes one range per non-separator layout entry, at
consecutive row indexes; a simulated read therefore returns, per layout
row, exactly the emitted values (separator rows read back blank). -/

/-- The row of values a layout entry's emission writes (separators write
nothing and read back as an empty row; the header row is written by the
dedicated header pass). -/
def entryVals (layout : List RowEntry) (inc expR sav : List Nat) (e : RowEntry) : Row :=
  match e with
  | .header _ => headerValues
  | e =>
    match emitEntry layout inc expR sav e with
    | some v => v.values
    | none => []

/-- `entryVals` at a budget's own layout. -/
def layVals (b : Budget) (e : RowEntry) : Row :=
  entryVals (buildRowLayout b).rowLayout (buildRowLayout b).incomeTotalRows
    (buildRowLayout b).expenseTotalRows (buildRowLayout b).savingsTotalRows e

/-- The sheet a round trip reads: the payload's emitted cell values. -/
def sheetRows (b : Budget) : List Row := simulateRead (generateSheetsPayload b)

/-- The entries occupy consecutive sheet rows starting at `r`. -/
def consecutiveFrom : List RowEntry → Nat → Prop
  | [], _ => True
  | e :: t, r => rowIndexOf e = r ∧ consecutiveFrom t (r + 1)

/-! ## Well-formedness for the round-trip identity

The conditions under which writing a budget to a sheet and parsing the
exact written values back reproduces it: the data survives trimming, the
row-classification heuristics of the parser's span walk cannot fire on item
rows, the markers parse back to the section's own id and type, and the
name-keyed matching steps (item rows, savings-link hints) are
unambiguous. -/

def wfItem (it : Item) : Prop :=
  it.monthlyValues.length = 12 ∧ jsTrim it.name = it.name ∧
  it.name.head? ≠ some '←' ∧
  testWordStartCI (strOf "total") it.name = false ∧
  testWordStartCI (strOf "i alt") it.name = false ∧
  (∀ l ∈ boundaryLabels, jsToLower it.name ≠ jsToLower l) ∧
  jsTrim it.note = it.note ∧
  sectionMarkTag.isPrefixOf it.note = false ∧
  totalMarkTag.isPrefixOf it.note = false

def wfSection (s : Section) : Prop :=
  (s.type = INCOME ∨ s.type = EXPENSE ∨ s.type = SAVINGS) ∧
  s.showTotal = true ∧
  jsTrim s.name = s.name ∧ s.name ≠ [] ∧
  jsTrim s.totalLabel = s.totalLabel ∧ s.totalLabel ≠ [] ∧
  s.totalLabel.head? ≠ some '←' ∧
  s.color ≠ [] ∧
  jsTrim s.id = s.id ∧ s.id ≠ [] ∧ ':' ∉ s.id ∧
  ∀ it ∈ s.items, wfItem it ∧
    (s.type = SAVINGS → it.savingsPercentage ≠ none →
      it.monthlyValues = List.replicate 12 0)

def wfBudget (b : Budget) (front : List Section) (sumSec : Section) : Prop :=
  b.sections = front ++ [sumSec] ∧ front ≠ [] ∧ sumSec.type = SUMMARY ∧
  (front.map Section.id).Nodup ∧
  ((front.flatMap fun s => s.items.map Item.id).Nodup) ∧
  (((front.filter fun s => decide (s.type = INCOME) || decide (s.type = EXPENSE)).flatMap
    fun s => s.items.map Item.name).Nodup) ∧
  ∀ s ∈ front, wfSection s

/-- The `Option Row` values the span walk collects for a run of item rows
starting at sheet row `s0`. -/
def itemRowsOf (L : List RowEntry) (sec : Section) : Nat → List Item → List (Option Row)
  | _, [] => []
  | s0, it :: rest => some (emitItem L s0 it sec).values :: itemRowsOf L sec (s0 + 1) rest

/-- The marker a sheet row read back from a layout entry carries. -/
def markerOfEntry (b : Budget) (e : RowEntry) : Option MarkerRow :=
  (getSectionMarkerMeta (some (layVals b e))).map (fun meta =>
    ⟨rowIndexOf e, rowLabel (some (layVals b e)), meta.id, meta.type⟩)

/-! ## Concrete fixtures for witnesses and counterexamples -/

def exItem1 : Item :=
  ⟨strOf "i1", strOf "Salary", none, [], false, false, none, none, List.replicate 12 50000⟩

def exIncomeSec : Section :=
  ⟨strOf "inc", strOf "Income", INCOME, strOf "#ffffff", true, strOf "Total income", [exItem1]⟩

def exSummarySec : Section :=
  ⟨strOf "sum", strOf "Summary", SUMMARY, strOf "#0a1828", false, [], []⟩

def exBudget : Budget :=
  ⟨strOf "b1", strOf "Test", 2026, none, [exIncomeSec, exSummarySec]⟩

def c5Rent : Item :=
  ⟨strOf "r1", strOf "Rent", none, [], true, false, none, none, List.replicate 12 100⟩

def c5Food : Item :=
  ⟨strOf "f1", strOf "Food", none, [], false, false, none, none, List.replicate 12 50⟩

def c5Sec : Section :=
  ⟨strOf "exp", strOf "Expenses", EXPENSE, strOf "#ffffff", true, strOf "Total exp",
   [c5Rent, c5Food]⟩

def c5Budget : Budget := ⟨strOf "b5", strOf "T", 2026, none, [c5Sec]⟩

def c5AllExSec : Section :=
  ⟨strOf "exp2", strOf "E2", EXPENSE, strOf "#ffffff", true, strOf "Total e2", [c5Rent]⟩

def c5Budget2 : Budget := ⟨strOf "b52", strOf "T", 2026, none, [c5AllExSec]⟩

def uuidFix : Nat → Str := fun n => strOf "u" ++ natDigits n

def c10Item : Item :=
  ⟨strOf "a1", strOf "A", none, [], false, false, none, none, List.replicate 12 100⟩

def c10Sec : Section :=
  ⟨strOf "inc1", strOf "Inc", INCOME, strOf "#ffffff", true, strOf "Total inc", [c10Item]⟩

def c10B : Budget := ⟨strOf "bA", strOf "T", 2026, none, [c10Sec]⟩

def c10Rows : List Row :=
  [[], [], Cell.str (strOf "A") ::
    Cell.num ⟨200001, 2000, by decide, by decide⟩ :: List.replicate 11 (Cell.num 100)]

def c7Rows : List Row :=
  [[], [], Cell.str (strOf "A") :: Cell.num 150 :: List.replicate 11 (Cell.num 100)]

def c1Summary : Section :=
  ⟨strOf "sum9", strOf "Summary", SUMMARY, strOf "#0a1828", false, [], []⟩

def c1BadSec : Section :=
  ⟨strOf "inc9", strOf "Income", INCOME, strOf "#ffffff", true, [],
   [⟨strOf "i9", strOf "Wage", none, [], false, false, none, none, List.replicate 12 100⟩]⟩

def c1Bad : Budget := ⟨strOf "b9", strOf "T", 2026, none, [c1BadSec, c1Summary]⟩

def c1IncSec : Section :=
  ⟨strOf "incG", strOf "Income", INCOME, strOf "#2560a0", true, strOf "Total income",
   [⟨strOf "gi1", strOf "Wages", none, [], false, false, some (strOf "savG"), none,
     List.replicate 12 30000⟩]⟩

def c1SavSec : Section :=
  ⟨strOf "savG", strOf "Opsparing", SAVINGS, strOf "#2560a0", true,
   strOf "Total opsparing",
   [⟨strOf "gs1", strOf "Pension", none, [], false, false, none, some 10,
     List.replicate 12 0⟩,
    ⟨strOf "gs2", strOf "Buffer", none, strOf "note", false, false, none, none,
     List.replicate 12 500⟩]⟩

def c1Good : Budget := ⟨strOf "bG", strOf "G", 2026, none, [c1IncSec, c1SavSec, c1Summary]⟩

def c4Linked : Item :=
  ⟨strOf "li4", strOf "Salary", none, [], false, false, some (strOf "sav4"), none,
   List.replicate 12 1000⟩

def c4IncSec : Section :=
  ⟨strOf "inc4", strOf "Income", INCOME, strOf "#ffffff", true, strOf "Total income",
   [c4Linked]⟩

def c4PctItem : Item :=
  ⟨strOf "sp4", strOf "Pension", none, [], false, false, none, some 50,
   List.replicate 12 0⟩

def c4SavSec : Section :=
  ⟨strOf "sav4", strOf "Savings", SAVINGS, strOf "#ffffff", true, strOf "Total savings",
   [c4PctItem]⟩

def c4B : Budget := ⟨strOf "b4", strOf "T", 2026, none, [c4IncSec, c4SavSec]⟩

def c4Rows : List Row :=
  [List.replicate 16 Cell.emp ++ [Cell.str (sectionMarkTag ++ strOf "sav4:savings")],
   Cell.str (strOf "Pension") :: List.replicate 12 (Cell.num 777)]

def c3Linked : Item :=
  ⟨strOf "li1", strOf "Salary", none, [], false, false, some (strOf "sav1"), none,
   List.replicate 12 40000⟩

def c3IncSec : Section :=
  ⟨strOf "incS", strOf "Income", INCOME, strOf "#ffffff", true, strOf "Total income",
   [c3Linked]⟩

def c3SavItem : Item :=
  ⟨strOf "sp1", strOf "Pension", none, [], false, false, none, some 10,
   List.replicate 12 0⟩

def c3SavSec : Section :=
  ⟨strOf "sav1", strOf "Savings", SAVINGS, strOf "#ffffff", true, strOf "Total savings",
   [c3SavItem]⟩

def c3B : Budget := ⟨strOf "b3", strOf "T", 2026, none, [c3IncSec, c3SavSec]⟩

def c2Rows : List Row :=
  [List.replicate 16 Cell.emp ++ [Cell.str (sectionMarkTag ++ strOf "inc1:income")],
   Cell.str (strOf "A") :: List.replicate 12 (Cell.num 100)]

/-! ## A heap model of the call (sheetParser.js never writes to `budget`)

JS passes `budget` by reference.  `parseSheetData` deep-clones it
(`JSON.parse(JSON.stringify(budget))`), which allocates an entirely fresh
object graph; every write of the read-back loop targets that graph, and the
rebuild path's `{ ...budget, sections }` object is likewise freshly
allocated — no statement of sheetParser.js assigns through the `budget`
reference.  The model keeps budgets in an explicit heap indexed by
references: the clone is a fresh cell, the loop's writes collapse to the
final store into that cell, and the argument's cell is never stored to. -/

def heapGet (h : List Budget) (r : Nat) : Option Budget := h.get? r

def heapSet (h : List Budget) (r : Nat) (b : Budget) : List Budget := h.set r b

/-- `parseSheetData(budget, sheetRows, rowColors)` acting on a budget
reference `r` into the heap `h`: read the budget, allocate the deep clone
in a fresh cell, run the pure function, write its result through the
clone's reference only, and return the new heap, the reference the caller
receives, and the changes. -/
def parseSheetDataH (h : List Budget) (r : Nat) (rows : List Row)
    (rowColors : Option (List (Nat × Str))) (uuid : Nat → Str) :
    List Budget × Nat × List Change :=
  match heapGet h r with
  | none => (h, r, [])
  | some b =>
    let cloneRef := h.length
    let h1 := h ++ [b]
    let res := parseSheetData b rows rowColors uuid
    (heapSet h1 cloneRef res.updatedBudget, cloneRef, res.changes)

/-! ## Derived views of the layout fold (for reasoning) -/

/-- First item row of a section block (header row + optional auto-row). -/
def itemStartOf (row0 : Nat) (autoL : Option (Nat × Str)) : Nat :=
  row0 + 1 + (match autoL with | some _ => 1 | none => 0)

/-- The row entries `layoutStep` appends for one section, given the row
counter and item-row map at that point. -/
def blockEntries (b : Budget) (row0 : Nat) (map : List (Str × Nat)) (sec : Section) :
    List RowEntry :=
  if sec.type = SUMMARY then
    [.expGrand row0 sec, .savGrand (row0 + 1) sec, .remaining (row0 + 2) sec,
     .runningBalance (row0 + 3) (row0 + 2) sec, .separator (row0 + 4)]
  else
    let autoL := secAutoLink b map sec
    let s0 := itemStartOf row0 autoL
    [RowEntry.sectionHeader row0 sec] ++
    (match autoL with
     | some (lr, nm) => [RowEntry.savingsAuto (row0 + 1) sec lr nm]
     | none => []) ++
    (sec.items.enum.map fun p => RowEntry.item (s0 + p.1) p.2 sec) ++
    (if sec.showTotal then
      [RowEntry.total (s0 + sec.items.length) sec s0 (s0 + sec.items.length - 1)
        (sec.items.enum.map fun p => (s0 + p.1, p.2)) (autoL.map fun _ => row0 + 1)]
     else []) ++
    [RowEntry.separator (s0 + sec.items.length + (if sec.showTotal then 1 else 0))]

/-- The item-row map after `layoutStep` processes one section. -/
def mapAfter (b : Budget) (row0 : Nat) (map : List (Str × Nat)) (sec : Section) :
    List (Str × Nat) :=
  if sec.type = SUMMARY then map
  else
    sec.items.enum.foldl
      (fun m p => mapInsert m p.2.id (itemStartOf row0 (secAutoLink b map sec) + p.1)) map

/-- The concatenated blocks of a section list, threading row counter and
item-row map exactly as the fold does. -/
def layoutBlocks (b : Budget) : List Section → Nat → List (Str × Nat) → List RowEntry
  | [], _, _ => []
  | sec :: rest, row0, map =>
    blockEntries b row0 map sec ++
      layoutBlocks b rest (row0 + (blockEntries b row0 map sec).length) (mapAfter b row0 map sec)

/-- The item-row map after processing a section list. -/
def mapThrough (b : Budget) : List Section → Nat → List (Str × Nat) → List (Str × Nat)
  | [], _, map => map
  | sec :: rest, row0, map =>
    mapThrough b rest (row0 + (blockEntries b row0 map sec).length) (mapAfter b row0 map sec)

/-- The marker rows the written sheet contains: one per section, at the
block's header row, carrying the section's name, id and type. -/
def markersSpec (b : Budget) : List Section → Nat → List (Str × Nat) → List MarkerRow
  | [], _, _ => []
  | sec :: rest, row0, map =>
    ⟨row0, sec.name, some sec.id, some sec.type⟩ ::
      markersSpec b rest (row0 + (blockEntries b row0 map sec).length)
        (mapAfter b row0 map sec)

/-- Symbolic form of a total-row month cell: the four/five formula shapes
of the generator, with their row references explicit. -/
inductive TotalPlan where
  | litZero
  | autoOnly (a : Nat)
  | autoSum (a s e : Nat)
  | sumRange (s e : Nat)
  | parts (auto : Option Nat) (xs : List (Nat × Bool))
deriving DecidableEq

/-- The branch selection of `totalMonthCell`, abstracted from the column. -/
def totalPlanOf (itemStartRow itemEndRow : Nat) (entries : List (Nat × Item))
    (autoRowIndex : Option Nat) : TotalPlan :=
  let hasSpecial := entries.any (fun p => p.2.excluded || p.2.negative)
  let hasItems := itemStartRow ≤ itemEndRow
  let included := entries.filter (fun p => !p.2.excluded)
  match autoRowIndex with
  | some a =>
    if ¬ hasItems then .autoOnly a
    else if ¬ hasSpecial then .autoSum a itemStartRow itemEndRow
    else .parts (some a) (included.map fun p => (p.1, p.2.negative))
  | none =>
    if hasItems ∧ ¬ hasSpecial then .sumRange itemStartRow itemEndRow
    else if hasItems ∧ hasSpecial then
      (if included = [] then .litZero
       else .parts none (included.map fun p => (p.1, p.2.negative)))
    else .litZero

/-- Render a symbolic total plan at a column — the exact strings of
`totalMonthCell`. -/
def renderPlan (col : Nat) : TotalPlan → Cell
  | .litZero => .num 0
  | .autoOnly a => .str ('=' :: colLetter col ++ natDigits a)
  | .autoSum a s e =>
    .str ('=' :: colLetter col ++ natDigits a ++ '+' :: strOf "SUM(" ++
      colLetter col ++ natDigits s ++ ':' :: colLetter col ++ natDigits e ++ [')'])
  | .sumRange s e =>
    .str ('=' :: strOf "SUM(" ++ colLetter col ++ natDigits s ++ ':' ::
      colLetter col ++ natDigits e ++ [')'])
  | .parts a xs =>
    .str ('=' :: joinPlus
      ((match a with | some v => [colLetter col ++ natDigits v] | none => []) ++
        xs.map (fun p =>
          if p.2 then '-' :: colLetter col ++ natDigits p.1
          else colLetter col ++ natDigits p.1)))

/-- The sheet rows a total plan references. -/
def planRefs : TotalPlan → List Nat
  | .litZero => []
  | .autoOnly a => [a]
  | .autoSum a s e => a :: List.range' s (e + 1 - s)
  | .sumRange s e => List.range' s (e + 1 - s)
  | .parts a xs => a.toList ++ xs.map (·.1)

/-- The savings-link hints the marker rebuild collects over a section list,
threading row counter and item-row map exactly as the layout fold does: one
hint per savings section whose auto-link resolved to a nonempty item name. -/
def hintsOf (b : Budget) : List Section → Nat → List (Str × Nat) → List (Str × Str)
  | [], _, _ => []
  | sec :: rest, row0, map =>
    (if sec.type = SAVINGS then
      (match secAutoLink b map sec with
       | some (_, nm) => if nm = [] then [] else [(sec.id, nm)]
       | none => [])
     else []) ++
      hintsOf b rest (row0 + (blockEntries b row0 map sec).length) (mapAfter b row0 map sec)

/-- The four summary-block entries that survive into the written sheet (the
trailing separator row is never written). -/
def sumTail (b : Budget) (front : List Section) (sumSec : Section) : List RowEntry :=
  [RowEntry.expGrand (2 + (layoutBlocks b front 2 []).length) sumSec,
   RowEntry.savGrand (2 + (layoutBlocks b front 2 []).length + 1) sumSec,
   RowEntry.remaining (2 + (layoutBlocks b front 2 []).length + 2) sumSec,
   RowEntry.runningBalance (2 + (layoutBlocks b front 2 []).length + 3)
     (2 + (layoutBlocks b front 2 []).length + 2) sumSec]

/-- All written non-header layout entries of a budget split as
`front ++ [sumSec]`. -/
def esOf (b : Budget) (front : List Section) (sumSec : Section) : List RowEntry :=
  layoutBlocks b front 2 [] ++ sumTail b front sumSec

/-! ## Supporting lemmas -/

theorem qAdd_eq (a b : ℚ) : qAdd a b = a + b := by
  unfold qAdd
  rw [Rat.mkRat_eq_div]
  have ha : ((a.den : ℚ)) ≠ 0 := by
    exact_mod_cast a.den_nz
  have hb : ((b.den : ℚ)) ≠ 0 := by
    exact_mod_cast b.den_nz
  conv_rhs => rw [← Rat.num_div_den a, ← Rat.num_div_den b]
  field_simp
  try push_cast
  try ring

theorem qSub_eq (a b : ℚ) : qSub a b = a - b := by
  unfold qSub
  rw [Rat.mkRat_eq_div]
  have ha : ((a.den : ℚ)) ≠ 0 := by
    exact_mod_cast a.den_nz
  have hb : ((b.den : ℚ)) ≠ 0 := by
    exact_mod_cast b.den_nz
  conv_rhs => rw [← Rat.num_div_den a, ← Rat.num_div_den b]
  field_simp
  try push_cast
  try ring

theorem qMul_eq (a b : ℚ) : qMul a b = a * b := by
  unfold qMul
  rw [Rat.mkRat_eq_div]
  have ha : ((a.den : ℚ)) ≠ 0 := by
    exact_mod_cast a.den_nz
  have hb : ((b.den : ℚ)) ≠ 0 := by
    exact_mod_cast b.den_nz
  conv_rhs => rw [← Rat.num_div_den a, ← Rat.num_div_den b]
  field_simp
  try push_cast
  try ring

theorem qMkInt_eq (n d : Int) : qMkInt n d = (n : ℚ) / (d : ℚ) := by
  unfold qMkInt
  by_cases hd : 0 ≤ d
  · rw [if_pos hd, Rat.mkRat_eq_div]
    congr 1
    exact_mod_cast Int.toNat_of_nonneg hd
  · rw [if_neg hd, Rat.mkRat_eq_div]
    have h1 : (((-d).toNat : Int) : ℚ) = ((-d : Int) : ℚ) := by
      exact_mod_cast Int.toNat_of_nonneg (by omega)
    push_cast at h1 ⊢
    rw [h1]
    rw [neg_div_neg_eq]

theorem qDiv_eq (a b : ℚ) : qDiv a b = a / b := by
  unfold qDiv
  rw [qMkInt_eq]
  by_cases hb0 : b.num = 0
  · have hb : b = 0 := by
      rwa [Rat.num_eq_zero] at hb0
    simp [hb, hb0]
  · have ha : ((a.den : ℚ)) ≠ 0 := by
      exact_mod_cast a.den_nz
    have hbd : ((b.den : ℚ)) ≠ 0 := by
      exact_mod_cast b.den_nz
    have hbn : ((b.num : ℚ)) ≠ 0 := by
      exact_mod_cast hb0
    conv_rhs => rw [← Rat.num_div_den a, ← Rat.num_div_den b]
    field_simp
    try push_cast
    try ring

theorem qNeg_eq (a : ℚ) : qNeg a = -a := by
  unfold qNeg
  rw [Rat.mkRat_eq_div]
  conv_rhs => rw [← Rat.num_div_den a]
  push_cast
  rw [neg_div]

theorem jsAbs_eq (a : ℚ) : jsAbs a = |a| := by
  unfold jsAbs
  by_cases h : a.num < 0
  · rw [if_pos h, qNeg_eq, abs_of_neg (Rat.num_neg.mp h)]
  · rw [if_neg h, abs_of_nonneg (Rat.num_nonneg.mp (by omega))]

theorem TOL_eq : TOL = 1 / 1000 := by
  have h : (1 / 1000 : ℚ) = mkRat 1 1000 := by
    rw [Rat.mkRat_eq_div]
    norm_num
  rw [h]
  decide

theorem qOfNat_eq (n : Nat) : qOfNat n = (n : ℚ) := by
  unfold qOfNat
  rw [Rat.mkRat_eq_div]
  norm_num


theorem layoutStep_rowLayout (b : Budget) (st : LState) (sec : Section) :
    (layoutStep b st sec).rowLayout = st.rowLayout ++ blockEntries b st.row st.itemRowMap sec := by
  unfold layoutStep blockEntries
  by_cases h : sec.type = SUMMARY
  · simp [h]
  · simp only [if_neg h]
    by_cases h1 : sec.showTotal ∧ (sec.items.length > 0 ∨
        (secAutoLink b st.itemRowMap sec).map (fun _ => st.row + 1) ≠ none)
    · simp only [if_pos h1, if_pos h1.1, itemStartOf]
      cases hA : secAutoLink b st.itemRowMap sec with
      | none => simp [hA, List.append_assoc]
      | some v =>
        cases v with
        | mk lr nm => simp [hA, List.append_assoc, Nat.add_assoc, Nat.add_comm 1]
    · by_cases h2 : sec.showTotal ∧ sec.items.length = 0
      · have hA : secAutoLink b st.itemRowMap sec = none := by
          by_contra hc
          cases hAs : secAutoLink b st.itemRowMap sec with
          | none => exact hc hAs
          | some v => exact h1 ⟨h2.1, Or.inr (by simp [hAs])⟩
        have hnil : sec.items = [] := List.length_eq_zero.mp h2.2
        simp only [if_neg h1, if_pos h2, hA, itemStartOf, if_pos h2.1]
        simp [hnil, List.append_assoc]
      · have hT : sec.showTotal = false := by
          by_contra hc
          have hc' : sec.showTotal = true := by
            cases hs : sec.showTotal
            · exact absurd hs hc
            · rfl
          rcases Nat.eq_zero_or_pos sec.items.length with h0 | hp
          · exact h2 ⟨hc', h0⟩
          · exact h1 ⟨hc', Or.inl hp⟩
        simp only [if_neg h1, if_neg h2, hT, itemStartOf, if_neg (by simp : ¬False)]
        cases hA : secAutoLink b st.itemRowMap sec with
        | none => simp [hA, List.append_assoc]
        | some v =>
          cases v with
          | mk lr nm => simp [hA, List.append_assoc, Nat.add_assoc, Nat.add_comm 1]

theorem layoutStep_row (b : Budget) (st : LState) (sec : Section) :
    (layoutStep b st sec).row = st.row + (blockEntries b st.row st.itemRowMap sec).length := by
  unfold layoutStep blockEntries
  by_cases h : sec.type = SUMMARY
  · simp [h]
  · simp only [if_neg h]
    by_cases h1 : sec.showTotal ∧ (sec.items.length > 0 ∨
        (secAutoLink b st.itemRowMap sec).map (fun _ => st.row + 1) ≠ none)
    · simp only [if_pos h1, if_pos h1.1, itemStartOf]
      cases hA : secAutoLink b st.itemRowMap sec with
      | none => simp [hA]; omega
      | some v => simp [hA]; omega
    · by_cases h2 : sec.showTotal ∧ sec.items.length = 0
      · have hA : secAutoLink b st.itemRowMap sec = none := by
          by_contra hc
          cases hAs : secAutoLink b st.itemRowMap sec with
          | none => exact hc hAs
          | some v => exact h1 ⟨h2.1, Or.inr (by simp [hAs])⟩
        have hnil : sec.items = [] := List.length_eq_zero.mp h2.2
        simp only [if_neg h1, if_pos h2, hA, itemStartOf, if_pos h2.1]
        simp [hnil]
      · have hT : sec.showTotal = false := by
          by_contra hc
          have hc' : sec.showTotal = true := by
            cases hs : sec.showTotal
            · exact absurd hs hc
            · rfl
          rcases Nat.eq_zero_or_pos sec.items.length with h0 | hp
          · exact h2 ⟨hc', h0⟩
          · exact h1 ⟨hc', Or.inl hp⟩
        simp only [if_neg h1, if_neg h2, hT, itemStartOf]
        cases hA : secAutoLink b st.itemRowMap sec with
        | none => simp [hA]; omega
        | some v => simp [hA]; omega

theorem layoutStep_map (b : Budget) (st : LState) (sec : Section) :
    (layoutStep b st sec).itemRowMap = mapAfter b st.row st.itemRowMap sec := by
  unfold layoutStep mapAfter
  by_cases h : sec.type = SUMMARY
  · simp [h]
  · simp only [if_neg h]
    have harg : ∀ autoL : Option (Nat × Str),
        st.row + 1 + (match autoL with
          | some (_, _) => [RowEntry.savingsAuto (st.row + 1) sec ((0:Nat)) ([])]
          | none => ([] : List RowEntry)).length = itemStartOf st.row autoL := by
      intro autoL
      cases autoL with
      | none => simp [itemStartOf]
      | some v => simp [itemStartOf]
    by_cases h1 : sec.showTotal ∧ (sec.items.length > 0 ∨
        (secAutoLink b st.itemRowMap sec).map (fun _ => st.row + 1) ≠ none)
    · simp only [if_pos h1]
      cases hA : secAutoLink b st.itemRowMap sec with
      | none => simp [hA, itemStartOf]
      | some v => cases v; simp [hA, itemStartOf]
    · by_cases h2 : sec.showTotal ∧ sec.items.length = 0
      · simp only [if_neg h1, if_pos h2]
        cases hA : secAutoLink b st.itemRowMap sec with
        | none => simp [hA, itemStartOf]
        | some v => cases v; simp [hA, itemStartOf]
      · simp only [if_neg h1, if_neg h2]
        cases hA : secAutoLink b st.itemRowMap sec with
        | none => simp [hA, itemStartOf]
        | some v => cases v; simp [hA, itemStartOf]

theorem foldl_layout_rowLayout (b : Budget) :
    ∀ (secs : List Section) (st : LState),
    (secs.foldl (layoutStep b) st).rowLayout = st.rowLayout ++ layoutBlocks b secs st.row st.itemRowMap := by
  intro secs
  induction secs with
  | nil => intro st; simp [layoutBlocks]
  | cons sec rest ih =>
    intro st
    rw [List.foldl_cons, ih, layoutStep_rowLayout, layoutStep_row, layoutStep_map, layoutBlocks]
    simp [List.append_assoc]

theorem foldl_layout_map (b : Budget) :
    ∀ (secs : List Section) (st : LState),
    (secs.foldl (layoutStep b) st).itemRowMap = mapThrough b secs st.row st.itemRowMap := by
  intro secs
  induction secs with
  | nil => intro st; simp [mapThrough]
  | cons sec rest ih =>
    intro st
    rw [List.foldl_cons, ih, layoutStep_row, layoutStep_map, mapThrough]

theorem buildRowLayout_rowLayout (b : Budget) :
    (buildRowLayout b).rowLayout = .header 1 :: layoutBlocks b b.sections 2 [] := by
  unfold buildRowLayout
  simp only []
  rw [foldl_layout_rowLayout]
  rfl

theorem buildRowLayout_map (b : Budget) :
    (buildRowLayout b).itemRowMap = mapThrough b b.sections 2 [] := by
  unfold buildRowLayout
  simp only []
  rw [foldl_layout_map]

theorem processItem_nil_rows (secName secType : Str) (map : List (Str × Nat)) (it : Item) :
    processItem secName secType map [] it = (it, []) := by
  unfold processItem
  cases mapLookup map it.id with
  | none => rfl
  | some r => simp

theorem processSection_nil_rows (map : List (Str × Nat)) (sec : Section) :
    processSection map [] sec = (sec, []) := by
  unfold processSection
  by_cases h : sec.type = SUMMARY
  · simp [h]
  · have h1 : sec.items.map (processItem sec.name sec.type map []) =
        sec.items.map (fun it => (it, ([] : List Change))) :=
      List.map_congr_left (fun it _ => processItem_nil_rows _ _ _ _)
    simp only [if_neg h, h1, Prod.mk.injEq]
    constructor
    · cases sec
      simp only [List.map_map]
      congr 1
      exact (List.map_congr_left fun a _ => rfl).trans (List.map_id _)
    · simp

/-- C8 (empty sheet): parsing `sheetRows = []` against any budget returns
the budget unchanged with an empty change list.  (The embedding of
`parseSheetData` is a total function: every partial JS operation on the
row array is modelled with its `undefined`-propagating semantics, so no
path can throw.) -/
theorem C8_empty_sheet_graceful (b : Budget) (rowColors : Option (List (Nat × Str)))
    (uuid : Nat → Str) :
    parseSheetData b [] rowColors uuid = ⟨b, []⟩ := by
  unfold parseSheetData
  have hrb : buildBudgetFromMarkers b [] rowColors uuid = none := by
    unfold buildBudgetFromMarkers
    rfl
  rw [hrb]
  have h1 : ∀ map : List (Str × Nat), b.sections.map (processSection map []) =
      b.sections.map (fun sec => (sec, ([] : List Change))) :=
    fun map => List.map_congr_left (fun sec _ => processSection_nil_rows _ _)
  simp only [h1, Prod.mk.injEq, ParseResult.mk.injEq]
  constructor
  · cases b
    simp only [List.map_map]
    congr 1
    exact (List.map_congr_left fun a _ => rfl).trans (List.map_id _)
  · simp

/-- Index arithmetic for emitted rows: the cell behind month `m`
(column `1+m`) of a row built as `label :: 12 month cells ++ tail`. -/
theorem values_month_get (label : Cell) (f : Nat → Cell) (tail : List Cell) (m : Nat)
    (hm : m < 12) :
    (label :: (List.range 12).map f ++ tail).get? (1 + m) = some (f m) := by
  rw [Nat.add_comm]
  have h : m + 1 < (label :: (List.range 12).map f).length := by
    simp
    omega
  simp only [List.get?_eq_getElem?]
  rw [List.getElem?_append_left h]
  simp [hm]

/-- Any non-separator layout entry's emission is contained in the payload. -/
theorem emit_mem_payload (b : Budget) (e : RowEntry) (v : ValueRange)
    (he : e ∈ (buildRowLayout b).rowLayout)
    (hv : emitEntry (buildRowLayout b).rowLayout (buildRowLayout b).incomeTotalRows
      (buildRowLayout b).expenseTotalRows (buildRowLayout b).savingsTotalRows e = some v) :
    v ∈ generateSheetsPayload b := by
  unfold generateSheetsPayload
  refine List.mem_append_right _ ?_
  exact List.mem_filterMap.mpr ⟨e, he, hv⟩

/-- C6: every monthly cell of the generated remaining row is the spliced
income-minus-expense formula, or the literal 0 exactly when both
total-row lists are empty. -/
theorem C6_remaining_row_formula (b : Budget) (r : Nat) (sec : Section) (m : Nat)
    (hmem : RowEntry.remaining r sec ∈ (buildRowLayout b).rowLayout) (hm : m < 12) :
    ∃ v ∈ generateSheetsPayload b, v.row = r ∧
      v.values.get? (1 + m) = some (
        if (buildRowLayout b).incomeTotalRows = [] ∧ (buildRowLayout b).expenseTotalRows = []
        then Cell.num 0
        else Cell.str ('=' :: '(' ::
          (if (buildRowLayout b).incomeTotalRows ≠ []
           then joinPlus ((buildRowLayout b).incomeTotalRows.map
             (fun tr => colLetter (1 + m) ++ natDigits tr))
           else ['0']) ++
          ')' :: '-' :: '(' ::
          (if (buildRowLayout b).expenseTotalRows ≠ []
           then joinPlus ((buildRowLayout b).expenseTotalRows.map
             (fun tr => colLetter (1 + m) ++ natDigits tr))
           else ['0']) ++ [')'])) := by
  refine ⟨emitRemaining r (buildRowLayout b).incomeTotalRows (buildRowLayout b).expenseTotalRows,
    emit_mem_payload b (.remaining r sec) _ hmem rfl, rfl, ?_⟩
  unfold emitRemaining
  rw [show (vrOf r _).values = (Cell.str (strOf "Tilbage") ::
    (List.range 12).map _ ++ [annualCell r, avgCell r, .str [], .str []]) from rfl]
  rw [values_month_get _ _ _ m hm]
  by_cases h1 : (buildRowLayout b).incomeTotalRows = [] ∧ (buildRowLayout b).expenseTotalRows = []
  · simp only [h1.1, h1.2, if_pos h1]
    simp
  · have h2 : (buildRowLayout b).incomeTotalRows ≠ [] ∨ (buildRowLayout b).expenseTotalRows ≠ [] := by
      by_contra hc
      push_neg at hc
      exact h1 ⟨hc.1, hc.2⟩
    simp only [if_neg h1, if_pos h2]

/-- Witness for C6 at a concrete budget (one income section, summary):
the remaining row sits at row 8 and its January cell carries the spliced
formula (expense side spliced in as a `0` literal). -/
theorem C6_witness :
    ∃ v ∈ generateSheetsPayload exBudget, v.row = 8 ∧
      v.values.get? (1 + 0) = some (
        if (buildRowLayout exBudget).incomeTotalRows = [] ∧
            (buildRowLayout exBudget).expenseTotalRows = []
        then Cell.num 0
        else Cell.str ('=' :: '(' ::
          (if (buildRowLayout exBudget).incomeTotalRows ≠ []
           then joinPlus ((buildRowLayout exBudget).incomeTotalRows.map
             (fun tr => colLetter (1 + 0) ++ natDigits tr))
           else ['0']) ++
          ')' :: '-' :: '(' ::
          (if (buildRowLayout exBudget).expenseTotalRows ≠ []
           then joinPlus ((buildRowLayout exBudget).expenseTotalRows.map
             (fun tr => colLetter (1 + 0) ++ natDigits tr))
           else ['0']) ++ [')'])) :=
  C6_remaining_row_formula exBudget 8 exSummarySec 0 (by decide) (by decide)

theorem totalMonthCell_eq_render (col s e : Nat) (entries : List (Nat × Item))
    (auto : Option Nat) :
    totalMonthCell col s e entries auto = renderPlan col (totalPlanOf s e entries auto) := by
  unfold totalMonthCell totalPlanOf
  cases auto with
  | some a =>
    by_cases hI : s ≤ e
    · by_cases hS : entries.any (fun p => p.2.excluded || p.2.negative)
      · simp [hI, hS, renderPlan, List.map_map]
        rfl
      · simp [hI, hS, renderPlan]
    · simp [hI, renderPlan]
  | none =>
    by_cases hI : s ≤ e
    · by_cases hS : entries.any (fun p => p.2.excluded || p.2.negative)
      · by_cases hInc : entries.filter (fun p => !p.2.excluded) = []
        · simp [hI, hS, hInc, renderPlan]
        · simp [hI, hS, hInc, renderPlan, List.map_map]
          rfl
      · simp [hI, hS, renderPlan]
    · simp [hI, renderPlan]

theorem mem_layoutBlocks_total (b : Budget) :
    ∀ (secs : List Section) (row0 : Nat) (map : List (Str × Nat))
      {r : Nat} {sec : Section} {s e : Nat} {entries : List (Nat × Item)} {auto : Option Nat},
    RowEntry.total r sec s e entries auto ∈ layoutBlocks b secs row0 map →
    entries = sec.items.enum.map (fun p => (s + p.1, p.2)) ∧
      r = s + sec.items.length ∧ e = s + sec.items.length - 1 ∧ 1 ≤ s ∧
      (∀ a, auto = some a → a + 1 = s) := by
  intro secs
  induction secs with
  | nil =>
    intro row0 map r sec s e entries auto h
    simp [layoutBlocks] at h
  | cons sc rest ih =>
    intro row0 map r sec s e entries auto h
    rw [layoutBlocks, List.mem_append] at h
    cases h with
    | inr h => exact ih _ _ h
    | inl h =>
      unfold blockEntries at h
      by_cases hs : sc.type = SUMMARY
      · simp [hs] at h
      · simp only [if_neg hs] at h
        cases hA : secAutoLink b map sc with
        | none =>
          cases hT : sc.showTotal with
          | true =>
            simp [hA, hT] at h
            obtain ⟨hr, hsec, hss, hee, hen, hau⟩ := h
            subst hsec
            subst hss
            subst hr
            subst hee
            subst hen
            subst hau
            refine ⟨rfl, rfl, rfl, ?_, ?_⟩
            · simp [itemStartOf]
            · intro a ha
              exact absurd ha (by simp)
          | false =>
            simp [hA, hT] at h
        | some v =>
          cases v with
          | mk lr nm =>
            cases hT : sc.showTotal with
            | true =>
              simp [hA, hT] at h
              obtain ⟨hr, hsec, hss, hee, hen, hau⟩ := h
              subst hsec
              subst hss
              subst hr
              subst hee
              subst hen
              subst hau
              refine ⟨rfl, rfl, rfl, ?_, ?_⟩
              · simp [itemStartOf]
              · intro a ha
                simp at ha
                subst ha
                simp [itemStartOf]
            | false =>
              simp [hA, hT] at h

theorem buildRowLayout_total_shape (b : Budget) {r : Nat} {sec : Section} {s e : Nat}
    {entries : List (Nat × Item)} {auto : Option Nat}
    (h : RowEntry.total r sec s e entries auto ∈ (buildRowLayout b).rowLayout) :
    entries = sec.items.enum.map (fun p => (s + p.1, p.2)) ∧
      r = s + sec.items.length ∧ e = s + sec.items.length - 1 ∧ 1 ≤ s ∧
      (∀ a, auto = some a → a + 1 = s) := by
  rw [buildRowLayout_rowLayout, List.mem_cons] at h
  cases h with
  | inl h => exact absurd h (by simp)
  | inr h => exact mem_layoutBlocks_total b _ _ _ h

theorem emitTotal_month_get (r : Nat) (sec : Section) (s e : Nat)
    (entries : List (Nat × Item)) (auto : Option Nat) (m : Nat) (hm : m < 12) :
    (emitTotal r sec s e entries auto).values.get? (1 + m) =
      some (totalMonthCell (1 + m) s e entries auto) :=
  values_month_get _ _ _ m hm

theorem foldl_excluded_filter (f : Item → ℚ) :
    ∀ (l : List Item) (acc : ℚ),
    l.foldl (fun acc it => if it.excluded then acc else qAdd acc (f it)) acc =
      (l.filter (fun i => !i.excluded)).foldl
        (fun acc it => if it.excluded then acc else qAdd acc (f it)) acc := by
  intro l
  induction l with
  | nil => intro acc; rfl
  | cons it rest ih =>
    intro acc
    cases hx : it.excluded with
    | true => simp [hx, ih]
    | false => simp [hx, ih]

/-- C5: (i) a total-row month cell renders a symbolic plan whose references
never include an excluded item's row; (ii) excluded items contribute
nothing to `computeSectionTotals` (dropping them changes nothing); (iii) a
total row with no auto-row and only excluded items is the literal 0. -/
theorem C5_exclusion_invariant :
    (∀ (b : Budget) (r : Nat) (sec : Section) (s e : Nat) (entries : List (Nat × Item))
       (auto : Option Nat) (ρ : Nat) (it : Item) (m : Nat),
      RowEntry.total r sec s e entries auto ∈ (buildRowLayout b).rowLayout →
      (ρ, it) ∈ entries → it.excluded = true → m < 12 →
      ∃ v ∈ generateSheetsPayload b, v.row = r ∧
        v.values.get? (1 + m) = some (renderPlan (1 + m) (totalPlanOf s e entries auto)) ∧
        ρ ∉ planRefs (totalPlanOf s e entries auto)) ∧
    (∀ (sec : Section) (allSections : Option (List Section)),
      computeSectionTotals sec allSections =
        computeSectionTotals
          { sec with items := sec.items.filter (fun i => !i.excluded) } allSections) ∧
    (∀ (b : Budget) (r : Nat) (sec : Section) (s e : Nat) (entries : List (Nat × Item))
       (m : Nat),
      RowEntry.total r sec s e entries none ∈ (buildRowLayout b).rowLayout →
      (∀ p ∈ entries, p.2.excluded = true) → m < 12 →
      ∃ v ∈ generateSheetsPayload b, v.row = r ∧
        v.values.get? (1 + m) = some (Cell.num 0)) := by
  refine ⟨?_, ?_, ?_⟩
  · intro b r sec s e entries auto ρ it m hmem hin hexc hm
    obtain ⟨hen, hr, he, hs1, hauto⟩ := buildRowLayout_total_shape b hmem
    refine ⟨emitTotal r sec s e entries auto,
      emit_mem_payload b (.total r sec s e entries auto) _ hmem rfl, rfl, ?_, ?_⟩
    · rw [emitTotal_month_get r sec s e entries auto m hm, totalMonthCell_eq_render]
    · -- the plan's references avoid the excluded row ρ
      obtain ⟨i, hit⟩ : ∃ i, sec.items.get? i = some it ∧ ρ = s + i := by
        rw [hen] at hin
        obtain ⟨p, hp, hpe⟩ := List.mem_map.mp hin
        obtain ⟨hρ, hval⟩ := Prod.mk.injEq .. ▸ hpe
        refine ⟨p.1, ?_, hρ.symm⟩
        have := List.mk_mem_enum_iff_getElem?.mp (show (p.1, p.2) ∈ sec.items.enum from hp)
        rw [← hval]
        simpa [List.get?_eq_getElem?] using this
      obtain ⟨hgi, hρ⟩ := hit
      have hlen : i < sec.items.length := by
        by_contra hc
        rw [List.get?_eq_getElem?, List.getElem?_eq_none (Nat.le_of_not_lt hc)] at hgi
        exact Option.noConfusion hgi
      have hSpecial : entries.any (fun p => p.2.excluded || p.2.negative) = true := by
        refine List.any_eq_true.mpr ⟨(ρ, it), hin, ?_⟩
        simp [hexc]
      have hItems : s ≤ e := by
        rw [he]
        omega
      have hnotInc : ∀ p ∈ entries.filter (fun p => !p.2.excluded), p.1 ≠ ρ := by
        intro p hp hcon
        have hpe := List.of_mem_filter hp
        have hpm := List.mem_of_mem_filter hp
        rw [hen] at hpm
        obtain ⟨q, hq, hqe⟩ := List.mem_map.mp hpm
        have hq1 : sec.items.get? q.1 = some q.2 := by
          have := List.mk_mem_enum_iff_getElem?.mp (show (q.1, q.2) ∈ sec.items.enum from hq)
          simpa [List.get?_eq_getElem?] using this
        have hq2 : p.1 = s + q.1 := by rw [← hqe]
        have hqi : q.1 = i := by omega
        rw [hqi] at hq1
        rw [hgi] at hq1
        have hq2it : q.2 = it := by
          injection hq1 with hj
          exact hj.symm
        rw [← hqe] at hpe
        simp at hpe
        rw [hq2it] at hpe
        rw [hexc] at hpe
        exact Bool.noConfusion hpe
      cases auto with
      | some a =>
        have ha : a + 1 = s := hauto a rfl
        have hplan : totalPlanOf s e entries (some a) =
            .parts (some a)
              ((entries.filter (fun p => !p.2.excluded)).map fun p => (p.1, p.2.negative)) := by
          unfold totalPlanOf
          simp only []
          rw [if_neg (fun hc => hc hItems), if_neg (fun hc => hc hSpecial)]
        rw [hplan]
        simp only [planRefs, List.map_map]
        intro hcon
        rcases List.mem_append.mp hcon with hc1 | hc1
        · simp at hc1
          omega
        · obtain ⟨p, hp, hpe⟩ := List.mem_map.mp hc1
          exact hnotInc p hp hpe
      | none =>
        by_cases hInc : entries.filter (fun p => !p.2.excluded) = []
        · have hplan : totalPlanOf s e entries none = .litZero := by
            unfold totalPlanOf
            simp only []
            rw [if_neg (fun hc => hc.2 hSpecial), if_pos ⟨hItems, hSpecial⟩, if_pos hInc]
          rw [hplan]
          simp [planRefs]
        · have hplan : totalPlanOf s e entries none =
              .parts none
                ((entries.filter (fun p => !p.2.excluded)).map fun p => (p.1, p.2.negative)) := by
            unfold totalPlanOf
            simp only []
            rw [if_neg (fun hc => hc.2 hSpecial), if_pos ⟨hItems, hSpecial⟩, if_neg hInc]
          rw [hplan]
          simp only [planRefs, List.map_map]
          intro hcon
          rcases List.mem_append.mp hcon with hc1 | hc1
          · simp at hc1
          · obtain ⟨p, hp, hpe⟩ := List.mem_map.mp hc1
            exact hnotInc p hp hpe
  · intro sec allSections
    unfold computeSectionTotals
    simp only []
    refine List.map_congr_left ?_
    intro m _
    exact foldl_excluded_filter _ sec.items 0
  · intro b r sec s e entries m hmem hall hm
    obtain ⟨hen, hr, he, hs1, _⟩ := buildRowLayout_total_shape b hmem
    refine ⟨emitTotal r sec s e entries none,
      emit_mem_payload b (.total r sec s e entries none) _ hmem rfl, rfl, ?_⟩
    rw [emitTotal_month_get r sec s e entries none m hm, totalMonthCell_eq_render]
    by_cases hniL : entries = []
    · have hitems : sec.items = [] := by
        rw [hniL] at hen
        have := List.map_eq_nil.mp hen.symm
        exact List.enum_eq_nil.mp this
      have hlen0 : sec.items.length = 0 := by simp [hitems]
      have hItems : ¬ (s ≤ e) := by
        rw [he, hlen0]
        omega
      have hplan : totalPlanOf s e entries none = .litZero := by
        unfold totalPlanOf
        simp only []
        rw [if_neg (fun hc => hItems hc.1), if_neg (fun hc => hItems hc.1)]
      rw [hplan]
      rfl
    · have hSpecial : entries.any (fun p => p.2.excluded || p.2.negative) = true := by
        obtain ⟨p, hp⟩ := List.exists_mem_of_ne_nil entries hniL
        exact List.any_eq_true.mpr ⟨p, hp, by simp [hall p hp]⟩
      have hlenpos : 0 < sec.items.length := by
        by_contra hc
        have h0 : sec.items = [] := List.length_eq_zero.mp (Nat.eq_zero_of_not_pos hc)
        rw [h0] at hen
        simp at hen
        exact hniL hen
      have hItems : s ≤ e := by
        rw [he]
        omega
      have hInc : entries.filter (fun p => !p.2.excluded) = [] := by
        refine List.filter_eq_nil.mpr ?_
        intro p hp
        simp [hall p hp]
      have hplan : totalPlanOf s e entries none = .litZero := by
        unfold totalPlanOf
        simp only []
        rw [if_neg (fun hc => hc.2 hSpecial), if_pos ⟨hItems, hSpecial⟩, if_pos hInc]
      rw [hplan]
      rfl

/-- Witness for C5 at concrete budgets: an excluded "Rent" row (row 3) is
absent from the total plan's references; dropping excluded items leaves
`computeSectionTotals` unchanged; an all-excluded section renders literal 0. -/
theorem C5_witness :
    (∃ v ∈ generateSheetsPayload c5Budget, v.row = 5 ∧
      v.values.get? (1 + 0) =
        some (renderPlan (1 + 0) (totalPlanOf 3 4 [(3, c5Rent), (4, c5Food)] none)) ∧
      3 ∉ planRefs (totalPlanOf 3 4 [(3, c5Rent), (4, c5Food)] none)) ∧
    (computeSectionTotals c5Sec none =
      computeSectionTotals { c5Sec with items := c5Sec.items.filter (fun i => !i.excluded) } none) ∧
    (∃ v ∈ generateSheetsPayload c5Budget2, v.row = 4 ∧
      v.values.get? (1 + 0) = some (Cell.num 0)) :=
  ⟨C5_exclusion_invariant.1 c5Budget 5 c5Sec 3 4 [(3, c5Rent), (4, c5Food)] none 3 c5Rent 0
      (by decide) (by decide) (by decide) (by decide),
   C5_exclusion_invariant.2.1 c5Sec none,
   C5_exclusion_invariant.2.2 c5Budget2 4 c5AllExSec 3 3 [(3, c5Rent)] 0
      (by decide) (by decide) (by decide)⟩

/-! ## Row-mapped path of parseSheetData (C7/C10 support) -/

theorem buildBudgetFromMarkers_none_of_nomark (b : Budget) (rows : List Row)
    (rc : Option (List (Nat × Str))) (uuid : Nat → Str)
    (h : ∀ row ∈ rows, hasSectionMarker (some row) = false) :
    buildBudgetFromMarkers b rows rc uuid = none := by
  unfold buildBudgetFromMarkers
  have hnil : rows.enum.filterMap (fun p =>
      (getSectionMarkerMeta (some p.2)).map (fun meta =>
        (⟨p.1 + 1, rowLabel (some p.2), meta.id, meta.type⟩ : MarkerRow))) = [] := by
    refine List.filterMap_eq_nil.mpr ?_
    intro p hp
    have hmem : p.2 ∈ rows := by
      have h2 := List.mk_mem_enum_iff_getElem?.mp
        (show (p.1, p.2) ∈ rows.enum from hp)
      exact List.getElem?_mem h2
    have hs := h p.2 hmem
    unfold hasSectionMarker at hs
    cases hmeta : getSectionMarkerMeta (some p.2) with
    | none => simp
    | some v => rw [hmeta] at hs; simp at hs
  simp only [hnil]
  rfl

theorem parseSheetData_mapped (b : Budget) (rows : List Row)
    (rc : Option (List (Nat × Str))) (uuid : Nat → Str)
    (h : buildBudgetFromMarkers b rows rc uuid = none) :
    parseSheetData b rows rc uuid =
      ⟨{ b with sections := b.sections.map (fun s => (processSection (effectiveItemRowMap b rows) rows s).1) },
       b.sections.flatMap (fun s => (processSection (effectiveItemRowMap b rows) rows s).2)⟩ := by
  unfold parseSheetData
  rw [h]
  simp only [List.map_map, List.flatMap_map]
  rfl

theorem processSection_summary (M : List (Str × Nat)) (rows : List Row) (sec : Section)
    (h : sec.type = SUMMARY) : processSection M rows sec = (sec, []) := by
  unfold processSection
  simp [h]

theorem processSection_changes (M : List (Str × Nat)) (rows : List Row) (sec : Section)
    (h : ¬ sec.type = SUMMARY) :
    (processSection M rows sec).2 =
      sec.items.flatMap (fun it => (processItem sec.name sec.type M rows it).2) := by
  unfold processSection
  simp only [if_neg h]
  rw [List.flatMap_map]

theorem processItem_id_of_mem (secName secType : Str) (M : List (Str × Nat))
    (rows : List Row) (it : Item) (c : Change)
    (hc : c ∈ (processItem secName secType M rows it).2) : c.itemId = it.id := by
  unfold processItem at hc
  cases hl : mapLookup M it.id with
  | none =>
    simp only [hl] at hc
    simp at hc
  | some r =>
    simp only [hl] at hc
    cases hrow : rows.get? (r - 1) with
    | none =>
      simp only [hrow] at hc
      simp at hc
    | some sheetRow =>
      simp only [hrow] at hc
      by_cases hskip : it.savingsPercentage ≠ none ∧ secType = SAVINGS
      · rw [if_pos hskip] at hc
        simp at hc
      · rw [if_neg hskip] at hc
        simp only [] at hc
        rcases List.mem_append.mp hc with h1 | h1
        · rcases List.mem_append.mp h1 with h2 | h2
          · by_cases hn : (decide (jsTrim (jsCellStr (cellAt (some sheetRow) 0)) ≠ []) &&
                decide (jsTrim (jsCellStr (cellAt (some sheetRow) 0)) ≠ it.name)) = true
            · rw [if_pos hn] at h2
              rw [List.eq_of_mem_singleton h2]
            · rw [if_neg hn] at h2
              simp at h2
          · obtain ⟨m, _, hfm⟩ := List.mem_filterMap.mp h2
            by_cases hcond : jsAbs (qSub (numOr0 (cellAt (some sheetRow) (1 + m)))
                ((it.monthlyValues.get? m).getD 0)) > TOL
            · rw [if_pos hcond] at hfm
              injection hfm with hfm
              rw [← hfm]
            · rw [if_neg hcond] at hfm
              exact Option.noConfusion hfm
        · by_cases hn : (decide (jsTrim (jsCellStr (cellAt (some sheetRow) 15)) ≠
              jsTrim it.note)) = true
          · rw [if_pos hn] at h1
            rw [List.eq_of_mem_singleton h1]
          · rw [if_neg hn] at h1
            simp at h1

theorem processItem_value_iff (secName secType : Str) (M : List (Str × Nat))
    (rows : List Row) (it : Item) (r : Nat) (sheetRow : Row) (m : Nat)
    (hr : mapLookup M it.id = some r) (hrow : rows.get? (r - 1) = some sheetRow)
    (hskip : ¬ (it.savingsPercentage ≠ none ∧ secType = SAVINGS)) (hm : m < 12) :
    (∃ c ∈ (processItem secName secType M rows it).2,
        c.type = strOf "value" ∧ c.monthIndex = some m) ↔
      jsAbs (qSub (numOr0 (cellAt (some sheetRow) (1 + m)))
        ((it.monthlyValues.get? m).getD 0)) > TOL := by
  unfold processItem
  simp only [hr, hrow]
  rw [if_neg hskip]
  simp only []
  constructor
  · rintro ⟨c, hc, hty, hmi⟩
    rcases List.mem_append.mp hc with h1 | h1
    · rcases List.mem_append.mp h1 with h2 | h2
      · by_cases hn : (decide (jsTrim (jsCellStr (cellAt (some sheetRow) 0)) ≠ []) &&
            decide (jsTrim (jsCellStr (cellAt (some sheetRow) 0)) ≠ it.name)) = true
        · rw [if_pos hn] at h2
          rw [List.eq_of_mem_singleton h2] at hty
          exact absurd (show strOf "name" = strOf "value" from hty) (by decide)
        · rw [if_neg hn] at h2
          simp at h2
      · obtain ⟨m2, _, hfm⟩ := List.mem_filterMap.mp h2
        by_cases hcond : jsAbs (qSub (numOr0 (cellAt (some sheetRow) (1 + m2)))
            ((it.monthlyValues.get? m2).getD 0)) > TOL
        · rw [if_pos hcond] at hfm
          injection hfm with hfm
          rw [← hfm] at hmi
          simp at hmi
          rw [← hmi]
          exact hcond
        · rw [if_neg hcond] at hfm
          exact Option.noConfusion hfm
    · by_cases hn : (decide (jsTrim (jsCellStr (cellAt (some sheetRow) 15)) ≠
          jsTrim it.note)) = true
      · rw [if_pos hn] at h1
        rw [List.eq_of_mem_singleton h1] at hty
        exact absurd (show strOf "note" = strOf "value" from hty) (by decide)
      · rw [if_neg hn] at h1
        simp at h1
  · intro hcond
    refine ⟨_, List.mem_append.mpr (Or.inl (List.mem_append.mpr (Or.inr
      (List.mem_filterMap.mpr ⟨m, List.mem_range.mpr hm, if_pos hcond⟩)))), rfl, rfl⟩

theorem processItem_monthly (secName secType : Str) (M : List (Str × Nat))
    (rows : List Row) (it : Item) (r : Nat) (sheetRow : Row) (m : Nat)
    (hr : mapLookup M it.id = some r) (hrow : rows.get? (r - 1) = some sheetRow)
    (hskip : ¬ (it.savingsPercentage ≠ none ∧ secType = SAVINGS)) (hm : m < 12) :
    ((processItem secName secType M rows it).1).monthlyValues.get? m =
      some (numOr0 (cellAt (some sheetRow) (1 + m))) := by
  unfold processItem
  simp only [hr, hrow]
  rw [if_neg hskip]
  simp only []
  have h12 : m < ((List.range 12).map fun m => numOr0 (cellAt (some sheetRow) (1 + m))).length := by
    simpa using hm
  simp only [List.get?_eq_getElem?]
  rw [List.getElem?_append_left h12]
  simp [hm]

theorem unique_item_by_id : ∀ (secs : List Section),
    ((secs.flatMap fun s => s.items.map Item.id).Nodup) →
    ∀ s1 ∈ secs, ∀ i1 ∈ s1.items, ∀ s2 ∈ secs, ∀ i2 ∈ s2.items, i1.id = i2.id →
      i1 = i2 ∧ s1 = s2 := by
  intro secs
  induction secs with
  | nil =>
    intro _ s1 h1
    simp at h1
  | cons s rest ih =>
    intro hnd s1 hs1 i1 hi1 s2 hs2 i2 hi2 heq
    rw [List.flatMap_cons, List.nodup_append] at hnd
    obtain ⟨nd1, nd2, disj⟩ := hnd
    rcases List.mem_cons.mp hs1 with rfl | hs1r
    · rcases List.mem_cons.mp hs2 with rfl | hs2r
      · exact ⟨List.inj_on_of_nodup_map nd1 hi1 hi2 heq, rfl⟩
      · exfalso
        refine disj (List.mem_map_of_mem _ hi1) ?_
        rw [heq]
        exact List.mem_flatMap.mpr ⟨s2, hs2r, List.mem_map_of_mem _ hi2⟩
    · rcases List.mem_cons.mp hs2 with rfl | hs2r
      · exfalso
        refine disj (List.mem_map_of_mem _ hi2) ?_
        rw [← heq]
        exact List.mem_flatMap.mpr ⟨s1, hs1r, List.mem_map_of_mem _ hi1⟩
      · exact ih nd2 s1 hs1r i1 hi1 s2 hs2r i2 hi2 heq

/-- C7: on the row-mapped path (no section markers anywhere in the sheet),
for every item mapped to an existing sheet row — in a non-summary section
and not a skipped savings-percentage item — and every month, a value-type
change record for that item/month exists iff the sheet value (coerced to a
number, 0 on non-numeric) differs from the local value by more than 0.001. -/
theorem C7_value_change_tolerance (b : Budget) (rows : List Row)
    (rowColors : Option (List (Nat × Str))) (uuid : Nat → Str)
    (sec : Section) (it : Item) (r : Nat) (sheetRow : Row) (m : Nat)
    (hnomark : ∀ row ∈ rows, hasSectionMarker (some row) = false)
    (hnd : (b.sections.flatMap fun s => s.items.map Item.id).Nodup)
    (hsec : sec ∈ b.sections) (hsum : ¬ sec.type = SUMMARY) (hit : it ∈ sec.items)
    (hskip : ¬ (it.savingsPercentage ≠ none ∧ sec.type = SAVINGS))
    (hr : mapLookup (effectiveItemRowMap b rows) it.id = some r)
    (hrow : rows.get? (r - 1) = some sheetRow) (hm : m < 12) :
    ((∃ c ∈ (parseSheetData b rows rowColors uuid).changes,
        c.type = strOf "value" ∧ c.itemId = it.id ∧ c.monthIndex = some m) ↔
      |numOr0 (cellAt (some sheetRow) (1 + m)) - (it.monthlyValues.get? m).getD 0| > 1 / 1000) := by
  rw [parseSheetData_mapped b rows rowColors uuid
    (buildBudgetFromMarkers_none_of_nomark b rows rowColors uuid hnomark)]
  simp only []
  constructor
  · rintro ⟨c, hc, hty, hid, hmi⟩
    obtain ⟨s2, hs2, hc2⟩ := List.mem_flatMap.mp hc
    by_cases hsum2 : s2.type = SUMMARY
    · rw [processSection_summary _ _ _ hsum2] at hc2
      simp at hc2
    · rw [processSection_changes _ _ _ hsum2] at hc2
      obtain ⟨it2, hit2, hc3⟩ := List.mem_flatMap.mp hc2
      have hid2 : it2.id = it.id := by
        rw [← processItem_id_of_mem _ _ _ _ _ _ hc3]
        exact hid
      obtain ⟨hiteq, hseceq⟩ :=
        unique_item_by_id b.sections hnd s2 hs2 it2 hit2 sec hsec it hit hid2
      subst hiteq
      subst hseceq
      have h := (processItem_value_iff s2.name s2.type (effectiveItemRowMap b rows) rows it2 r
        sheetRow m hr hrow hskip hm).mp ⟨c, hc3, hty, hmi⟩
      rwa [jsAbs_eq, qSub_eq, TOL_eq] at h
  · intro hcond
    rw [← qSub_eq, ← jsAbs_eq, ← TOL_eq] at hcond
    obtain ⟨c, hc, hty, hmi⟩ := (processItem_value_iff sec.name sec.type
      (effectiveItemRowMap b rows) rows it r sheetRow m hr hrow hskip hm).mpr hcond
    refine ⟨c, ?_, hty, processItem_id_of_mem _ _ _ _ _ _ hc, hmi⟩
    refine List.mem_flatMap.mpr ⟨sec, hsec, ?_⟩
    rw [processSection_changes _ _ _ hsum]
    exact List.mem_flatMap.mpr ⟨it, hit, hc⟩

/-- Witness for C7 at a concrete budget/sheet (no markers, "A" changed from
100 to 150 in January). -/
theorem C7_witness :
    (∃ c ∈ (parseSheetData c10B c7Rows none uuidFix).changes,
        c.type = strOf "value" ∧ c.itemId = c10Item.id ∧ c.monthIndex = some 0) ↔
      |numOr0 (cellAt (some (Cell.str (strOf "A") :: Cell.num 150 ::
          List.replicate 11 (Cell.num 100))) (1 + 0)) -
        (c10Item.monthlyValues.get? 0).getD 0| > 1 / 1000 :=
  C7_value_change_tolerance c10B c7Rows none uuidFix c10Sec c10Item 3
    (Cell.str (strOf "A") :: Cell.num 150 :: List.replicate 11 (Cell.num 100)) 0
    (by decide) (by decide) (by decide) (by decide) (by decide) (by decide)
    (by decide) (by decide) (by decide)

/-- C10 (implicit): on the row-mapped path the updated budget stores the
coerced sheet value for every month of every mapped item unconditionally —
even within the 0.001 tolerance — so the updated budget can differ from the
input while the change list is empty (second conjunct: a concrete sheet
differing by 1/2000 yields no changes yet a different budget). -/
theorem C10_unconditional_value_import :
    (∀ (b : Budget) (rows : List Row) (rowColors : Option (List (Nat × Str)))
       (uuid : Nat → Str) (k j : Nat) (sec : Section) (it : Item) (r : Nat) (sheetRow : Row),
      (∀ row ∈ rows, hasSectionMarker (some row) = false) →
      b.sections.get? k = some sec → ¬ sec.type = SUMMARY → sec.items.get? j = some it →
      ¬ (it.savingsPercentage ≠ none ∧ sec.type = SAVINGS) →
      mapLookup (effectiveItemRowMap b rows) it.id = some r →
      rows.get? (r - 1) = some sheetRow →
      ∃ sec', (parseSheetData b rows rowColors uuid).updatedBudget.sections.get? k = some sec' ∧
        ∃ it', sec'.items.get? j = some it' ∧
          ∀ m, m < 12 → it'.monthlyValues.get? m =
            some (numOr0 (cellAt (some sheetRow) (1 + m)))) ∧
    ((parseSheetData c10B c10Rows none uuidFix).changes = [] ∧
      (parseSheetData c10B c10Rows none uuidFix).updatedBudget ≠ c10B) := by
  constructor
  · intro b rows rowColors uuid k j sec it r sheetRow hnomark hk hsum hj hskip hr hrow
    rw [parseSheetData_mapped b rows rowColors uuid
      (buildBudgetFromMarkers_none_of_nomark b rows rowColors uuid hnomark)]
    simp only []
    refine ⟨(processSection (effectiveItemRowMap b rows) rows sec).1, ?_, ?_⟩
    · simp only [List.get?_eq_getElem?, List.getElem?_map]
      rw [← List.get?_eq_getElem?, hk]
      rfl
    · unfold processSection
      rw [if_neg hsum]
      simp only []
      refine ⟨(processItem sec.name sec.type (effectiveItemRowMap b rows) rows it).1, ?_, ?_⟩
      · simp only [List.map_map, List.get?_eq_getElem?, List.getElem?_map]
        rw [← List.get?_eq_getElem?, hj]
        rfl
      · intro m hm
        exact processItem_monthly sec.name sec.type (effectiveItemRowMap b rows) rows it r
          sheetRow m hr hrow hskip hm
  · constructor
    · decide
    · decide

/-- Witness for C10's universally quantified part at the concrete budget
and sheet of its second conjunct. -/
theorem C10_witness :
    ∃ sec', (parseSheetData c10B c10Rows none uuidFix).updatedBudget.sections.get? 0 = some sec' ∧
      ∃ it', sec'.items.get? 0 = some it' ∧
        ∀ m, m < 12 → it'.monthlyValues.get? m =
          some (numOr0 (cellAt (some (Cell.str (strOf "A") :: Cell.num ⟨200001, 2000, by decide, by decide⟩ ::
            List.replicate 11 (Cell.num 100))) (1 + m))) :=
  C10_unconditional_value_import.1 c10B c10Rows none uuidFix 0 0 c10Sec c10Item 3
    (Cell.str (strOf "A") :: Cell.num ⟨200001, 2000, by decide, by decide⟩ :: List.replicate 11 (Cell.num 100))
    (by decide) (by decide) (by decide) (by decide) (by decide) (by decide) (by decide)

/-- C2: whenever some sheet row carries the hidden section marker,
`parseSheetData` takes the marker-based full-rebuild path: the updated
budget is the rebuilt one, the changes list is exactly the single synthetic
"structure rebuilt" entry when the rebuilt sections differ structurally
from the current ones and empty otherwise, and no field-level diff entry is
ever produced on this path. -/
theorem C2_marker_rebuild_path (b : Budget) (rows : List Row)
    (rowColors : Option (List (Nat × Str))) (uuid : Nat → Str)
    (hmark : ∃ row ∈ rows, hasSectionMarker (some row) = true) :
    ∃ rb, buildBudgetFromMarkers b rows rowColors uuid = some rb ∧
      (parseSheetData b rows rowColors uuid).updatedBudget = rb ∧
      (parseSheetData b rows rowColors uuid).changes =
        (if rb.sections ≠ b.sections then [structRebuiltChange] else []) ∧
      ∀ c ∈ (parseSheetData b rows rowColors uuid).changes, c = structRebuiltChange := by
  obtain ⟨row, hrow, hm⟩ := hmark
  have hne : rows.enum.filterMap (fun p =>
      (getSectionMarkerMeta (some p.2)).map (fun meta =>
        (⟨p.1 + 1, rowLabel (some p.2), meta.id, meta.type⟩ : MarkerRow))) ≠ [] := by
    intro hnil
    obtain ⟨i, hi⟩ := List.mem_iff_getElem?.mp hrow
    have henum : (i, row) ∈ rows.enum := List.mk_mem_enum_iff_getElem?.mpr hi
    have h2 := (List.filterMap_eq_nil_iff.mp hnil) (i, row) henum
    rw [Option.map_eq_none'] at h2
    rw [hasSectionMarker, h2] at hm
    exact Bool.noConfusion hm
  obtain ⟨rb, hrb⟩ : ∃ rb, buildBudgetFromMarkers b rows rowColors uuid = some rb := by
    unfold buildBudgetFromMarkers
    simp only []
    rw [if_neg hne]
    exact ⟨_, rfl⟩
  refine ⟨rb, hrb, ?_, ?_, ?_⟩
  · unfold parseSheetData
    simp only [hrb]
  · unfold parseSheetData
    simp only [hrb]
  · intro c hc
    unfold parseSheetData at hc
    simp only [hrb] at hc
    by_cases hd : rb.sections ≠ b.sections
    · rw [if_pos hd] at hc
      exact List.eq_of_mem_singleton hc
    · rw [if_neg hd] at hc
      simp at hc

/-- Witness for C2 at a concrete budget and a sheet whose first row carries
a section marker. -/
theorem C2_witness :
    ∃ rb, buildBudgetFromMarkers c10B c2Rows none uuidFix = some rb ∧
      (parseSheetData c10B c2Rows none uuidFix).updatedBudget = rb ∧
      (parseSheetData c10B c2Rows none uuidFix).changes =
        (if rb.sections ≠ c10B.sections then [structRebuiltChange] else []) ∧
      ∀ c ∈ (parseSheetData c10B c2Rows none uuidFix).changes, c = structRebuiltChange :=
  C2_marker_rebuild_path c10B c2Rows none uuidFix (by decide)

/-- C9: `parseSheetData` never mutates its `budget` argument — in the heap
model the argument's cell still holds the original value afterwards, the
returned budget lives in a freshly allocated cell (a different reference),
that cell holds exactly the pure function's updated budget, and the changes
are the pure function's changes. -/
theorem C9_never_mutates_budget (h : List Budget) (r : Nat) (rows : List Row)
    (rowColors : Option (List (Nat × Str))) (uuid : Nat → Str) (b : Budget)
    (hb : heapGet h r = some b) :
    heapGet (parseSheetDataH h r rows rowColors uuid).1 r = some b ∧
    (parseSheetDataH h r rows rowColors uuid).2.1 ≠ r ∧
    heapGet (parseSheetDataH h r rows rowColors uuid).1
        (parseSheetDataH h r rows rowColors uuid).2.1 =
      some (parseSheetData b rows rowColors uuid).updatedBudget ∧
    (parseSheetDataH h r rows rowColors uuid).2.2 =
      (parseSheetData b rows rowColors uuid).changes := by
  have hr : r < h.length := by
    by_contra hc
    rw [heapGet, List.get?_eq_getElem?, List.getElem?_eq_none (Nat.le_of_not_lt hc)] at hb
    exact Option.noConfusion hb
  unfold parseSheetDataH
  simp only [hb]
  refine ⟨?_, ?_, ?_, ?_⟩
  · show heapGet (heapSet (h ++ [b]) h.length
        (parseSheetData b rows rowColors uuid).updatedBudget) r = some b
    unfold heapGet heapSet
    simp only [List.get?_eq_getElem?]
    rw [List.getElem?_set_ne (by omega), List.getElem?_append_left hr]
    rw [heapGet, List.get?_eq_getElem?] at hb
    exact hb
  · show h.length ≠ r
    omega
  · show heapGet (heapSet (h ++ [b]) h.length
        (parseSheetData b rows rowColors uuid).updatedBudget) h.length =
      some (parseSheetData b rows rowColors uuid).updatedBudget
    unfold heapGet heapSet
    simp only [List.get?_eq_getElem?]
    rw [List.getElem?_set_self']
    simp
  · first
    | rfl
    | trivial

theorem layoutBlocks_append (b : Budget) :
    ∀ (l1 l2 : List Section) (row0 : Nat) (map : List (Str × Nat)),
    layoutBlocks b (l1 ++ l2) row0 map =
      layoutBlocks b l1 row0 map ++
        layoutBlocks b l2 (row0 + (layoutBlocks b l1 row0 map).length)
          (mapThrough b l1 row0 map) := by
  intro l1
  induction l1 with
  | nil =>
    intro l2 row0 map
    simp [layoutBlocks, mapThrough]
  | cons sec rest ih =>
    intro l2 row0 map
    rw [List.cons_append, layoutBlocks, layoutBlocks, mapThrough, ih]
    simp [List.append_assoc, List.length_append, Nat.add_assoc]

theorem mapLookup_insert (m : List (Str × Nat)) (k' : Str) (v : Nat) (k : Str) :
    mapLookup (mapInsert m k' v) k = if k' = k then some v else mapLookup m k := by
  unfold mapInsert mapLookup
  by_cases h : k' = k
  · simp [List.find?_cons, h]
  · simp [List.find?_cons, h]

theorem mapLookup_foldl_insert_isSome (f : Nat × Item → Nat) :
    ∀ (l : List (Nat × Item)) (m : List (Str × Nat)) (k : Str),
    (mapLookup (l.foldl (fun mm p => mapInsert mm p.2.id (f p)) m) k).isSome =
      ((mapLookup m k).isSome || l.any (fun p => decide (p.2.id = k))) := by
  intro l
  induction l with
  | nil =>
    intro m k
    simp
  | cons p rest ih =>
    intro m k
    rw [List.foldl_cons, ih, mapLookup_insert]
    by_cases h : p.2.id = k
    · simp [h]
    · simp [h]

theorem any_enum_snd {α : Type} (p : α → Bool) :
    ∀ (l : List α) (n : Nat), ((l.enumFrom n).any fun q => p q.2) = l.any p := by
  intro l
  induction l with
  | nil =>
    intro n
    rfl
  | cons a t ih =>
    intro n
    simp [List.enumFrom, List.any_cons, ih]

theorem mapLookup_mapAfter_isSome (b : Budget) (row0 : Nat) (map : List (Str × Nat))
    (sec : Section) (k : Str) :
    (mapLookup (mapAfter b row0 map sec) k).isSome =
      ((mapLookup map k).isSome ||
        (decide (¬ sec.type = SUMMARY) && sec.items.any (fun it => decide (it.id = k)))) := by
  unfold mapAfter
  by_cases h : sec.type = SUMMARY
  · simp [h]
  · have he : (sec.items.enum.any fun p => decide (p.2.id = k)) =
        sec.items.any fun it => decide (it.id = k) :=
      @any_enum_snd Item (fun it => decide (it.id = k)) sec.items 0
    rw [if_neg h, mapLookup_foldl_insert_isSome, he]
    simp [h]

theorem mapLookup_mapThrough_isSome (b : Budget) :
    ∀ (secs : List Section) (row0 : Nat) (map : List (Str × Nat)) (k : Str),
    (mapLookup (mapThrough b secs row0 map) k).isSome =
      ((mapLookup map k).isSome ||
        secs.any (fun s =>
          decide (¬ s.type = SUMMARY) && s.items.any (fun it => decide (it.id = k)))) := by
  intro secs
  induction secs with
  | nil =>
    intro row0 map k
    simp [mapThrough]
  | cons sec rest ih =>
    intro row0 map k
    rw [mapThrough, ih, mapLookup_mapAfter_isSome]
    simp [Bool.or_assoc]

theorem secAutoLink_eq_some (b : Budget) (M : List (Str × Nat)) (sec : Section)
    (lr : Nat) (nm : Str) (h : secAutoLink b M sec = some (lr, nm)) :
    ∃ it, layoutLinkedSearch b.sections sec.id = some it ∧
      mapLookup M it.id = some lr ∧ nm = it.name := by
  unfold secAutoLink at h
  by_cases hs : sec.type = SAVINGS
  · rw [if_pos hs] at h
    cases hL : layoutLinkedSearch b.sections sec.id with
    | none =>
      rw [hL] at h
      exact Option.noConfusion h
    | some it =>
      simp only [hL] at h
      cases hlk : mapLookup M it.id with
      | none =>
        rw [hlk] at h
        exact Option.noConfusion h
      | some lr2 =>
        simp only [hlk] at h
        injection h with h
        obtain ⟨h1, h2⟩ := Prod.mk.injEq .. ▸ h
        exact ⟨it, rfl, by rw [hlk, h1], h2.symm⟩
  · rw [if_neg hs] at h
    exact Option.noConfusion h

theorem secAutoLink_of (b : Budget) (M : List (Str × Nat)) (sec : Section) (it : Item)
    (lr : Nat) (hs : sec.type = SAVINGS)
    (hL : layoutLinkedSearch b.sections sec.id = some it)
    (hlk : mapLookup M it.id = some lr) :
    secAutoLink b M sec = some (lr, it.name) := by
  unfold secAutoLink
  rw [if_pos hs]
  simp only [hL, hlk]

/-- C3: for a savings section `sec` at position `pre ++ sec :: post` of the
budget, (a) the layout splits into the earlier blocks, this section's
block, and the rest; (b) a savings-auto row appears in this section's block
iff the first income/expense item (in section order) whose `savingsLink` is
this section's id has its row already assigned, i.e. shares its id with an
item of an earlier non-summary section — so a forward reference never
produces one; (c) when emitted, it sits immediately after the section
header and before all item rows, carrying the first match's assigned row
and name; (d) with no resolvable link the block has no savings-auto row at
all. -/
theorem C3_savings_auto_row (b : Budget) (pre post : List Section) (sec : Section)
    (ρ : Nat) (M : List (Str × Nat))
    (hsplit : b.sections = pre ++ sec :: post) (hsav : sec.type = SAVINGS)
    (hρ : ρ = 2 + (layoutBlocks b pre 2 []).length) (hM : M = mapThrough b pre 2 []) :
    ((buildRowLayout b).rowLayout =
      .header 1 :: (layoutBlocks b pre 2 [] ++ (blockEntries b ρ M sec ++
        layoutBlocks b post (ρ + (blockEntries b ρ M sec).length) (mapAfter b ρ M sec)))) ∧
    ((∃ r lr nm, RowEntry.savingsAuto r sec lr nm ∈ blockEntries b ρ M sec) ↔
      (∃ it, layoutLinkedSearch b.sections sec.id = some it ∧
        ∃ s ∈ pre, ¬ s.type = SUMMARY ∧ ∃ it2 ∈ s.items, it2.id = it.id)) ∧
    (∀ it lr, layoutLinkedSearch b.sections sec.id = some it →
      mapLookup M it.id = some lr →
      blockEntries b ρ M sec =
        RowEntry.sectionHeader ρ sec :: RowEntry.savingsAuto (ρ + 1) sec lr it.name ::
        ((sec.items.enum.map fun p => RowEntry.item (ρ + 2 + p.1) p.2 sec) ++
          (if sec.showTotal then
            [RowEntry.total (ρ + 2 + sec.items.length) sec (ρ + 2)
              (ρ + 2 + sec.items.length - 1)
              (sec.items.enum.map fun p => (ρ + 2 + p.1, p.2)) (some (ρ + 1))]
           else []) ++
          [RowEntry.separator (ρ + 2 + sec.items.length +
            (if sec.showTotal then 1 else 0))])) ∧
    (secAutoLink b M sec = none →
      ∀ r lr nm, RowEntry.savingsAuto r sec lr nm ∉ blockEntries b ρ M sec) := by
  have hsum : ¬ sec.type = SUMMARY := by
    rw [hsav]
    decide
  refine ⟨?_, ?_, ?_, ?_⟩
  · subst hρ
    subst hM
    rw [buildRowLayout_rowLayout, hsplit, layoutBlocks_append]
    rfl
  · constructor
    · rintro ⟨r, lr, nm, hmem⟩
      cases hA : secAutoLink b M sec with
      | none =>
        exfalso
        simp only [blockEntries, if_neg hsum, hA] at hmem
        cases hT : sec.showTotal <;> simp [hT] at hmem
      | some v =>
        obtain ⟨lr0, nm0⟩ := v
        obtain ⟨it, hL, hlk, _⟩ := secAutoLink_eq_some b M sec lr0 nm0 hA
        refine ⟨it, hL, ?_⟩
        have hdom : (mapLookup M it.id).isSome = true := by
          rw [hlk]
          rfl
        rw [hM, mapLookup_mapThrough_isSome] at hdom
        simp only [mapLookup, List.find?_nil, Option.map_none, Option.isSome_none,
          Bool.false_or] at hdom
        obtain ⟨s, hs, hpred⟩ := List.any_eq_true.mp hdom
        rw [Bool.and_eq_true] at hpred
        obtain ⟨it2, hit2, hq⟩ := List.any_eq_true.mp hpred.2
        exact ⟨s, hs, of_decide_eq_true hpred.1, it2, hit2, of_decide_eq_true hq⟩
    · rintro ⟨it, hL, s, hs, hnsum, it2, hit2, hid⟩
      have hdom : (mapLookup M it.id).isSome = true := by
        rw [hM, mapLookup_mapThrough_isSome]
        refine Bool.or_eq_true_iff.mpr (Or.inr (List.any_eq_true.mpr ⟨s, hs, ?_⟩))
        rw [Bool.and_eq_true]
        exact ⟨decide_eq_true hnsum, List.any_eq_true.mpr ⟨it2, hit2, decide_eq_true hid⟩⟩
      obtain ⟨lr, hlk⟩ := Option.isSome_iff_exists.mp hdom
      refine ⟨ρ + 1, lr, it.name, ?_⟩
      simp only [blockEntries, if_neg hsum, secAutoLink_of b M sec it lr hsav hL hlk]
      simp
  · intro it lr hL hlk
    simp only [blockEntries, if_neg hsum, secAutoLink_of b M sec it lr hsav hL hlk]
    rfl
  · intro hA r lr nm hmem
    simp only [blockEntries, if_neg hsum, hA] at hmem
    cases hT : sec.showTotal <;> simp [hT] at hmem

/-- Witness for C3 at a concrete budget: an income section whose item links
to the following savings section, so the savings block gets an auto-row at
header + 1. -/
theorem C3_witness :
    ((buildRowLayout c3B).rowLayout =
      .header 1 :: (layoutBlocks c3B [c3IncSec] 2 [] ++
        (blockEntries c3B 6 [(strOf "li1", 3)] c3SavSec ++
          layoutBlocks c3B []
            (6 + (blockEntries c3B 6 [(strOf "li1", 3)] c3SavSec).length)
            (mapAfter c3B 6 [(strOf "li1", 3)] c3SavSec)))) ∧
    ((∃ r lr nm, RowEntry.savingsAuto r c3SavSec lr nm ∈
        blockEntries c3B 6 [(strOf "li1", 3)] c3SavSec) ↔
      (∃ it, layoutLinkedSearch c3B.sections c3SavSec.id = some it ∧
        ∃ s ∈ [c3IncSec], ¬ s.type = SUMMARY ∧ ∃ it2 ∈ s.items, it2.id = it.id)) ∧
    (∀ it lr, layoutLinkedSearch c3B.sections c3SavSec.id = some it →
      mapLookup [(strOf "li1", 3)] it.id = some lr →
      blockEntries c3B 6 [(strOf "li1", 3)] c3SavSec =
        RowEntry.sectionHeader 6 c3SavSec ::
        RowEntry.savingsAuto (6 + 1) c3SavSec lr it.name ::
        ((c3SavSec.items.enum.map fun p => RowEntry.item (6 + 2 + p.1) p.2 c3SavSec) ++
          (if c3SavSec.showTotal then
            [RowEntry.total (6 + 2 + c3SavSec.items.length) c3SavSec (6 + 2)
              (6 + 2 + c3SavSec.items.length - 1)
              (c3SavSec.items.enum.map fun p => (6 + 2 + p.1, p.2)) (some (6 + 1))]
           else []) ++
          [RowEntry.separator (6 + 2 + c3SavSec.items.length +
            (if c3SavSec.showTotal then 1 else 0))])) ∧
    (secAutoLink c3B [(strOf "li1", 3)] c3SavSec = none →
      ∀ r lr nm, RowEntry.savingsAuto r c3SavSec lr nm ∉
        blockEntries c3B 6 [(strOf "li1", 3)] c3SavSec) :=
  C3_savings_auto_row c3B [c3IncSec] [] c3SavSec 6 [(strOf "li1", 3)]
    (by decide) (by decide) (by decide) (by decide)

/-! ### Round-trip, part I: the sheet a payload reads back as -/

theorem emitEntry_row (L : List RowEntry) (I E S : List Nat) (e : RowEntry) (v : ValueRange)
    (h : emitEntry L I E S e = some v) : v.row = rowIndexOf e := by
  cases e with
  | header r => exact Option.noConfusion h
  | separator r => exact Option.noConfusion h
  | sectionHeader r sec =>
    injection h with h2
    rw [← h2]
    rfl
  | savingsAuto r sec lr nm =>
    injection h with h2
    rw [← h2]
    rfl
  | item r it sec =>
    injection h with h2
    rw [← h2]
    rfl
  | total r sec s e2 entries auto =>
    injection h with h2
    rw [← h2]
    rfl
  | remaining r sec =>
    injection h with h2
    rw [← h2]
    rfl
  | runningBalance r rem sec =>
    injection h with h2
    rw [← h2]
    rfl
  | expGrand r sec =>
    injection h with h2
    rw [← h2]
    rfl
  | savGrand r sec =>
    injection h with h2
    rw [← h2]
    rfl

theorem entryVals_some (L : List RowEntry) (I E S : List Nat) (e : RowEntry) (v : ValueRange)
    (h : emitEntry L I E S e = some v) : entryVals L I E S e = v.values := by
  cases e <;> first
    | exact Option.noConfusion h
    | (simp only [entryVals]; rw [h])

theorem entryVals_none (L : List RowEntry) (I E S : List Nat) (e : RowEntry)
    (hh : ∀ r, e ≠ RowEntry.header r) (h : emitEntry L I E S e = none) :
    entryVals L I E S e = [] := by
  cases e with
  | header r => exact absurd rfl (hh r)
  | _ =>
    simp only [entryVals]
    rw [h]

theorem consecutiveFrom_append (xs : List RowEntry) :
    ∀ (ys : List RowEntry) (r : Nat),
    consecutiveFrom (xs ++ ys) r ↔ consecutiveFrom xs r ∧ consecutiveFrom ys (r + xs.length) := by
  induction xs with
  | nil =>
    intro ys r
    simp [consecutiveFrom]
  | cons e t ih =>
    intro ys r
    rw [List.cons_append]
    show rowIndexOf e = r ∧ consecutiveFrom (t ++ ys) (r + 1) ↔ _
    rw [ih]
    constructor
    · rintro ⟨h1, h2, h3⟩
      refine ⟨⟨h1, h2⟩, ?_⟩
      have : r + 1 + t.length = r + (e :: t).length := by
        simp
        omega
      rwa [this] at h3
    · rintro ⟨⟨h1, h2⟩, h3⟩
      refine ⟨h1, h2, ?_⟩
      have : r + 1 + t.length = r + (e :: t).length := by
        simp
        omega
      rwa [← this] at h3

theorem consecutiveFrom_le : ∀ (es : List RowEntry) (r : Nat),
    consecutiveFrom es r → ∀ e ∈ es, r ≤ rowIndexOf e := by
  intro es
  induction es with
  | nil =>
    intro r _ e he
    simp at he
  | cons e0 t ih =>
    rintro r ⟨h1, h2⟩ e he
    rcases List.mem_cons.mp he with he | he
    · subst he
      omega
    · have := ih (r + 1) h2 e he
      omega

theorem simulateReadGo_later (vs : List ValueRange) (r : Nat)
    (hge : ∀ v ∈ vs, r + 1 ≤ v.row) (hne : vs ≠ []) :
    simulateReadGo r vs = [] :: simulateReadGo (r + 1) vs := by
  cases vs with
  | nil => exact absurd rfl hne
  | cons v rest =>
    have hv : r + 1 ≤ v.row := hge v (List.mem_cons_self _ _)
    show (if v.row < r then _ else _) = [] :: (if v.row < r + 1 then _ else _)
    rw [if_neg (by omega), if_neg (by omega)]
    have : v.row - r = (v.row - (r + 1)) + 1 := by omega
    rw [this, List.replicate_succ]
    rfl

theorem simulateReadGo_spec (L : List RowEntry) (I E S : List Nat) :
    ∀ (es : List RowEntry) (r : Nat),
    consecutiveFrom es r → (∀ ρ, RowEntry.header ρ ∉ es) →
    (match es.getLast? with
     | some e => emitEntry L I E S e ≠ none
     | none => True) →
    simulateReadGo r (es.filterMap (emitEntry L I E S)) = es.map (entryVals L I E S) := by
  intro es
  induction es with
  | nil =>
    intro r _ _ _
    rfl
  | cons e t ih =>
    rintro r ⟨hre, hct⟩ hnh hlast
    have hnh' : ∀ ρ, RowEntry.header ρ ∉ t := by
      intro ρ hρ
      exact hnh ρ (List.mem_cons_of_mem _ hρ)
    cases hme : emitEntry L I E S e with
    | some v =>
      simp only [List.filterMap_cons, hme]
      have hv : v.row = r := (emitEntry_row L I E S e v hme).trans hre
      show (if v.row < r then _ else _) = _
      rw [if_neg (by omega), hv, Nat.sub_self, List.replicate_zero, List.nil_append]
      rw [List.map_cons, entryVals_some L I E S e v hme]
      congr 1
      cases t with
      | nil => rfl
      | cons e2 t2 =>
        exact ih (r + 1) hct hnh' (by
          rw [List.getLast?_cons_cons] at hlast
          exact hlast)
    | none =>
      simp only [List.filterMap_cons, hme]
      cases t with
      | nil => exact absurd hme (by simpa using hlast)
      | cons e2 t2 =>
        have hlast' : match (e2 :: t2).getLast? with
            | some e => emitEntry L I E S e ≠ none
            | none => True := by
          rw [List.getLast?_cons_cons] at hlast
          exact hlast
        have hne : (e2 :: t2).filterMap (emitEntry L I E S) ≠ [] := by
          intro hnil
          have hmem := (List.getLast_mem (by simp) :
            (e2 :: t2).getLast (by simp) ∈ e2 :: t2)
          have hnone := (List.filterMap_eq_nil_iff.mp hnil) _ hmem
          have : (e2 :: t2).getLast? = some ((e2 :: t2).getLast (by simp)) :=
            List.getLast?_eq_getLast _ _
          rw [this] at hlast'
          exact hlast' hnone
        have hge : ∀ v ∈ (e2 :: t2).filterMap (emitEntry L I E S), r + 1 ≤ v.row := by
          intro v hv
          obtain ⟨e3, he3, hme3⟩ := List.mem_filterMap.mp hv
          rw [emitEntry_row L I E S e3 v hme3]
          exact consecutiveFrom_le _ _ hct e3 he3
        rw [simulateReadGo_later _ r hge hne, ih (r + 1) hct hnh' hlast']
        have hv0 : entryVals L I E S e = [] :=
          entryVals_none L I E S e
            (fun ρ hρ => (hnh ρ) (hρ ▸ List.mem_cons_self e _)) hme
        rw [List.map_cons, List.map_cons, hv0]
        rw [List.map_cons]

theorem consecutiveFrom_items (sec : Section) :
    ∀ (items : List Item) (j s0 : Nat),
    consecutiveFrom ((List.enumFrom j items).map fun p => RowEntry.item (s0 + p.1) p.2 sec)
      (s0 + j) := by
  intro items
  induction items with
  | nil =>
    intro j s0
    trivial
  | cons a t ih =>
    intro j s0
    exact ⟨rfl, ih (j + 1) s0⟩

theorem consecutiveFrom_blockEntries (b : Budget) (row0 : Nat) (map : List (Str × Nat))
    (sec : Section) : consecutiveFrom (blockEntries b row0 map sec) row0 := by
  unfold blockEntries
  by_cases hs : sec.type = SUMMARY
  · rw [if_pos hs]
    exact ⟨rfl, rfl, rfl, rfl, rfl, trivial⟩
  · rw [if_neg hs]
    cases hA : secAutoLink b map sec with
    | none =>
      simp only [hA, consecutiveFrom_append]
      cases hT : sec.showTotal <;>
        simp [consecutiveFrom, rowIndexOf, itemStartOf, List.length_map,
          List.enumFrom_length] <;>
        first
          | exact ⟨⟨consecutiveFrom_items sec sec.items 0 _, by omega⟩, by omega⟩
          | exact ⟨consecutiveFrom_items sec sec.items 0 _, by omega⟩
          | exact consecutiveFrom_items sec sec.items 0 _
          | omega
          | trivial
    | some v =>
      obtain ⟨lr, nm⟩ := v
      simp only [hA, consecutiveFrom_append]
      cases hT : sec.showTotal <;>
        simp [consecutiveFrom, rowIndexOf, itemStartOf, List.length_map,
          List.enumFrom_length] <;>
        first
          | exact ⟨⟨consecutiveFrom_items sec sec.items 0 _, by omega⟩, by omega⟩
          | exact ⟨consecutiveFrom_items sec sec.items 0 _, by omega⟩
          | exact consecutiveFrom_items sec sec.items 0 _
          | omega
          | trivial

theorem noHeader_blockEntries (b : Budget) (row0 : Nat) (map : List (Str × Nat))
    (sec : Section) (ρ : Nat) : RowEntry.header ρ ∉ blockEntries b row0 map sec := by
  unfold blockEntries
  by_cases hs : sec.type = SUMMARY
  · rw [if_pos hs]
    simp
  · rw [if_neg hs]
    cases hA : secAutoLink b map sec with
    | none =>
      simp only [hA]
      cases hT : sec.showTotal <;> simp [hT]
    | some v =>
      obtain ⟨lr, nm⟩ := v
      simp only [hA]
      cases hT : sec.showTotal <;> simp [hT]

theorem noHeader_layoutBlocks (b : Budget) :
    ∀ (secs : List Section) (row0 : Nat) (map : List (Str × Nat)) (ρ : Nat),
    RowEntry.header ρ ∉ layoutBlocks b secs row0 map := by
  intro secs
  induction secs with
  | nil =>
    intro row0 map ρ
    simp [layoutBlocks]
  | cons sec rest ih =>
    intro row0 map ρ
    rw [layoutBlocks]
    intro hc
    rcases List.mem_append.mp hc with hc | hc
    · exact noHeader_blockEntries b row0 map sec ρ hc
    · exact ih _ _ ρ hc

theorem consecutiveFrom_layoutBlocks (b : Budget) :
    ∀ (secs : List Section) (row0 : Nat) (map : List (Str × Nat)),
    consecutiveFrom (layoutBlocks b secs row0 map) row0 := by
  intro secs
  induction secs with
  | nil =>
    intro row0 map
    trivial
  | cons sec rest ih =>
    intro row0 map
    rw [layoutBlocks]
    rw [consecutiveFrom_append]
    exact ⟨consecutiveFrom_blockEntries b row0 map sec, ih _ _⟩

theorem payload_eq (b : Budget) :
    generateSheetsPayload b =
      vrOf 1 headerValues ::
        (layoutBlocks b b.sections 2 []).filterMap
          (emitEntry (buildRowLayout b).rowLayout (buildRowLayout b).incomeTotalRows
            (buildRowLayout b).expenseTotalRows (buildRowLayout b).savingsTotalRows) := by
  unfold generateSheetsPayload
  simp only [buildRowLayout_rowLayout]
  rw [List.find?_cons_of_pos _ (by rfl)]
  rfl

theorem blocks_split (b : Budget) (front : List Section) (sumSec : Section)
    (h1 : b.sections = front ++ [sumSec]) (h2 : sumSec.type = SUMMARY) :
    layoutBlocks b b.sections 2 [] =
      layoutBlocks b front 2 [] ++
        [RowEntry.expGrand (2 + (layoutBlocks b front 2 []).length) sumSec,
         RowEntry.savGrand (2 + (layoutBlocks b front 2 []).length + 1) sumSec,
         RowEntry.remaining (2 + (layoutBlocks b front 2 []).length + 2) sumSec,
         RowEntry.runningBalance (2 + (layoutBlocks b front 2 []).length + 3)
           (2 + (layoutBlocks b front 2 []).length + 2) sumSec,
         RowEntry.separator (2 + (layoutBlocks b front 2 []).length + 4)] := by
  have hcons : ∀ (R : Nat) (M : List (Str × Nat)),
      layoutBlocks b [sumSec] R M = blockEntries b R M sumSec := by
    intro R M
    rw [layoutBlocks, layoutBlocks, List.append_nil]
  rw [h1, layoutBlocks_append, hcons]
  congr 1
  unfold blockEntries
  rw [if_pos h2]

theorem sheetRows_eq (b : Budget) (front : List Section) (sumSec : Section)
    (h1 : b.sections = front ++ [sumSec]) (h2 : sumSec.type = SUMMARY) :
    sheetRows b = headerValues ::
      (layoutBlocks b front 2 [] ++
        [RowEntry.expGrand (2 + (layoutBlocks b front 2 []).length) sumSec,
         RowEntry.savGrand (2 + (layoutBlocks b front 2 []).length + 1) sumSec,
         RowEntry.remaining (2 + (layoutBlocks b front 2 []).length + 2) sumSec,
         RowEntry.runningBalance (2 + (layoutBlocks b front 2 []).length + 3)
           (2 + (layoutBlocks b front 2 []).length + 2) sumSec]).map (layVals b) := by
  have hsplit := blocks_split b front sumSec h1 h2
  unfold sheetRows simulateRead
  rw [payload_eq, hsplit]
  show (if (vrOf 1 headerValues).row < 1 then _ else _) = _
  rw [if_neg (by decide)]
  show List.replicate (1 - 1) [] ++ headerValues :: simulateReadGo 2 _ = _
  rw [Nat.sub_self, List.replicate_zero, List.nil_append]
  congr 1
  have hsep : (layoutBlocks b front 2 [] ++
      [RowEntry.expGrand (2 + (layoutBlocks b front 2 []).length) sumSec,
       RowEntry.savGrand (2 + (layoutBlocks b front 2 []).length + 1) sumSec,
       RowEntry.remaining (2 + (layoutBlocks b front 2 []).length + 2) sumSec,
       RowEntry.runningBalance (2 + (layoutBlocks b front 2 []).length + 3)
         (2 + (layoutBlocks b front 2 []).length + 2) sumSec,
       RowEntry.separator (2 + (layoutBlocks b front 2 []).length + 4)]) =
      (layoutBlocks b front 2 [] ++
        [RowEntry.expGrand (2 + (layoutBlocks b front 2 []).length) sumSec,
         RowEntry.savGrand (2 + (layoutBlocks b front 2 []).length + 1) sumSec,
         RowEntry.remaining (2 + (layoutBlocks b front 2 []).length + 2) sumSec,
         RowEntry.runningBalance (2 + (layoutBlocks b front 2 []).length + 3)
           (2 + (layoutBlocks b front 2 []).length + 2) sumSec]) ++
        [RowEntry.separator (2 + (layoutBlocks b front 2 []).length + 4)] := by
    rw [List.append_assoc]
    rfl
  rw [hsep, List.filterMap_append]
  have hsepnil : List.filterMap (emitEntry (buildRowLayout b).rowLayout
      (buildRowLayout b).incomeTotalRows (buildRowLayout b).expenseTotalRows
      (buildRowLayout b).savingsTotalRows)
      [RowEntry.separator (2 + (layoutBlocks b front 2 []).length + 4)] = [] := rfl
  rw [hsepnil, List.append_nil]
  refine (simulateReadGo_spec _ _ _ _ _ _ ?_ ?_ ?_).trans ?_
  · rw [consecutiveFrom_append]
    refine ⟨consecutiveFrom_layoutBlocks b front 2 [], rfl, ?_, ?_, ?_, trivial⟩ <;> rfl
  · intro ρ hρ
    rcases List.mem_append.mp hρ with hρ | hρ
    · exact noHeader_layoutBlocks b front 2 [] ρ hρ
    · simp at hρ
  · rw [List.getLast?_append]
    exact fun hc => Option.noConfusion hc
  · rfl

theorem consecutive_map_get (f : RowEntry → Row) :
    ∀ (es : List RowEntry) (r : Nat), consecutiveFrom es r →
    ∀ e ∈ es, (es.map f).get? (rowIndexOf e - r) = some (f e) := by
  intro es
  induction es with
  | nil =>
    intro r _ e he
    simp at he
  | cons e0 t ih =>
    rintro r ⟨h0, hct⟩ e he
    rcases List.mem_cons.mp he with rfl | he
    · rw [h0, Nat.sub_self]
      rfl
    · have hge := consecutiveFrom_le t (r + 1) hct e he
      have harith : rowIndexOf e - r = (rowIndexOf e - (r + 1)) + 1 := by omega
      rw [List.map_cons, harith]
      show (t.map f).get? (rowIndexOf e - (r + 1)) = some (f e)
      exact ih (r + 1) hct e he

theorem sheetRows_get (b : Budget) (es : List RowEntry)
    (hchar : sheetRows b = headerValues :: es.map (layVals b))
    (hcons : consecutiveFrom es 2) :
    ∀ e ∈ es, (sheetRows b).get? (rowIndexOf e - 1) = some (layVals b e) := by
  intro e he
  have hge := consecutiveFrom_le es 2 hcons e he
  rw [hchar]
  have harith : rowIndexOf e - 1 = (rowIndexOf e - 2) + 1 := by omega
  rw [harith]
  show (es.map (layVals b)).get? (rowIndexOf e - 2) = _
  exact consecutive_map_get (layVals b) es 2 hcons e he

/-! ### Round-trip, part II: string and marker parsing facts -/

theorem dropWhile_eq_self_of_head (p : Char → Bool) (s : Str)
    (h : match s.head? with | some c => p c = false | none => True) :
    s.dropWhile p = s := by
  cases s with
  | nil => rfl
  | cons c t =>
    simp only [List.head?_cons] at h
    rw [List.dropWhile_cons, if_neg (by rw [h]; exact Bool.noConfusion)]

theorem dropWhile_eq_self_head (p : Char → Bool) (l : Str) (h : l.dropWhile p = l) :
    match l.head? with | some c => p c = false | none => True := by
  cases l with
  | nil => trivial
  | cons c t =>
    simp only [List.head?_cons]
    cases hp : p c with
    | false => rfl
    | true =>
      rw [List.dropWhile_cons, if_pos hp] at h
      have hle := (List.dropWhile_suffix p : t.dropWhile p <:+ t).length_le
      have h2 := congrArg List.length h
      simp at h2
      omega

theorem jsTrim_eq_self (s : Str)
    (h1 : match s.head? with | some c => c.isWhitespace = false | none => True)
    (h2 : match s.getLast? with | some c => c.isWhitespace = false | none => True) :
    jsTrim s = s := by
  unfold jsTrim
  rw [dropWhile_eq_self_of_head _ _ h1]
  rw [dropWhile_eq_self_of_head _ _ (by rw [List.head?_reverse]; exact h2)]
  exact List.reverse_reverse s

theorem jsTrim_self_parts (s : Str) (h : jsTrim s = s) :
    s.dropWhile Char.isWhitespace = s ∧
      s.reverse.dropWhile Char.isWhitespace = s.reverse := by
  unfold jsTrim at h
  have hsuf1 : (s.dropWhile Char.isWhitespace).length ≤ s.length :=
    (List.dropWhile_suffix _).length_le
  have hsuf2 : ((s.dropWhile Char.isWhitespace).reverse.dropWhile
      Char.isWhitespace).length ≤ (s.dropWhile Char.isWhitespace).length := by
    have := (List.dropWhile_suffix Char.isWhitespace :
      (s.dropWhile Char.isWhitespace).reverse.dropWhile Char.isWhitespace <:+
        (s.dropWhile Char.isWhitespace).reverse).length_le
    simpa using this
  have hlen := congrArg List.length h
  simp only [List.length_reverse] at hlen
  have hl1 : (s.dropWhile Char.isWhitespace).length = s.length := by omega
  have he1 : s.dropWhile Char.isWhitespace = s :=
    (List.dropWhile_suffix _).eq_of_length hl1
  refine ⟨he1, ?_⟩
  rw [he1] at h
  have he2 := congrArg List.reverse h
  rw [List.reverse_reverse] at he2
  exact he2

theorem getLast_not_ws_of_jsTrim (s : Str) (h : jsTrim s = s) :
    match s.getLast? with | some c => c.isWhitespace = false | none => True := by
  have h2 := (jsTrim_self_parts s h).2
  have h3 := dropWhile_eq_self_head _ _ h2
  rw [List.head?_reverse] at h3
  exact h3

theorem head_not_ws_of_jsTrim (s : Str) (h : jsTrim s = s) :
    match s.head? with | some c => c.isWhitespace = false | none => True :=
  dropWhile_eq_self_head _ _ (jsTrim_self_parts s h).1

theorem splitOnChar_no (c : Char) : ∀ (s : Str), c ∉ s → splitOnChar c s = [s] := by
  intro s
  induction s with
  | nil =>
    intro _
    rfl
  | cons x r ih =>
    intro hnm
    have hx : ¬ x = c := fun hc => hnm (hc ▸ List.mem_cons_self x r)
    have hr : c ∉ r := fun hc => hnm (List.mem_cons_of_mem x hc)
    rw [splitOnChar]
    rw [if_neg (fun hc => hx hc), ih hr]

theorem splitOnChar_once (c : Char) : ∀ (a b : Str), c ∉ a → c ∉ b →
    splitOnChar c (a ++ c :: b) = [a, b] := by
  intro a
  induction a with
  | nil =>
    intro b _ hb
    rw [List.nil_append, splitOnChar, if_pos rfl, splitOnChar_no c b hb]
  | cons x a' ih =>
    intro b ha hb
    have hx : ¬ x = c := fun hc => ha (hc ▸ List.mem_cons_self x a')
    have ha' : c ∉ a' := fun hc => ha (List.mem_cons_of_mem x hc)
    rw [List.cons_append, splitOnChar, if_neg (fun hc => hx hc), ih b ha' hb]

theorem marker_none_item (L : List RowEntry) (r : Nat) (it : Item) (sec : Section)
    (hnote : jsTrim it.note = it.note)
    (hpre : sectionMarkTag.isPrefixOf it.note = false) :
    getSectionMarkerMeta (some (emitItem L r it sec).values) = none := by
  show (match parseSectionMarker (Cell.str []) with
        | some m => some m
        | none => parseSectionMarker (Cell.str it.note)) = none
  show parseSectionMarker (Cell.str it.note) = none
  unfold parseSectionMarker
  simp only [jsCellStr]
  rw [hnote]
  rw [if_pos (by rw [hpre]; exact Bool.noConfusion)]

theorem marker_none_total (r : Nat) (sec : Section) (s e : Nat)
    (en : List (Nat × Item)) (a : Option Nat)
    (hid : jsTrim sec.id = sec.id) (hne : sec.id ≠ []) :
    getSectionMarkerMeta (some (emitTotal r sec s e en a).values) = none := by
  show (match parseSectionMarker (Cell.str (totalMarkTag ++ sec.id)) with
        | some m => some m
        | none => parseSectionMarker (Cell.str [])) = none
  have hp : parseSectionMarker (Cell.str (totalMarkTag ++ sec.id)) = none := by
    unfold parseSectionMarker
    simp only [jsCellStr]
    have htrim : jsTrim (totalMarkTag ++ sec.id) = totalMarkTag ++ sec.id := by
      apply jsTrim_eq_self
      · exact (by decide : ('_' : Char).isWhitespace = false)
      · rw [List.getLast?_append]
        cases hgl : sec.id.getLast? with
        | none => exact absurd (List.getLast?_eq_none_iff.mp hgl) hne
        | some c =>
          have := getLast_not_ws_of_jsTrim sec.id hid
          rw [hgl] at this
          simpa [Option.or] using this
    rw [htrim]
    rw [if_pos (by
      rw [show sectionMarkTag.isPrefixOf (totalMarkTag ++ sec.id) = false from rfl]
      exact Bool.noConfusion)]
  rw [hp]
  rfl

theorem marker_secHeader (r : Nat) (sec : Section)
    (hty : sec.type = INCOME ∨ sec.type = EXPENSE ∨ sec.type = SAVINGS)
    (hid : jsTrim sec.id = sec.id) (hidne : sec.id ≠ []) (hcolon : ':' ∉ sec.id) :
    getSectionMarkerMeta (some (emitSectionHeader r sec).values) =
      some ⟨some sec.id, some sec.type⟩ := by
  have htyne : sec.type ≠ [] := by
    rcases hty with h | h | h <;> rw [h] <;> decide
  have htycolon : ':' ∉ sec.type := by
    rcases hty with h | h | h <;> rw [h] <;> decide
  have hassoc : sectionMarkTag ++ sec.id ++ ':' :: sec.type =
      sectionMarkTag ++ (sec.id ++ ':' :: sec.type) := by
    rw [List.append_assoc]
  have hp : parseSectionMarker (Cell.str (sectionMarkTag ++ sec.id ++ ':' :: sec.type)) =
      some ⟨some sec.id, some sec.type⟩ := by
    unfold parseSectionMarker
    simp only [jsCellStr]
    have htrim : jsTrim (sectionMarkTag ++ sec.id ++ ':' :: sec.type) =
        sectionMarkTag ++ sec.id ++ ':' :: sec.type := by
      apply jsTrim_eq_self
      · rw [hassoc]
        exact (by decide : ('_' : Char).isWhitespace = false)
      · rw [List.getLast?_append]
        rcases hty with h | h | h <;> rw [h]
        · exact (by decide : ('e' : Char).isWhitespace = false)
        · exact (by decide : ('e' : Char).isWhitespace = false)
        · exact (by decide : ('s' : Char).isWhitespace = false)
    rw [htrim]
    have htrue : sectionMarkTag.isPrefixOf
        (sectionMarkTag ++ sec.id ++ ':' :: sec.type) = true := by
      rw [hassoc]
      exact List.isPrefixOf_iff_prefix.mpr (List.prefix_append _ _)
    rw [if_neg (not_not_intro htrue)]
    have hdrop : (sectionMarkTag ++ sec.id ++ ':' :: sec.type).drop
        sectionMarkTag.length = sec.id ++ ':' :: sec.type := by
      rw [hassoc]
      exact List.drop_left _ _
    simp only [hdrop]
    rw [if_neg (by simp)]
    rw [splitOnChar_once ':' sec.id sec.type hcolon htycolon]
    show some (⟨if sec.id = [] then none else some sec.id,
      if sec.type = [] then none else some sec.type⟩ : MarkMeta) =
      some ⟨some sec.id, some sec.type⟩
    rw [if_neg hidne, if_neg htyne]
  show (match parseSectionMarker (Cell.str (sectionMarkTag ++ sec.id ++ ':' :: sec.type)) with
        | some m => some m
        | none => parseSectionMarker (Cell.str [])) =
      some (⟨some sec.id, some sec.type⟩ : MarkMeta)
  rw [hp]

theorem rowLabel_secHeader (r : Nat) (sec : Section) (hname : jsTrim sec.name = sec.name) :
    rowLabel (some (emitSectionHeader r sec).values) = sec.name := by
  show jsTrim (jsCellStr (Cell.str sec.name)) = sec.name
  exact hname

theorem consecutiveFrom_lt : ∀ (es : List RowEntry) (r : Nat),
    consecutiveFrom es r → ∀ e ∈ es, rowIndexOf e < r + es.length := by
  intro es
  induction es with
  | nil =>
    intro r _ e he
    simp at he
  | cons e0 t ih =>
    rintro r ⟨h1, h2⟩ e he
    rcases List.mem_cons.mp he with rfl | he
    · simp
      omega
    · have := ih (r + 1) h2 e he
      simp
      omega

theorem layoutLinkedSearch_mem : ∀ (secs : List Section) (sid : Str) (it : Item),
    layoutLinkedSearch secs sid = some it →
    ∃ s ∈ secs, (s.type = EXPENSE ∨ s.type = INCOME) ∧ it ∈ s.items ∧
      it.savingsLink = some sid := by
  intro secs
  induction secs with
  | nil =>
    intro sid it h
    exact Option.noConfusion h
  | cons s rest ih =>
    intro sid it h
    rw [layoutLinkedSearch] at h
    by_cases hs : s.type ≠ EXPENSE ∧ s.type ≠ INCOME
    · rw [if_pos hs] at h
      obtain ⟨s2, hs2, h2⟩ := ih sid it h
      exact ⟨s2, List.mem_cons_of_mem _ hs2, h2⟩
    · rw [if_neg hs] at h
      cases hf : s.items.find? (fun x => decide (x.savingsLink = some sid)) with
      | none =>
        rw [hf] at h
        obtain ⟨s2, hs2, h2⟩ := ih sid it h
        exact ⟨s2, List.mem_cons_of_mem _ hs2, h2⟩
      | some it2 =>
        simp only [hf] at h
        by_cases hne : it2.id ≠ []
        · rw [if_pos hne] at h
          injection h with h
          subst h
          refine ⟨s, List.mem_cons_self _ _, ?_, List.mem_of_find?_eq_some hf, ?_⟩
          · rcases Decidable.not_and_iff_or_not.mp hs with h | h
            · exact Or.inl (Decidable.not_not.mp h)
            · exact Or.inr (Decidable.not_not.mp h)
          · have := List.find?_some hf
            exact of_decide_eq_true this
        · rw [if_neg hne] at h
          obtain ⟨s2, hs2, h2⟩ := ih sid it h
          exact ⟨s2, List.mem_cons_of_mem _ hs2, h2⟩

theorem enum_filterMap_markers (g : RowEntry → Row) :
    ∀ (es : List RowEntry) (j : Nat), consecutiveFrom es (j + 1) →
    ((es.map g).enumFrom j).filterMap (fun p =>
        (getSectionMarkerMeta (some p.2)).map (fun meta =>
          (⟨p.1 + 1, rowLabel (some p.2), meta.id, meta.type⟩ : MarkerRow))) =
      es.filterMap (fun e =>
        (getSectionMarkerMeta (some (g e))).map (fun meta =>
          (⟨rowIndexOf e, rowLabel (some (g e)), meta.id, meta.type⟩ : MarkerRow))) := by
  intro es
  induction es with
  | nil =>
    intro j _
    rfl
  | cons e t ih =>
    rintro j ⟨hre, hct⟩
    rw [List.map_cons]
    show ((j, g e) :: (t.map g).enumFrom (j + 1)).filterMap _ = _
    rw [List.filterMap_cons, List.filterMap_cons, ih (j + 1) hct, hre]

theorem markerOfEntry_item (b : Budget) (r : Nat) (it : Item) (sec : Section)
    (hnote : jsTrim it.note = it.note)
    (hpre : sectionMarkTag.isPrefixOf it.note = false) :
    markerOfEntry b (RowEntry.item r it sec) = none := by
  unfold markerOfEntry
  rw [show layVals b (RowEntry.item r it sec) =
    (emitItem (buildRowLayout b).rowLayout r it sec).values from rfl]
  rw [marker_none_item _ r it sec hnote hpre]
  rfl

theorem markerOfEntry_total (b : Budget) (r : Nat) (sec : Section) (s e : Nat)
    (en : List (Nat × Item)) (a : Option Nat)
    (hid : jsTrim sec.id = sec.id) (hne : sec.id ≠ []) :
    markerOfEntry b (RowEntry.total r sec s e en a) = none := by
  unfold markerOfEntry
  rw [show layVals b (RowEntry.total r sec s e en a) =
    (emitTotal r sec s e en a).values from rfl]
  rw [marker_none_total r sec s e en a hid hne]
  rfl

theorem markerOfEntry_secHeader (b : Budget) (r : Nat) (sec : Section)
    (hty : sec.type = INCOME ∨ sec.type = EXPENSE ∨ sec.type = SAVINGS)
    (hname : jsTrim sec.name = sec.name)
    (hid : jsTrim sec.id = sec.id) (hidne : sec.id ≠ []) (hcolon : ':' ∉ sec.id) :
    markerOfEntry b (RowEntry.sectionHeader r sec) =
      some ⟨r, sec.name, some sec.id, some sec.type⟩ := by
  unfold markerOfEntry
  rw [show layVals b (RowEntry.sectionHeader r sec) =
    (emitSectionHeader r sec).values from rfl]
  rw [marker_secHeader r sec hty hid hidne hcolon]
  simp only [Option.map_some']
  rw [rowLabel_secHeader r sec hname]
  rfl

theorem markers_of_layoutBlocks (b : Budget) :
    ∀ (secs : List Section) (row0 : Nat) (map : List (Str × Nat)),
    (∀ s ∈ secs, wfSection s) →
    (layoutBlocks b secs row0 map).filterMap (markerOfEntry b) =
      markersSpec b secs row0 map := by
  intro secs
  induction secs with
  | nil =>
    intro row0 map _
    rfl
  | cons sec rest ih =>
    intro row0 map hwf
    obtain ⟨hty, hshow, hnmt, hnmne, _, _, _, _, hidt, hidne, hcolon, hitems⟩ :=
      hwf sec (List.mem_cons_self _ _)
    have hnsum : ¬ sec.type = SUMMARY := by
      rcases hty with h | h | h <;> rw [h] <;> decide
    rw [layoutBlocks, List.filterMap_append, markersSpec]
    have hblock : (blockEntries b row0 map sec).filterMap (markerOfEntry b) =
        [⟨row0, sec.name, some sec.id, some sec.type⟩] := by
      unfold blockEntries
      rw [if_neg hnsum]
      rw [List.filterMap_append, List.filterMap_append, List.filterMap_append,
        List.filterMap_append]
      have h1 : List.filterMap (markerOfEntry b) [RowEntry.sectionHeader row0 sec] =
          [⟨row0, sec.name, some sec.id, some sec.type⟩] := by
        rw [List.filterMap_cons]
        rw [markerOfEntry_secHeader b row0 sec hty hnmt hidt hidne hcolon]
        rfl
      have h2 : List.filterMap (markerOfEntry b)
          (match secAutoLink b map sec with
           | some (lr, nm) => [RowEntry.savingsAuto (row0 + 1) sec lr nm]
           | none => []) = [] := by
        cases hA : secAutoLink b map sec with
        | none => rfl
        | some v =>
          obtain ⟨lr, nm⟩ := v
          rw [List.filterMap_cons]
          rw [show markerOfEntry b (RowEntry.savingsAuto (row0 + 1) sec lr nm) =
            none from rfl]
          rfl
      have h3 : List.filterMap (markerOfEntry b)
          (sec.items.enum.map fun p =>
            RowEntry.item (itemStartOf row0 (secAutoLink b map sec) + p.1) p.2 sec) = [] := by
        refine List.filterMap_eq_nil_iff.mpr ?_
        intro x hx
        obtain ⟨p, hp, hpe⟩ := List.mem_map.mp hx
        have hmem : p.2 ∈ sec.items := by
          have := List.mk_mem_enum_iff_getElem?.mp (show (p.1, p.2) ∈ sec.items.enum from hp)
          exact List.getElem?_mem this
        obtain ⟨⟨_, _, _, _, _, _, hnote, hspre, _⟩, _⟩ := hitems p.2 hmem
        rw [← hpe]
        exact markerOfEntry_item b _ p.2 sec hnote hspre
      have h4 : List.filterMap (markerOfEntry b)
          (if sec.showTotal then
            [RowEntry.total (itemStartOf row0 (secAutoLink b map sec) + sec.items.length)
              sec (itemStartOf row0 (secAutoLink b map sec))
              (itemStartOf row0 (secAutoLink b map sec) + sec.items.length - 1)
              (sec.items.enum.map fun p =>
                (itemStartOf row0 (secAutoLink b map sec) + p.1, p.2))
              ((secAutoLink b map sec).map fun _ => row0 + 1)]
           else []) = [] := by
        cases hT : sec.showTotal with
        | false => rfl
        | true =>
          rw [if_pos rfl, List.filterMap_cons]
          rw [markerOfEntry_total b _ sec _ _ _ _ hidt hidne]
          rfl
      have h5 : List.filterMap (markerOfEntry b)
          [RowEntry.separator (itemStartOf row0 (secAutoLink b map sec) +
            sec.items.length + if sec.showTotal then 1 else 0)] = [] := by
        rw [List.filterMap_cons]
        rfl
      rw [h1, h2, h3, h4, h5]
      rfl
    rw [hblock, ih _ _ (fun s hs => hwf s (List.mem_cons_of_mem _ hs))]
    rfl

theorem markerRows_eq (b : Budget) (front : List Section) (sumSec : Section)
    (h1 : b.sections = front ++ [sumSec]) (h2 : sumSec.type = SUMMARY)
    (hwf : ∀ s ∈ front, wfSection s) :
    (sheetRows b).enum.filterMap (fun p =>
        (getSectionMarkerMeta (some p.2)).map (fun meta =>
          (⟨p.1 + 1, rowLabel (some p.2), meta.id, meta.type⟩ : MarkerRow))) =
      markersSpec b front 2 [] := by
  rw [sheetRows_eq b front sumSec h1 h2]
  show ((0, headerValues) :: (((layoutBlocks b front 2 [] ++
      [RowEntry.expGrand (2 + (layoutBlocks b front 2 []).length) sumSec,
       RowEntry.savGrand (2 + (layoutBlocks b front 2 []).length + 1) sumSec,
       RowEntry.remaining (2 + (layoutBlocks b front 2 []).length + 2) sumSec,
       RowEntry.runningBalance (2 + (layoutBlocks b front 2 []).length + 3)
         (2 + (layoutBlocks b front 2 []).length + 2) sumSec]).map
        (layVals b)).enumFrom 1)).filterMap _ = _
  rw [List.filterMap_cons]
  have hcons2 : consecutiveFrom (layoutBlocks b front 2 [] ++
      [RowEntry.expGrand (2 + (layoutBlocks b front 2 []).length) sumSec,
       RowEntry.savGrand (2 + (layoutBlocks b front 2 []).length + 1) sumSec,
       RowEntry.remaining (2 + (layoutBlocks b front 2 []).length + 2) sumSec,
       RowEntry.runningBalance (2 + (layoutBlocks b front 2 []).length + 3)
         (2 + (layoutBlocks b front 2 []).length + 2) sumSec]) 2 := by
    rw [consecutiveFrom_append]
    refine ⟨consecutiveFrom_layoutBlocks b front 2 [], rfl, ?_, ?_, ?_, trivial⟩ <;> rfl
  rw [enum_filterMap_markers (layVals b) _ 1 hcons2]
  show (layoutBlocks b front 2 [] ++ _).filterMap (markerOfEntry b) = _
  rw [List.filterMap_append]
  rw [markers_of_layoutBlocks b front 2 [] hwf]
  rw [show List.filterMap (markerOfEntry b)
      [RowEntry.expGrand (2 + (layoutBlocks b front 2 []).length) sumSec,
       RowEntry.savGrand (2 + (layoutBlocks b front 2 []).length + 1) sumSec,
       RowEntry.remaining (2 + (layoutBlocks b front 2 []).length + 2) sumSec,
       RowEntry.runningBalance (2 + (layoutBlocks b front 2 []).length + 3)
         (2 + (layoutBlocks b front 2 []).length + 2) sumSec] = [] from rfl]
  rw [List.append_nil]

/-! ### Round-trip, part III: how the span walk classifies the written rows -/

theorem dropWhile_append_singleton_ne (p : Char → Bool) (c : Char) (hc : p c = false) :
    ∀ (l : Str), (l ++ [c]).dropWhile p ≠ [] := by
  intro l
  induction l with
  | nil =>
    rw [List.nil_append, List.dropWhile_cons, if_neg (by rw [hc]; exact Bool.noConfusion)]
    exact List.cons_ne_nil _ _
  | cons x t ih =>
    rw [List.cons_append, List.dropWhile_cons]
    by_cases hx : p x = true
    · rw [if_pos hx]
      exact ih
    · rw [if_neg hx]
      exact List.cons_ne_nil _ _

theorem jsTrim_cons_ne_nil (c : Char) (s : Str) (hc : c.isWhitespace = false) :
    jsTrim (c :: s) ≠ [] := by
  unfold jsTrim
  rw [List.dropWhile_cons, if_neg (by rw [hc]; exact Bool.noConfusion)]
  intro hnil
  rw [List.reverse_eq_nil_iff] at hnil
  have : (c :: s).reverse = s.reverse ++ [c] := by
    rw [List.reverse_cons]
  rw [this] at hnil
  exact dropWhile_append_singleton_ne _ c hc s.reverse hnil

theorem rowLabel_emitItem (L : List RowEntry) (r : Nat) (it : Item) (sec : Section)
    (hname : jsTrim it.name = it.name) :
    rowLabel (some (emitItem L r it sec).values) = it.name := by
  show jsTrim (jsCellStr (Cell.str it.name)) = it.name
  exact hname

theorem hasMonthData_emitItem (L : List RowEntry) (r : Nat) (it : Item) (sec : Section) :
    hasMonthData (some (emitItem L r it sec).values) = true := by
  unfold hasMonthData
  refine List.any_eq_true.mpr ⟨0, by decide, ?_⟩
  show (match cellAt (some (emitItem L r it sec).values) (1 + 0) with
        | .num _ => true
        | .str s => decide (jsTrim s ≠ [])
        | .emp => false) = true
  rw [show cellAt (some (emitItem L r it sec).values) (1 + 0) =
      (match (if sec.type = SAVINGS ∧ it.savingsPercentage ≠ none then
        L.find? (fun e => match e with
          | .savingsAuto _ s _ _ => decide (s.id = sec.id)
          | _ => false) else none), it.savingsPercentage with
      | some e, some p =>
        Cell.str ('=' :: cellRef (rowIndexOf e) (1 + 0) ++ '*' :: jsNumStr (qDiv p 100))
      | _, _ => Cell.num ((it.monthlyValues.get? 0).getD 0)) from rfl]
  cases hae : (if sec.type = SAVINGS ∧ it.savingsPercentage ≠ none then
      L.find? (fun e => match e with
        | .savingsAuto _ s _ _ => decide (s.id = sec.id)
        | _ => false) else none) with
  | none => rfl
  | some e =>
    cases hsp : it.savingsPercentage with
    | none => rfl
    | some p =>
      simp only []
      exact decide_eq_true (jsTrim_cons_ne_nil '=' _ (by decide))

theorem boundary_emitItem (L : List RowEntry) (r : Nat) (it : Item) (sec : Section)
    (hname : jsTrim it.name = it.name)
    (hbound : ∀ l ∈ boundaryLabels, jsToLower it.name ≠ jsToLower l) :
    matchesAnyLabel (some (emitItem L r it sec).values) boundaryLabels = false := by
  unfold matchesAnyLabel
  rw [List.any_eq_false]
  intro l hl
  rw [rowLabel_emitItem L r it sec hname]
  simp only [decide_eq_true_eq]
  exact hbound l hl

theorem hasSectionMarker_emitItem (L : List RowEntry) (r : Nat) (it : Item) (sec : Section)
    (hnote : jsTrim it.note = it.note)
    (hpre : sectionMarkTag.isPrefixOf it.note = false) :
    hasSectionMarker (some (emitItem L r it sec).values) = false := by
  unfold hasSectionMarker
  rw [marker_none_item L r it sec hnote hpre]
  rfl

theorem totalMark_emitItem (L : List RowEntry) (r : Nat) (it : Item) (sec : Section)
    (hnote : jsTrim it.note = it.note)
    (hpre : totalMarkTag.isPrefixOf it.note = false) :
    getTotalMarkId (some (emitItem L r it sec).values) = none := by
  show (match parseTotalMark (Cell.str []) with
        | some m => some m
        | none => parseTotalMark (Cell.str it.note)) = none
  show parseTotalMark (Cell.str it.note) = none
  unfold parseTotalMark
  simp only [jsCellStr]
  rw [hnote]
  rw [if_pos (by rw [hpre]; exact Bool.noConfusion)]

theorem jsTrim_totalMark (sid : Str) (hid : jsTrim sid = sid) (hne : sid ≠ []) :
    jsTrim (totalMarkTag ++ sid) = totalMarkTag ++ sid := by
  apply jsTrim_eq_self
  · exact (by decide : ('_' : Char).isWhitespace = false)
  · rw [List.getLast?_append]
    cases hgl : sid.getLast? with
    | none => exact absurd (List.getLast?_eq_none_iff.mp hgl) hne
    | some c =>
      have := getLast_not_ws_of_jsTrim sid hid
      rw [hgl] at this
      simpa [Option.or] using this

theorem totalMark_emitTotal (r : Nat) (sec : Section) (s e : Nat)
    (en : List (Nat × Item)) (a : Option Nat)
    (hid : jsTrim sec.id = sec.id) (hne : sec.id ≠ []) :
    getTotalMarkId (some (emitTotal r sec s e en a).values) = some sec.id := by
  show (match parseTotalMark (Cell.str (totalMarkTag ++ sec.id)) with
        | some m => some m
        | none => parseTotalMark (Cell.str [])) = some sec.id
  have hp : parseTotalMark (Cell.str (totalMarkTag ++ sec.id)) = some sec.id := by
    unfold parseTotalMark
    simp only [jsCellStr]
    rw [jsTrim_totalMark sec.id hid hne]
    have htrue : totalMarkTag.isPrefixOf (totalMarkTag ++ sec.id) = true :=
      List.isPrefixOf_iff_prefix.mpr (List.prefix_append _ _)
    rw [if_neg (not_not_intro htrue)]
    simp only [List.drop_left]
    rw [hid]
    rw [if_neg hne]
  rw [hp]

theorem rowLabel_emitTotal (r : Nat) (sec : Section) (s e : Nat)
    (en : List (Nat × Item)) (a : Option Nat)
    (htl : jsTrim sec.totalLabel = sec.totalLabel) (hne : sec.totalLabel ≠ []) :
    rowLabel (some (emitTotal r sec s e en a).values) = sec.totalLabel := by
  show jsTrim (jsCellStr (Cell.str (if sec.totalLabel ≠ [] then sec.totalLabel
    else strOf "Total " ++ sec.name))) = sec.totalLabel
  rw [if_pos hne]
  exact htl

theorem rowLabel_emitAuto (r lr : Nat) (nm : Str) (hnm : jsTrim nm = nm) :
    rowLabel (some (emitAuto r lr nm).values) =
      if nm = [] then ['←'] else '←' :: ' ' :: nm := by
  show jsTrim (jsCellStr (Cell.str ('←' :: ' ' :: nm))) = _
  by_cases h : nm = []
  · rw [if_pos h, h]
    decide
  · rw [if_neg h]
    apply jsTrim_eq_self
    · exact (by decide : ('←' : Char).isWhitespace = false)
    · show (match (['←', ' '] ++ nm).getLast? with
            | some c => c.isWhitespace = false
            | none => True)
      rw [List.getLast?_append]
      cases hgl : nm.getLast? with
      | none => exact absurd (List.getLast?_eq_none_iff.mp hgl) h
      | some c =>
        have := getLast_not_ws_of_jsTrim nm hnm
        rw [hgl] at this
        simpa [Option.or] using this

theorem autoName_emitAuto (r lr : Nat) (nm : Str) (hnm : jsTrim nm = nm) :
    jsTrim (((rowLabel (some (emitAuto r lr nm).values)).drop 1).dropWhile
      Char.isWhitespace) = nm := by
  rw [rowLabel_emitAuto r lr nm hnm]
  by_cases h : nm = []
  · rw [if_pos h, h]
    decide
  · rw [if_neg h]
    show jsTrim ((' ' :: nm).dropWhile Char.isWhitespace) = nm
    rw [List.dropWhile_cons, if_pos (by decide)]
    rw [dropWhile_eq_self_of_head _ _ (head_not_ws_of_jsTrim nm hnm)]
    exact hnm

theorem collectSpan_item_step (rows : List Row) (mid : Option Str) (next : Nat)
    (L : List RowEntry) (sec : Section) (it : Item) (cursor : Nat) (st : CollectState)
    (f : Nat)
    (hr0 : rows.get? (cursor - 1) = some (emitItem L cursor it sec).values)
    (hlt : cursor < next) (hwfit : wfItem it) :
    collectSpan rows mid next (f + 1) cursor st =
      collectSpan rows mid next f (cursor + 1)
        { st with itemRows := st.itemRows ++ [some (emitItem L cursor it sec).values] } := by
  obtain ⟨hmv, hname, hhead, hwst, hwsi, hbound, hnote, hspre, htpre⟩ := hwfit
  show (if cursor < next then _ else _) = _
  rw [if_pos hlt]
  simp only [hr0, rowLabel_emitItem L cursor it sec hname,
    hasMonthData_emitItem L cursor it sec,
    boundary_emitItem L cursor it sec hname hbound,
    hasSectionMarker_emitItem L cursor it sec hnote hspre,
    totalMark_emitItem L cursor it sec hnote htpre]
  rw [if_neg (fun hc => by
    have := hc.2.2
    simp at this)]
  rw [if_neg (by
    intro hc
    exact hhead hc)]
  rw [if_neg (by
    intro hc
    exact Bool.noConfusion hc)]
  rw [if_neg (by
    intro hc
    exact Bool.noConfusion hc)]
  rw [if_neg (by
    intro hc
    exact Bool.noConfusion hc)]
  rw [if_neg (by
    rintro ⟨hab, _⟩
    rcases hab with ha | hb
    · rw [hwst] at ha
      exact Bool.noConfusion ha
    · rw [hwsi] at hb
      exact Bool.noConfusion hb)]

theorem collectSpan_auto_step (rows : List Row) (mid : Option Str) (next : Nat)
    (lr : Nat) (nm : Str) (cursor : Nat) (st : CollectState) (f : Nat)
    (hr0 : rows.get? (cursor - 1) = some (emitAuto cursor lr nm).values)
    (hlt : cursor < next) (hnm : jsTrim nm = nm) :
    collectSpan rows mid next (f + 1) cursor st =
      collectSpan rows mid next f (cursor + 1)
        { st with sawAutoRow := true,
                  autoLinkedItemName := if nm = [] then none else some nm } := by
  show (if cursor < next then _ else _) = _
  rw [if_pos hlt]
  simp only [hr0, rowLabel_emitAuto cursor lr nm hnm]
  rw [if_neg (fun hc => by
    have h1 := hc.1
    by_cases h : nm = []
    · rw [if_pos h] at h1
      exact List.noConfusion h1
    · rw [if_neg h] at h1
      exact List.noConfusion h1)]
  rw [if_pos (by
    by_cases h : nm = []
    · rw [if_pos h]
      rfl
    · rw [if_neg h]
      rfl)]
  have hX : jsTrim (((if nm = [] then ['←'] else '←' :: ' ' :: nm).drop 1).dropWhile
      Char.isWhitespace) = nm := by
    have h := autoName_emitAuto cursor lr nm hnm
    rwa [rowLabel_emitAuto cursor lr nm hnm] at h
  simp only [hX]

theorem collectSpan_total_stop (rows : List Row) (next : Nat)
    (sec : Section) (s e : Nat) (en : List (Nat × Item)) (a : Option Nat)
    (cursor : Nat) (st : CollectState) (f : Nat)
    (hr0 : rows.get? (cursor - 1) = some (emitTotal cursor sec s e en a).values)
    (hlt : cursor < next)
    (htl : jsTrim sec.totalLabel = sec.totalLabel) (htlne : sec.totalLabel ≠ [])
    (hthead : sec.totalLabel.head? ≠ some '←')
    (hid : jsTrim sec.id = sec.id) (hidne : sec.id ≠ [])
    (hst : st.totalLabel = sec.totalLabel) :
    collectSpan rows (some sec.id) next (f + 1) cursor st = st := by
  show (if cursor < next then _ else _) = _
  rw [if_pos hlt]
  simp only [hr0, rowLabel_emitTotal cursor sec s e en a htl htlne,
    totalMark_emitTotal cursor sec s e en a hid hidne]
  rw [if_neg (fun hc => htlne hc.1)]
  rw [if_neg (fun hc => hthead hc)]
  by_cases hb : matchesAnyLabel (some (emitTotal cursor sec s e en a).values)
      boundaryLabels = true
  · rw [if_pos hb]
  · rw [if_neg hb]
    rw [if_neg (by
      intro hc
      have hfalse : hasSectionMarker (some (emitTotal cursor sec s e en a).values) = false := by
        unfold hasSectionMarker
        rw [marker_none_total cursor sec s e en a hid hidne]
        rfl
      rw [hfalse] at hc
      exact Bool.noConfusion hc)]
    rw [if_pos (by simp)]
    rw [if_pos htlne]
    rw [← hst]

theorem collectSpan_items (rows : List Row) (mid : Option Str) (next : Nat)
    (L : List RowEntry) (sec : Section) :
    ∀ (suf : List Item) (cursor : Nat) (st : CollectState),
    cursor + suf.length ≤ next →
    (∀ (j : Nat) (it : Item), suf.get? j = some it →
      rows.get? (cursor + j - 1) = some (emitItem L (cursor + j) it sec).values) →
    (∀ it ∈ suf, wfItem it) →
    collectSpan rows mid next (next - cursor) cursor st =
      collectSpan rows mid next (next - (cursor + suf.length)) (cursor + suf.length)
        { st with itemRows := st.itemRows ++ itemRowsOf L sec cursor suf } := by
  intro suf
  induction suf with
  | nil =>
    intro cursor st _ _ _
    show _ = collectSpan rows mid next (next - (cursor + 0)) (cursor + 0)
      { st with itemRows := st.itemRows ++ [] }
    rw [List.append_nil]
    rfl
  | cons it rest ih =>
    intro cursor st hlen hrows hwf
    have hlt : cursor < next := by
      simp at hlen
      omega
    have hr0 : rows.get? (cursor - 1) = some (emitItem L cursor it sec).values := by
      have h := hrows 0 it rfl
      simpa using h
    have hfuel : next - cursor = (next - (cursor + 1)) + 1 := by omega
    rw [hfuel, collectSpan_item_step rows mid next L sec it cursor st _ hr0 hlt
      (hwf it (List.mem_cons_self _ _))]
    rw [ih (cursor + 1) _ (by simp at hlen ⊢; omega)
      (fun j it2 hj => by
        have h := hrows (j + 1) it2 hj
        rw [show cursor + (j + 1) = cursor + 1 + j from by omega] at h
        exact h)
      (fun it2 h2 => hwf it2 (List.mem_cons_of_mem _ h2))]
    rw [show cursor + 1 + rest.length = cursor + (it :: rest).length from by
      simp
      omega]
    rw [List.append_assoc]
    rfl

/-! ### Round-trip, part IV: item read-back -/

theorem dropWhile_append_singleton (p : Char → Bool) (c : Char) (hc : p c = false) :
    ∀ (l : Str), (l ++ [c]).dropWhile p = l.dropWhile p ++ [c] := by
  intro l
  induction l with
  | nil =>
    rw [List.nil_append, List.dropWhile_nil, List.nil_append, List.dropWhile_cons,
      if_neg (by rw [hc]; exact Bool.noConfusion)]
  | cons x t ih =>
    rw [List.cons_append, List.dropWhile_cons, List.dropWhile_cons]
    by_cases hx : p x = true
    · rw [if_pos hx, if_pos hx, ih]
    · rw [if_neg hx, if_neg hx, List.cons_append]

theorem jsTrim_cons_eq (c : Char) (s : Str) (hc : c.isWhitespace = false) :
    jsTrim (c :: s) = c :: (s.reverse.dropWhile Char.isWhitespace).reverse := by
  unfold jsTrim
  rw [List.dropWhile_cons, if_neg (by rw [hc]; exact Bool.noConfusion)]
  rw [List.reverse_cons, dropWhile_append_singleton _ c hc]
  rw [List.reverse_append]
  rfl

theorem jsParseNum_formula (s : Str) : jsParseNum ('=' :: s) = none := by
  unfold jsParseNum
  simp only [jsTrim_cons_eq '=' s (by decide)]
  rfl

theorem map_getD_range_eq (l : List ℚ) (h : l.length = 12) :
    (List.range 12).map (fun m => (l.get? m).getD 0) = l := by
  apply List.ext_getElem?
  intro i
  by_cases hi : i < 12
  · rw [List.getElem?_map, List.getElem?_range hi]
    simp only [Option.map_some']
    rw [List.get?_eq_getElem?, List.getElem?_eq_getElem (by omega)]
    rfl
  · rw [List.getElem?_map]
    rw [List.getElem?_eq_none (by simpa using hi)]
    rw [List.getElem?_eq_none (by omega)]
    rfl

theorem emitItem_cell_get (L : List RowEntry) (r : Nat) (it : Item) (sec : Section)
    (m : Nat) (hm : m < 12) :
    cellAt (some (emitItem L r it sec).values) (1 + m) =
      (match (if sec.type = SAVINGS ∧ it.savingsPercentage ≠ none then
        L.find? (fun e => match e with
          | .savingsAuto _ s _ _ => decide (s.id = sec.id)
          | _ => false) else none), it.savingsPercentage with
      | some e, some p =>
        Cell.str ('=' :: cellRef (rowIndexOf e) (1 + m) ++ '*' :: jsNumStr (qDiv p 100))
      | _, _ => Cell.num ((it.monthlyValues.get? m).getD 0)) := by
  show ((emitItem L r it sec).values.get? (1 + m)).getD Cell.emp = _
  rw [show (emitItem L r it sec).values =
    Cell.str it.name :: (List.range 12).map (fun m =>
      (match (if sec.type = SAVINGS ∧ it.savingsPercentage ≠ none then
        L.find? (fun e => match e with
          | .savingsAuto _ s _ _ => decide (s.id = sec.id)
          | _ => false) else none), it.savingsPercentage with
      | some e, some p =>
        Cell.str ('=' :: cellRef (rowIndexOf e) (1 + m) ++ '*' :: jsNumStr (qDiv p 100))
      | _, _ => Cell.num ((it.monthlyValues.get? m).getD 0))) ++
      [annualCell r, avgCell r, Cell.str it.note, Cell.str []] from rfl]
  rw [values_month_get _ _ _ m hm]
  rfl

theorem readback_monthly (L : List RowEntry) (r : Nat) (it : Item) (sec : Section)
    (hlen : it.monthlyValues.length = 12)
    (hz : sec.type = SAVINGS → it.savingsPercentage ≠ none →
      it.monthlyValues = List.replicate 12 0) :
    (List.range 12).map (fun m =>
      numOr0 (cellAt (some (emitItem L r it sec).values) (1 + m))) = it.monthlyValues := by
  have hstep : ∀ m, m < 12 →
      numOr0 (cellAt (some (emitItem L r it sec).values) (1 + m)) =
        (it.monthlyValues.get? m).getD 0 := by
    intro m hm
    rw [emitItem_cell_get L r it sec m hm]
    by_cases hcond : sec.type = SAVINGS ∧ it.savingsPercentage ≠ none
    · rw [if_pos hcond]
      cases hf : L.find? (fun e => match e with
        | .savingsAuto _ s _ _ => decide (s.id = sec.id)
        | _ => false) with
      | none =>
        cases it.savingsPercentage <;> rfl
      | some e =>
        cases hsp : it.savingsPercentage with
        | none => rfl
        | some p =>
          show (jsParseNum ('=' :: (cellRef (rowIndexOf e) (1 + m) ++
            '*' :: jsNumStr (qDiv p 100)))).getD 0 = _
          rw [jsParseNum_formula]
          rw [hz hcond.1 hcond.2]
          rw [List.get?_eq_getElem?, List.getElem?_replicate, if_pos hm]
          rfl
    · rw [if_neg hcond]
      cases it.savingsPercentage <;> rfl
  calc (List.range 12).map (fun m =>
        numOr0 (cellAt (some (emitItem L r it sec).values) (1 + m)))
      = (List.range 12).map (fun m => (it.monthlyValues.get? m).getD 0) := by
        refine List.map_congr_left ?_
        intro m hm
        exact hstep m (List.mem_range.mp hm)
    _ = it.monthlyValues := map_getD_range_eq _ hlen

theorem itemsFromRowsStep_spec (L : List RowEntry) (sec : Section) (uuid : Nat → Str)
    (existing : List Item) (pre post : List Item) (it : Item)
    (hsplit : existing = pre ++ it :: post)
    (hnd : (existing.map Item.id).Nodup)
    (used : List Str) (hused : ∀ x : Str, used.contains x = true ↔ x ∈ pre.map Item.id)
    (acc : List Item) (kk : Nat) (s0 : Nat)
    (hwfit : wfItem it)
    (hz : sec.type = SAVINGS → it.savingsPercentage ≠ none →
      it.monthlyValues = List.replicate 12 0) :
    itemsFromRowsStep existing uuid (acc, used, kk)
        (some (emitItem L s0 it sec).values) =
      (acc ++ [it], it.id :: used, kk) := by
  obtain ⟨hmv, hname, _, _, _, _, hnote, _, _⟩ := hwfit
  have hfind : existing.find? (fun x =>
      decide (x.name = rowLabel (some (emitItem L s0 it sec).values)) &&
        !used.contains x.id) = some it := by
    rw [rowLabel_emitItem L s0 it sec hname, hsplit, List.find?_append]
    have hpre : pre.find? (fun x => decide (x.name = it.name) && !used.contains x.id)
        = none := by
      rw [List.find?_eq_none]
      intro x hx
      intro hpx
      rw [Bool.and_eq_true] at hpx
      have hcont : used.contains x.id = true :=
        (hused x.id).mpr (List.mem_map.mpr ⟨x, hx, rfl⟩)
      rw [hcont] at hpx
      exact Bool.noConfusion hpx.2
    have hit : (fun x => decide (x.name = it.name) && !used.contains x.id) it = true := by
      have hnin : it.id ∉ pre.map Item.id := by
        intro hc
        rw [hsplit, List.map_append] at hnd
        exact (List.nodup_append.mp hnd).2.2 hc (by simp)
      have hcont : used.contains it.id = false := by
        cases hcf : used.contains it.id with
        | false => rfl
        | true => exact absurd ((hused it.id).mp hcf) hnin
      show (decide (it.name = it.name) && !used.contains it.id) = true
      rw [hcont]
      simp
    rw [hpre]
    show List.find? (fun x => decide (x.name = it.name) && !used.contains x.id)
      (it :: post) = some it
    exact List.find?_cons_of_pos _ hit
  unfold itemsFromRowsStep
  simp only [hfind]
  rw [rowLabel_emitItem L s0 it sec hname]
  rw [show jsTrim (jsCellStr (cellAt (some (emitItem L s0 it sec).values) 15)) =
    jsTrim it.note from rfl]
  rw [hnote]
  rw [readback_monthly L s0 it sec hmv hz]

theorem itemsFromRows_fold (L : List RowEntry) (sec : Section) (uuid : Nat → Str)
    (existing : List Item) (hnd : (existing.map Item.id).Nodup) :
    ∀ (suf pre : List Item) (s0 : Nat) (acc : List Item) (used : List Str) (kk : Nat),
    existing = pre ++ suf →
    (∀ x : Str, used.contains x = true ↔ x ∈ pre.map Item.id) →
    (∀ it ∈ suf, wfItem it ∧ (sec.type = SAVINGS → it.savingsPercentage ≠ none →
        it.monthlyValues = List.replicate 12 0)) →
    ∃ used', (itemRowsOf L sec s0 suf).foldl (itemsFromRowsStep existing uuid)
        (acc, used, kk) = (acc ++ suf, used', kk) := by
  intro suf
  induction suf with
  | nil =>
    intro pre s0 acc used kk _ _ _
    exact ⟨used, by simp [itemRowsOf]⟩
  | cons it rest ih =>
    intro pre s0 acc used kk hsplit hused hwf
    show ∃ used', (some (emitItem L s0 it sec).values ::
      itemRowsOf L sec (s0 + 1) rest).foldl _ _ = _
    rw [List.foldl_cons]
    rw [itemsFromRowsStep_spec L sec uuid existing pre rest it hsplit hnd used hused
      acc kk s0 (hwf it (List.mem_cons_self _ _)).1 (hwf it (List.mem_cons_self _ _)).2]
    obtain ⟨used', hrec⟩ := ih (pre ++ [it]) (s0 + 1) (acc ++ [it]) (it.id :: used) kk
      (by rw [hsplit, List.append_assoc]; rfl)
      (by
        intro x
        rw [List.contains_cons, List.map_append, List.mem_append]
        constructor
        · intro hx
          rcases (Bool.or_eq_true _ _).mp hx with hx | hx
          · right
            simp at hx
            simp [hx]
          · left
            exact (hused x).mp hx
        · intro hx
          rcases hx with hx | hx
          · exact (Bool.or_eq_true _ _).mpr (Or.inr ((hused x).mpr hx))
          · simp at hx
            simp [hx])
      (fun it2 h2 => hwf it2 (List.mem_cons_of_mem _ h2))
    refine ⟨used', ?_⟩
    rw [hrec, List.append_assoc]
    rfl

theorem itemsFromRows_roundtrip (L : List RowEntry) (sec : Section) (uuid : Nat → Str)
    (s0 k : Nat) (hnd : (sec.items.map Item.id).Nodup)
    (hwf : ∀ it ∈ sec.items, wfItem it ∧
      (sec.type = SAVINGS → it.savingsPercentage ≠ none →
        it.monthlyValues = List.replicate 12 0)) :
    itemsFromRows sec.items (itemRowsOf L sec s0 sec.items) uuid k = (sec.items, k) := by
  obtain ⟨used', hfold⟩ := itemsFromRows_fold L sec uuid sec.items hnd sec.items [] s0
    [] [] k rfl (by intro x; simp) hwf
  unfold itemsFromRows
  rw [hfold]
  rfl

theorem collectSpan_block (rows : List Row) (next : Nat) (L : List RowEntry)
    (sec : Section) (row0 : Nat) (autoL : Option (Nat × Str))
    (hauto : ∀ lr nm, autoL = some (lr, nm) →
      rows.get? (row0 + 1 - 1) = some (emitAuto (row0 + 1) lr nm).values ∧ jsTrim nm = nm)
    (hitemsrows : ∀ (j : Nat) (it : Item), sec.items.get? j = some it →
      rows.get? (itemStartOf row0 autoL + j - 1) =
        some (emitItem L (itemStartOf row0 autoL + j) it sec).values)
    (htotrow : ∃ en a,
      rows.get? (itemStartOf row0 autoL + sec.items.length - 1) =
        some (emitTotal (itemStartOf row0 autoL + sec.items.length) sec
          (itemStartOf row0 autoL)
          (itemStartOf row0 autoL + sec.items.length - 1) en a).values)
    (hnext : itemStartOf row0 autoL + sec.items.length < next)
    (hwfs : wfSection sec)
    (hwfitems : ∀ it ∈ sec.items, wfItem it) :
    collectSpan rows (some sec.id) next (next - (row0 + 1)) (row0 + 1)
      ⟨[], false, none, sec.totalLabel⟩ =
      ⟨itemRowsOf L sec (itemStartOf row0 autoL) sec.items,
       autoL.isSome,
       (match autoL with
        | some (_, nm) => if nm = [] then none else some nm
        | none => none),
       sec.totalLabel⟩ := by
  obtain ⟨hty, hshow, hnmt, hnmne, htlt, htlne, hthead, hcol, hidt, hidne, hcolon, _⟩ := hwfs
  cases autoL with
  | none =>
    have hs0 : itemStartOf row0 none = row0 + 1 := rfl
    rw [hs0] at hitemsrows htotrow hnext
    obtain ⟨en, a, htot⟩ := htotrow
    rw [collectSpan_items rows (some sec.id) next L sec sec.items (row0 + 1)
      ⟨[], false, none, sec.totalLabel⟩ (le_of_lt hnext) hitemsrows hwfitems]
    have hfuel : next - (row0 + 1 + sec.items.length) =
        (next - (row0 + 1 + sec.items.length + 1)) + 1 := by omega
    rw [hfuel]
    rw [collectSpan_total_stop rows next sec _ _ en a (row0 + 1 + sec.items.length)
      _ _ htot hnext htlt htlne hthead hidt hidne rfl]
    rfl
  | some v =>
    obtain ⟨lr, nm⟩ := v
    obtain ⟨hr0, hnm⟩ := hauto lr nm rfl
    have hs0 : itemStartOf row0 (some (lr, nm)) = row0 + 1 + 1 := rfl
    rw [hs0] at hitemsrows htotrow hnext
    obtain ⟨en, a, htot⟩ := htotrow
    have hlt1 : row0 + 1 < next := by omega
    have hfuel1 : next - (row0 + 1) = (next - (row0 + 1 + 1)) + 1 := by omega
    rw [hfuel1]
    rw [collectSpan_auto_step rows (some sec.id) next lr nm (row0 + 1) _ _ hr0 hlt1 hnm]
    rw [collectSpan_items rows (some sec.id) next L sec sec.items (row0 + 1 + 1)
      _ (le_of_lt hnext) hitemsrows hwfitems]
    have hfuel2 : next - (row0 + 1 + 1 + sec.items.length) =
        (next - (row0 + 1 + 1 + sec.items.length + 1)) + 1 := by omega
    rw [hfuel2]
    rw [collectSpan_total_stop rows next sec _ _ en a (row0 + 1 + 1 + sec.items.length)
      _ _ htot hnext htlt htlne hthead hidt hidne rfl]
    rfl

/-- Witness for C9 on a one-cell heap holding a concrete budget. -/
theorem C9_witness :
    heapGet (parseSheetDataH [c10B] 0 c7Rows none uuidFix).1 0 = some c10B ∧
    (parseSheetDataH [c10B] 0 c7Rows none uuidFix).2.1 ≠ 0 ∧
    heapGet (parseSheetDataH [c10B] 0 c7Rows none uuidFix).1
        (parseSheetDataH [c10B] 0 c7Rows none uuidFix).2.1 =
      some (parseSheetData c10B c7Rows none uuidFix).updatedBudget ∧
    (parseSheetDataH [c10B] 0 c7Rows none uuidFix).2.2 =
      (parseSheetData c10B c7Rows none uuidFix).changes :=
  C9_never_mutates_budget [c10B] 0 c7Rows none uuidFix c10B (by decide)

/-- C4 (counterexample to the claim as stated): on the marker-rebuild path
`parseSheetData` does import sheet values for a savings-percentage item —
the savings item `sp4` (percentage 50, linked from an income item, local
monthly values 0) comes back with the sheet's 777 in its monthly values. -/
theorem C4_counterexample :
    c4PctItem.savingsPercentage = some 50 ∧ c4SavSec.type = SAVINGS ∧
    c4SavSec ∈ c4B.sections ∧ c4PctItem ∈ c4SavSec.items ∧
    c4Linked.savingsLink = some c4SavSec.id ∧
    c4PctItem.monthlyValues.get? 0 = some 0 ∧
    (∃ sec ∈ (parseSheetData c4B c4Rows none uuidFix).updatedBudget.sections,
      ∃ it ∈ sec.items, it.id = c4PctItem.id ∧ it.savingsPercentage = some 50 ∧
        it.monthlyValues.get? 0 = some 777) := by
  decide

/-- C4 (amended): (a) when the layout holds a savings-auto row for the
section, each monthly cell generated for a savings-percentage item is the
formula referencing that auto row's month cell times `p/100`, never a
literal; (b) `computeSectionTotals` yields `v * p / 100` from the linked
item's monthly value `v`; (c) on the non-rebuild (marker-free) paths,
`parseSheetData` skips such an item entirely: its value is left unchanged
and no change record carries its id. -/
theorem C4_savings_percentage_amended :
    (∀ (b : Budget) (r : Nat) (it : Item) (sec : Section) (p : ℚ) (e : RowEntry) (m : Nat),
      RowEntry.item r it sec ∈ (buildRowLayout b).rowLayout →
      sec.type = SAVINGS → it.savingsPercentage = some p →
      (buildRowLayout b).rowLayout.find? (fun e2 =>
        match e2 with
        | RowEntry.savingsAuto _ s _ _ => decide (s.id = sec.id)
        | _ => false) = some e →
      m < 12 →
      ∃ v ∈ generateSheetsPayload b, v.row = r ∧
        v.values.get? (1 + m) =
          some (Cell.str ('=' :: cellRef (rowIndexOf e) (1 + m) ++
            '*' :: jsNumStr (p / 100)))) ∧
    (∀ (sec : Section) (allSections : Option (List Section)) (li it : Item) (p : ℚ),
      sec.type = SAVINGS →
      allSections.bind (fun ss => findSavingsLinkedItem ss sec.id) = some li →
      it.savingsPercentage = some p → it.excluded = false → it.negative = false →
      sec.items = [it] →
      computeSectionTotals sec allSections =
        (List.range 12).map (fun m => (li.monthlyValues.get? m).getD 0 * p / 100)) ∧
    (∀ (b : Budget) (rows : List Row) (rowColors : Option (List (Nat × Str)))
       (uuid : Nat → Str) (k j : Nat) (sec : Section) (it : Item),
      (∀ row ∈ rows, hasSectionMarker (some row) = false) →
      ((b.sections.flatMap fun s => s.items.map Item.id).Nodup) →
      b.sections.get? k = some sec → sec.type = SAVINGS →
      sec.items.get? j = some it → it.savingsPercentage ≠ none →
      (∃ sec', (parseSheetData b rows rowColors uuid).updatedBudget.sections.get? k =
          some sec' ∧ sec'.items.get? j = some it) ∧
      (∀ c ∈ (parseSheetData b rows rowColors uuid).changes, c.itemId ≠ it.id)) := by
  refine ⟨?_, ?_, ?_⟩
  · intro b r it sec p e m hmem hsav hp hfind hm
    refine ⟨emitItem (buildRowLayout b).rowLayout r it sec,
      emit_mem_payload b (.item r it sec) _ hmem rfl, rfl, ?_⟩
    unfold emitItem
    rw [hp]
    rw [if_pos ⟨hsav, by simp⟩, hfind]
    simp only [vrOf]
    rw [values_month_get _ _ _ m hm]
    rw [qDiv_eq]
  · intro sec allSections li it p hsav hli hp hexc hneg hitems
    unfold computeSectionTotals
    simp only [if_pos hsav, hli, hitems]
    refine List.map_congr_left ?_
    intro m _
    rw [List.foldl_cons, List.foldl_nil, hexc, hneg]
    simp only [Bool.false_eq_true, if_false]
    unfold itemMonthValue
    rw [hp]
    simp only []
    rw [qAdd_eq, qMul_eq, qDiv_eq, qMul_eq]
    ring
  · intro b rows rowColors uuid k j sec it hnomark hnd hk hsav hj hp
    have hsec : sec ∈ b.sections := by
      rw [List.get?_eq_getElem?] at hk
      exact List.getElem?_mem hk
    have hit : it ∈ sec.items := by
      rw [List.get?_eq_getElem?] at hj
      exact List.getElem?_mem hj
    have hsum : ¬ sec.type = SUMMARY := by
      rw [hsav]
      decide
    have hskip : processItem sec.name sec.type (effectiveItemRowMap b rows) rows it =
        (it, []) := by
      unfold processItem
      cases hl : mapLookup (effectiveItemRowMap b rows) it.id with
      | none => rfl
      | some r =>
        simp only []
        cases hrow : rows.get? (r - 1) with
        | none => rfl
        | some sheetRow =>
          simp only []
          rw [if_pos ⟨hp, hsav⟩]
    rw [parseSheetData_mapped b rows rowColors uuid
      (buildBudgetFromMarkers_none_of_nomark b rows rowColors uuid hnomark)]
    constructor
    · refine ⟨(processSection (effectiveItemRowMap b rows) rows sec).1, ?_, ?_⟩
      · simp only [List.get?_eq_getElem?, List.getElem?_map]
        rw [← List.get?_eq_getElem?, hk]
        rfl
      · unfold processSection
        rw [if_neg hsum]
        simp only [List.map_map, List.get?_eq_getElem?, List.getElem?_map]
        rw [← List.get?_eq_getElem?, hj]
        simp only [Option.map_some', Function.comp]
        rw [hskip]
    · intro c hc hcid
      simp only [] at hc
      obtain ⟨s2, hs2, hc2⟩ := List.mem_flatMap.mp hc
      by_cases hsum2 : s2.type = SUMMARY
      · rw [processSection_summary _ _ _ hsum2] at hc2
        simp at hc2
      · rw [processSection_changes _ _ _ hsum2] at hc2
        obtain ⟨it2, hit2, hc3⟩ := List.mem_flatMap.mp hc2
        have hid2 : it2.id = it.id := by
          rw [← processItem_id_of_mem _ _ _ _ _ _ hc3]
          exact hcid
        obtain ⟨hiteq, hseceq⟩ :=
          unique_item_by_id b.sections hnd s2 hs2 it2 hit2 sec hsec it hit hid2
        subst hiteq
        subst hseceq
        rw [hskip] at hc3
        simp at hc3

/-- Witness for C4's amended parts at the `c3B` fixture (income item linked
to the savings section; percentage item `sp1`, p = 10; a marker-free
sheet). -/
theorem C4_witness :
    (∃ v ∈ generateSheetsPayload c3B, v.row = 8 ∧
      v.values.get? (1 + 0) =
        some (Cell.str ('=' :: cellRef (rowIndexOf
            (RowEntry.savingsAuto 7 c3SavSec 3 (strOf "Salary"))) (1 + 0) ++
          '*' :: jsNumStr ((10 : ℚ) / 100)))) ∧
    (computeSectionTotals c3SavSec (some c3B.sections) =
      (List.range 12).map (fun m => (c3Linked.monthlyValues.get? m).getD 0 * 10 / 100)) ∧
    ((∃ sec', (parseSheetData c3B [] none uuidFix).updatedBudget.sections.get? 1 =
        some sec' ∧ sec'.items.get? 0 = some c3SavItem) ∧
      (∀ c ∈ (parseSheetData c3B [] none uuidFix).changes, c.itemId ≠ c3SavItem.id)) :=
  ⟨C4_savings_percentage_amended.1 c3B 8 c3SavItem c3SavSec 10
      (RowEntry.savingsAuto 7 c3SavSec 3 (strOf "Salary")) 0
      (by decide) (by decide) (by decide) (by decide) (by decide),
   C4_savings_percentage_amended.2.1 c3SavSec (some c3B.sections) c3Linked c3SavItem 10
      (by decide) (by decide) (by decide) (by decide) (by decide) (by decide),
   C4_savings_percentage_amended.2.2 c3B [] none uuidFix 1 0 c3SavSec c3SavItem
      (by decide) (by decide) (by decide) (by decide) (by decide) (by decide)⟩


/-! ### Round-trip, part V: assembling the marker rebuild -/

theorem esOf_consecutive (b : Budget) (front : List Section) (sumSec : Section) :
    consecutiveFrom (esOf b front sumSec) 2 := by
  unfold esOf sumTail
  rw [consecutiveFrom_append]
  refine ⟨consecutiveFrom_layoutBlocks b front 2 [], rfl, ?_, ?_, ?_, trivial⟩ <;> rfl

theorem sheetRows_esOf (b : Budget) (front : List Section) (sumSec : Section)
    (h1 : b.sections = front ++ [sumSec]) (h2 : sumSec.type = SUMMARY) :
    sheetRows b = headerValues :: (esOf b front sumSec).map (layVals b) := by
  rw [sheetRows_eq b front sumSec h1 h2]
  rfl

theorem sheetRows_get_esOf (b : Budget) (front : List Section) (sumSec : Section)
    (h1 : b.sections = front ++ [sumSec]) (h2 : sumSec.type = SUMMARY) :
    ∀ e ∈ esOf b front sumSec,
      (sheetRows b).get? (rowIndexOf e - 1) = some (layVals b e) :=
  sheetRows_get b (esOf b front sumSec) (sheetRows_esOf b front sumSec h1 h2)
    (esOf_consecutive b front sumSec)

theorem sheetRows_length (b : Budget) (front : List Section) (sumSec : Section)
    (h1 : b.sections = front ++ [sumSec]) (h2 : sumSec.type = SUMMARY) :
    (sheetRows b).length = (layoutBlocks b front 2 []).length + 5 := by
  rw [sheetRows_esOf b front sumSec h1 h2]
  rw [List.length_cons, List.length_map]
  unfold esOf sumTail
  rw [List.length_append]
  show (layoutBlocks b front 2 []).length + 4 + 1 = (layoutBlocks b front 2 []).length + 5
  omega

theorem mapThrough_append (b : Budget) :
    ∀ (l1 l2 : List Section) (row0 : Nat) (map : List (Str × Nat)),
    mapThrough b (l1 ++ l2) row0 map =
      mapThrough b l2 (row0 + (layoutBlocks b l1 row0 map).length)
        (mapThrough b l1 row0 map) := by
  intro l1
  induction l1 with
  | nil =>
    intro l2 row0 map
    simp [layoutBlocks, mapThrough]
  | cons sec rest ih =>
    intro l2 row0 map
    rw [List.cons_append, mapThrough, ih]
    conv_rhs => rw [layoutBlocks, mapThrough]
    rw [List.length_append, ← Nat.add_assoc]

theorem mapGetLast_unique (key : Section → Str) :
    ∀ (l : List Section) (sec : Section), (l.map key).Nodup → sec ∈ l →
    mapGetLast l key (key sec) = some sec := by
  intro l
  induction l with
  | nil =>
    intro sec _ h
    simp at h
  | cons a t ih =>
    intro sec hnd hmem
    unfold mapGetLast
    rw [List.reverse_cons, List.find?_append]
    rcases List.mem_cons.mp hmem with rfl | hmem
    · have hnot : key sec ∉ t.map key := (List.nodup_cons.mp hnd).1
      have hnone : t.reverse.find? (fun s => decide (key s = key sec)) = none := by
        rw [List.find?_eq_none]
        intro x hx hkey
        exact hnot (List.mem_map.mpr ⟨x, List.mem_reverse.mp hx, of_decide_eq_true hkey⟩)
      rw [hnone, Option.none_or, List.find?_cons_of_pos _ (by simp)]
    · have hrec := ih sec (List.nodup_cons.mp hnd).2 hmem
      unfold mapGetLast at hrec
      rw [hrec]
      rfl

theorem existingSections_filter (b : Budget) (front : List Section) (sumSec : Section)
    (h1 : b.sections = front ++ [sumSec]) (h2 : sumSec.type = SUMMARY)
    (hwf : ∀ s ∈ front, wfSection s) :
    b.sections.filter (fun s => decide (s.type ≠ SUMMARY)) = front := by
  rw [h1, List.filter_append]
  have hfr : front.filter (fun s => decide (s.type ≠ SUMMARY)) = front := by
    rw [List.filter_eq_self]
    intro s hs
    rcases (hwf s hs).1 with h | h | h <;> rw [h] <;> decide
  have hsum : [sumSec].filter (fun s => decide (s.type ≠ SUMMARY)) = [] := by
    rw [List.filter_cons]
    rw [if_neg (by simp [h2])]
    rfl
  rw [hfr, hsum, List.append_nil]

theorem summary_find (b : Budget) (front : List Section) (sumSec : Section)
    (h1 : b.sections = front ++ [sumSec]) (h2 : sumSec.type = SUMMARY)
    (hwf : ∀ s ∈ front, wfSection s) :
    b.sections.find? (fun s => decide (s.type = SUMMARY)) = some sumSec := by
  rw [h1, List.find?_append]
  have hfr : front.find? (fun s => decide (s.type = SUMMARY)) = none := by
    rw [List.find?_eq_none]
    intro s hs hdec
    have hts := of_decide_eq_true hdec
    rcases (hwf s hs).1 with h | h | h <;> rw [h] at hts <;> exact absurd hts (by decide)
  rw [hfr, Option.none_or, List.find?_cons_of_pos _ (by simp [h2])]

theorem budget_sections_eta (b : Budget) : { b with sections := b.sections } = b := by
  cases b
  rfl

theorem section_items_eta (s : Section) : { s with items := s.items } = s := by
  cases s
  rfl

theorem section_rebuilt_eta (s : Section) (hshow : s.showTotal = true) :
    (⟨s.id, s.name, s.type, s.color, true, s.totalLabel, s.items⟩ : Section) = s := by
  rw [← hshow]

theorem item_savingsLink_update (it : Item) (x : Str) (h : it.savingsLink = some x) :
    { it with savingsLink := some x } = it := by
  rw [← h]

theorem normalizeHexColor_none (fb : Str) : normalizeHexColor none fb = fb := rfl

theorem items_nodup_of_mem (front : List Section) (sec : Section)
    (hmem : sec ∈ front)
    (hnd : (front.flatMap fun s => s.items.map Item.id).Nodup) :
    (sec.items.map Item.id).Nodup := by
  obtain ⟨l1, l2, hf⟩ := List.append_of_mem hmem
  rw [hf, List.flatMap_append, List.flatMap_cons] at hnd
  exact hnd.of_append_right.of_append_left

theorem incexp_name_inj (front : List Section)
    (hnd : ((front.filter fun s =>
        decide (s.type = INCOME) || decide (s.type = EXPENSE)).flatMap
      fun s => s.items.map Item.name).Nodup)
    (s1 s2 : Section) (it1 it2 : Item)
    (h1 : s1 ∈ front) (h2 : s2 ∈ front)
    (ht1 : s1.type = INCOME ∨ s1.type = EXPENSE)
    (ht2 : s2.type = INCOME ∨ s2.type = EXPENSE)
    (hi1 : it1 ∈ s1.items) (hi2 : it2 ∈ s2.items)
    (hname : it1.name = it2.name) : it1 = it2 := by
  have hflat : ∀ (s : Section) (it : Item), s ∈ front →
      (s.type = INCOME ∨ s.type = EXPENSE) → it ∈ s.items →
      it ∈ (front.filter fun s =>
        decide (s.type = INCOME) || decide (s.type = EXPENSE)).flatMap
          (fun s => s.items) := by
    intro s it hs hts hits
    refine List.mem_flatMap.mpr ⟨s, List.mem_filter.mpr ⟨hs, ?_⟩, hits⟩
    rcases hts with h | h <;> simp [h]
  have hmap : (((front.filter fun s =>
      decide (s.type = INCOME) || decide (s.type = EXPENSE)).flatMap
        (fun s => s.items)).map Item.name).Nodup := by
    rw [List.map_flatMap]
    exact hnd
  exact List.inj_on_of_nodup_map hmap (hflat s1 it1 h1 ht1 hi1) (hflat s2 it2 h2 ht2 hi2)
    hname

theorem hint_fold_id (it : Item) :
    ∀ (hints : List (Str × Str)),
    (∀ p ∈ hints, it.name = p.2 → it.savingsLink = some p.1) →
    hints.foldl (fun cur h =>
      if cur.name = h.2 then { cur with savingsLink := some h.1 } else cur) it = it := by
  intro hints
  induction hints with
  | nil =>
    intro _
    rfl
  | cons p t ih =>
    intro hp
    rw [List.foldl_cons]
    by_cases hn : it.name = p.2
    · rw [if_pos hn, item_savingsLink_update it p.1 (hp p (List.mem_cons_self _ _) hn)]
      exact ih (fun q hq => hp q (List.mem_cons_of_mem _ hq))
    · rw [if_neg hn]
      exact ih (fun q hq => hp q (List.mem_cons_of_mem _ hq))

theorem hintsOf_mem (b : Budget) :
    ∀ (secs : List Section) (row0 : Nat) (map : List (Str × Nat)) (p : Str × Str),
    p ∈ hintsOf b secs row0 map →
    ∃ s it, s ∈ b.sections ∧ (s.type = EXPENSE ∨ s.type = INCOME) ∧ it ∈ s.items ∧
      it.savingsLink = some p.1 ∧ it.name = p.2 := by
  intro secs
  induction secs with
  | nil =>
    intro row0 map p hp
    simp [hintsOf] at hp
  | cons sec rest ih =>
    intro row0 map p hp
    rw [hintsOf] at hp
    rcases List.mem_append.mp hp with hp | hp
    · by_cases hs : sec.type = SAVINGS
      · rw [if_pos hs] at hp
        cases hA : secAutoLink b map sec with
        | none =>
          simp only [hA] at hp
          simp at hp
        | some v =>
          obtain ⟨lr, nm⟩ := v
          simp only [hA] at hp
          by_cases hnm : nm = []
          · rw [if_pos hnm] at hp
            simp at hp
          · rw [if_neg hnm] at hp
            have hpe : p = (sec.id, nm) := List.eq_of_mem_singleton hp
            obtain ⟨it, hL, hlk, hnmit⟩ := secAutoLink_eq_some b map sec lr nm hA
            obtain ⟨s, hsmem, hstype, hitmem, hlink⟩ :=
              layoutLinkedSearch_mem b.sections sec.id it hL
            subst hpe
            exact ⟨s, it, hsmem, hstype, hitmem, hlink, hnmit.symm⟩
      · rw [if_neg hs] at hp
        simp at hp
    · exact ih _ _ p hp

theorem rcLookup_none (r : Nat) : rcLookup none r = none := rfl

theorem mem_blockEntries_auto (b : Budget) (row0 : Nat) (map : List (Str × Nat))
    (sec : Section) (lr : Nat) (nm : Str)
    (hnsum : ¬ sec.type = SUMMARY) (hA : secAutoLink b map sec = some (lr, nm)) :
    RowEntry.savingsAuto (row0 + 1) sec lr nm ∈ blockEntries b row0 map sec := by
  unfold blockEntries
  rw [if_neg hnsum]
  simp only [hA]
  refine List.mem_append_left _ (List.mem_append_left _ (List.mem_append_left _
    (List.mem_append_right _ ?_)))
  exact List.mem_cons_self _ _

theorem mem_blockEntries_item (b : Budget) (row0 : Nat) (map : List (Str × Nat))
    (sec : Section) (j : Nat) (it : Item)
    (hnsum : ¬ sec.type = SUMMARY) (hj : sec.items.get? j = some it) :
    RowEntry.item (itemStartOf row0 (secAutoLink b map sec) + j) it sec ∈
      blockEntries b row0 map sec := by
  unfold blockEntries
  rw [if_neg hnsum]
  refine List.mem_append_left _ (List.mem_append_left _ (List.mem_append_right _ ?_))
  refine List.mem_map.mpr ⟨(j, it), ?_, rfl⟩
  rw [List.mk_mem_enum_iff_getElem?, ← List.get?_eq_getElem?]
  exact hj

theorem mem_blockEntries_total (b : Budget) (row0 : Nat) (map : List (Str × Nat))
    (sec : Section)
    (hnsum : ¬ sec.type = SUMMARY) (hshow : sec.showTotal = true) :
    RowEntry.total (itemStartOf row0 (secAutoLink b map sec) + sec.items.length) sec
      (itemStartOf row0 (secAutoLink b map sec))
      (itemStartOf row0 (secAutoLink b map sec) + sec.items.length - 1)
      (sec.items.enum.map fun p => (itemStartOf row0 (secAutoLink b map sec) + p.1, p.2))
      ((secAutoLink b map sec).map fun _ => row0 + 1) ∈
      blockEntries b row0 map sec := by
  unfold blockEntries
  rw [if_neg hnsum]
  simp only [hshow]
  refine List.mem_append_left _ (List.mem_append_right _ ?_)
  exact List.mem_cons_self _ _

theorem blockEntries_totalRow (b : Budget) (row0 : Nat) (map : List (Str × Nat))
    (sec : Section) (hnsum : ¬ sec.type = SUMMARY) (hshow : sec.showTotal = true) :
    itemStartOf row0 (secAutoLink b map sec) + sec.items.length + 2 =
      row0 + (blockEntries b row0 map sec).length := by
  unfold blockEntries
  rw [if_neg hnsum]
  cases hA : secAutoLink b map sec with
  | none =>
    simp [itemStartOf, List.length_append, hshow]
    omega
  | some v =>
    obtain ⟨lr, nm⟩ := v
    simp [itemStartOf, List.length_append, hshow]
    omega

theorem blockEntries_subset_esOf (b : Budget) (front : List Section) (sumSec : Section)
    (pre rest : List Section) (sec : Section)
    (hfr : front = pre ++ sec :: rest) :
    ∀ e ∈ blockEntries b (2 + (layoutBlocks b pre 2 []).length) (mapThrough b pre 2 []) sec,
      e ∈ esOf b front sumSec := by
  intro e he
  unfold esOf
  refine List.mem_append_left _ ?_
  rw [hfr, layoutBlocks_append]
  refine List.mem_append_right _ ?_
  rw [layoutBlocks]
  exact List.mem_append_left _ he

theorem markerStep_spec (b : Budget) (front : List Section) (sumSec : Section)
    (uuid : Nat → Str) (hwfb : wfBudget b front sumSec)
    (pre rest : List Section) (sec : Section) (hsplit : front = pre ++ sec :: rest)
    (secs : List Section) (hints : List (Str × Str)) (k : Nat) (next? : Option Nat)
    (hlt : itemStartOf (2 + (layoutBlocks b pre 2 []).length)
        (secAutoLink b (mapThrough b pre 2 []) sec) + sec.items.length <
      next?.getD ((sheetRows b).length + 1)) :
    markerStep (sheetRows b) none uuid front (secs, hints, k)
      (⟨2 + (layoutBlocks b pre 2 []).length, sec.name, some sec.id, some sec.type⟩, next?) =
      (secs ++ [sec],
       hints ++
         (if sec.type = SAVINGS then
           (match secAutoLink b (mapThrough b pre 2 []) sec with
            | some (_, nm) => if nm = [] then [] else [(sec.id, nm)]
            | none => [])
          else []),
       k) := by
  obtain ⟨h1, hfne, h2, hndid, hnditem, hndname, hwfs⟩ := hwfb
  have hsecmem : sec ∈ front := by
    rw [hsplit]
    exact List.mem_append_right _ (List.mem_cons_self _ _)
  obtain ⟨hty, hshow, hnmt, hnmne, htlt, htlne, hthead, hcol, hidt, hidne, hcolon, hitems⟩ :=
    hwfs sec hsecmem
  have hnsum : ¬ sec.type = SUMMARY := by
    rcases hty with h | h | h <;> rw [h] <;> decide
  have hrowsget := sheetRows_get_esOf b front sumSec h1 h2
  have hauto : ∀ (lr : Nat) (nm : Str),
      secAutoLink b (mapThrough b pre 2 []) sec = some (lr, nm) →
      (sheetRows b).get? (2 + (layoutBlocks b pre 2 []).length + 1 - 1) =
        some (emitAuto (2 + (layoutBlocks b pre 2 []).length + 1) lr nm).values ∧
      jsTrim nm = nm := by
    intro lr nm hA
    constructor
    · have hmem := blockEntries_subset_esOf b front sumSec pre rest sec hsplit _
        (mem_blockEntries_auto b _ _ sec lr nm hnsum hA)
      exact hrowsget _ hmem
    · obtain ⟨it, hL, hlk, hnmit⟩ := secAutoLink_eq_some b _ sec lr nm hA
      obtain ⟨s, hsmem, hstype, hitmem, _⟩ := layoutLinkedSearch_mem b.sections sec.id it hL
      have hsfront : s ∈ front := by
        rw [h1] at hsmem
        rcases List.mem_append.mp hsmem with hs | hs
        · exact hs
        · have hse := List.eq_of_mem_singleton hs
          subst hse
          rcases hstype with h | h <;> rw [h2] at h <;> exact absurd h (by decide)
      obtain ⟨_, _, _, _, _, _, _, _, _, _, _, hsitems⟩ := hwfs s hsfront
      rw [hnmit]
      exact (hsitems it hitmem).1.2.1
  have hitemsrows : ∀ (j : Nat) (it : Item), sec.items.get? j = some it →
      (sheetRows b).get? (itemStartOf (2 + (layoutBlocks b pre 2 []).length)
          (secAutoLink b (mapThrough b pre 2 []) sec) + j - 1) =
        some (emitItem (buildRowLayout b).rowLayout
          (itemStartOf (2 + (layoutBlocks b pre 2 []).length)
            (secAutoLink b (mapThrough b pre 2 []) sec) + j) it sec).values := by
    intro j it hj
    have hmem := blockEntries_subset_esOf b front sumSec pre rest sec hsplit _
      (mem_blockEntries_item b _ _ sec j it hnsum hj)
    exact hrowsget _ hmem
  have htotrow : ∃ en a,
      (sheetRows b).get? (itemStartOf (2 + (layoutBlocks b pre 2 []).length)
          (secAutoLink b (mapThrough b pre 2 []) sec) + sec.items.length - 1) =
        some (emitTotal (itemStartOf (2 + (layoutBlocks b pre 2 []).length)
            (secAutoLink b (mapThrough b pre 2 []) sec) + sec.items.length) sec
          (itemStartOf (2 + (layoutBlocks b pre 2 []).length)
            (secAutoLink b (mapThrough b pre 2 []) sec))
          (itemStartOf (2 + (layoutBlocks b pre 2 []).length)
            (secAutoLink b (mapThrough b pre 2 []) sec) + sec.items.length - 1)
          en a).values := by
    refine ⟨sec.items.enum.map (fun p =>
        (itemStartOf (2 + (layoutBlocks b pre 2 []).length)
          (secAutoLink b (mapThrough b pre 2 []) sec) + p.1, p.2)),
      (secAutoLink b (mapThrough b pre 2 []) sec).map
        (fun _ => 2 + (layoutBlocks b pre 2 []).length + 1), ?_⟩
    have hmem := blockEntries_subset_esOf b front sumSec pre rest sec hsplit _
      (mem_blockEntries_total b _ _ sec hnsum hshow)
    exact hrowsget _ hmem
  have hcoll := collectSpan_block (sheetRows b) (next?.getD ((sheetRows b).length + 1))
    (buildRowLayout b).rowLayout sec (2 + (layoutBlocks b pre 2 []).length)
    (secAutoLink b (mapThrough b pre 2 []) sec) hauto hitemsrows htotrow hlt
    (hwfs sec hsecmem) (fun it h => (hitems it h).1)
  have hnds : (sec.items.map Item.id).Nodup := items_nodup_of_mem front sec hsecmem hnditem
  have hroundtrip := itemsFromRows_roundtrip (buildRowLayout b).rowLayout sec uuid
    (itemStartOf (2 + (layoutBlocks b pre 2 []).length)
      (secAutoLink b (mapThrough b pre 2 []) sec)) k hnds hitems
  have hEx : mapGetLast front (fun s => s.id) sec.id = some sec :=
    mapGetLast_unique (fun s => s.id) front sec hndid hsecmem
  simp only [markerStep, hEx]
  rw [if_pos htlne]
  rw [hcoll]
  simp only []
  rw [hroundtrip]
  simp only []
  rw [if_pos hnmne]
  simp only [rcLookup_none, normalizeHexColor_none]
  rw [if_pos hcol]
  rw [section_rebuilt_eta sec hshow]
  refine congrArg (fun h => (secs ++ [sec], h, k)) ?_
  by_cases hsav : sec.type = SAVINGS
  · rw [if_pos hsav, if_pos hsav]
    revert hauto hitemsrows htotrow hlt hcoll hroundtrip
    cases hA : secAutoLink b (mapThrough b pre 2 []) sec with
    | none =>
      intro h3 h4 h5 h6 h7 h8
      simp only []
      rw [List.append_nil]
    | some v =>
      obtain ⟨lr, nm⟩ := v
      intro h3 h4 h5 h6 h7 h8
      simp only []
      by_cases hnm : nm = []
      · rw [if_pos hnm, if_pos hnm]
        rw [List.append_nil]
      · rw [if_neg hnm, if_neg hnm]
  · rw [if_neg hsav, if_neg hsav]
    rw [List.append_nil]

theorem markerFold (b : Budget) (front : List Section) (sumSec : Section)
    (uuid : Nat → Str) (hwfb : wfBudget b front sumSec) :
    ∀ (suf pre : List Section) (secs : List Section) (hints : List (Str × Str)) (k : Nat),
    front = pre ++ suf →
    (withNext (markersSpec b suf (2 + (layoutBlocks b pre 2 []).length)
        (mapThrough b pre 2 []))).foldl
      (markerStep (sheetRows b) none uuid front) (secs, hints, k) =
      (secs ++ suf,
       hints ++ hintsOf b suf (2 + (layoutBlocks b pre 2 []).length) (mapThrough b pre 2 []),
       k) := by
  intro suf
  induction suf with
  | nil =>
    intro pre secs hints k hsplit
    simp [markersSpec, withNext, hintsOf]
  | cons sec rest ih =>
    intro pre secs hints k hsplit
    have hsplit2 : front = (pre ++ [sec]) ++ rest := by
      rw [List.append_assoc]
      exact hsplit
    have hsecmem : sec ∈ front := by
      rw [hsplit]
      exact List.mem_append_right _ (List.mem_cons_self _ _)
    have hwsec := hwfb.2.2.2.2.2.2 sec hsecmem
    have hnsum : ¬ sec.type = SUMMARY := by
      rcases hwsec.1 with h | h | h <;> rw [h] <;> decide
    have hshow := hwsec.2.1
    have htotal := blockEntries_totalRow b (2 + (layoutBlocks b pre 2 []).length)
      (mapThrough b pre 2 []) sec hnsum hshow
    have happ : layoutBlocks b (pre ++ [sec]) 2 [] =
        layoutBlocks b pre 2 [] ++
          blockEntries b (2 + (layoutBlocks b pre 2 []).length) (mapThrough b pre 2 []) sec := by
      rw [layoutBlocks_append]
      congr 1
      rw [layoutBlocks, layoutBlocks, List.append_nil]
    have hmapp : mapThrough b (pre ++ [sec]) 2 [] =
        mapAfter b (2 + (layoutBlocks b pre 2 []).length) (mapThrough b pre 2 []) sec := by
      rw [mapThrough_append, mapThrough, mapThrough]
    rw [markersSpec, withNext, List.foldl_cons]
    cases rest with
    | nil =>
      have hlt : itemStartOf (2 + (layoutBlocks b pre 2 []).length)
          (secAutoLink b (mapThrough b pre 2 []) sec) + sec.items.length <
          Option.getD (Option.map (fun m => m.rowIndex) (List.head? (markersSpec b []
            (2 + (layoutBlocks b pre 2 []).length +
              (blockEntries b (2 + (layoutBlocks b pre 2 []).length)
                (mapThrough b pre 2 []) sec).length)
            (mapAfter b (2 + (layoutBlocks b pre 2 []).length)
              (mapThrough b pre 2 []) sec)))) ((sheetRows b).length + 1) := by
        show itemStartOf (2 + (layoutBlocks b pre 2 []).length)
            (secAutoLink b (mapThrough b pre 2 []) sec) + sec.items.length <
          (sheetRows b).length + 1
        have hlen := sheetRows_length b front sumSec hwfb.1 hwfb.2.2.1
        have hfl : (layoutBlocks b front 2 []).length =
            (layoutBlocks b pre 2 []).length +
              (blockEntries b (2 + (layoutBlocks b pre 2 []).length)
                (mapThrough b pre 2 []) sec).length := by
          rw [hsplit, happ, List.length_append]
        omega
      rw [markerStep_spec b front sumSec uuid hwfb pre [] sec hsplit secs hints k _ hlt]
      simp only [markersSpec, withNext, List.foldl_nil, hintsOf, List.append_nil]
    | cons sec2 rest2 =>
      have hlt : itemStartOf (2 + (layoutBlocks b pre 2 []).length)
          (secAutoLink b (mapThrough b pre 2 []) sec) + sec.items.length <
          Option.getD (Option.map (fun m => m.rowIndex) (List.head? (markersSpec b (sec2 :: rest2)
            (2 + (layoutBlocks b pre 2 []).length +
              (blockEntries b (2 + (layoutBlocks b pre 2 []).length)
                (mapThrough b pre 2 []) sec).length)
            (mapAfter b (2 + (layoutBlocks b pre 2 []).length)
              (mapThrough b pre 2 []) sec)))) ((sheetRows b).length + 1) := by
        show itemStartOf (2 + (layoutBlocks b pre 2 []).length)
            (secAutoLink b (mapThrough b pre 2 []) sec) + sec.items.length <
          2 + (layoutBlocks b pre 2 []).length +
            (blockEntries b (2 + (layoutBlocks b pre 2 []).length)
              (mapThrough b pre 2 []) sec).length
        omega
      rw [markerStep_spec b front sumSec uuid hwfb pre (sec2 :: rest2) sec hsplit
        secs hints k _ hlt]
      have hih := ih (pre ++ [sec]) (secs ++ [sec])
        (hints ++
          (if sec.type = SAVINGS then
            (match secAutoLink b (mapThrough b pre 2 []) sec with
             | some (_, nm) => if nm = [] then [] else [(sec.id, nm)]
             | none => [])
           else [])) k hsplit2
      rw [happ, List.length_append, hmapp, ← Nat.add_assoc] at hih
      rw [hih]
      simp only [hintsOf]
      rw [List.append_assoc, List.append_assoc]
      rfl

theorem buildBudgetFromMarkers_roundtrip (b : Budget) (front : List Section)
    (sumSec : Section) (uuid : Nat → Str) (hwfb : wfBudget b front sumSec) :
    buildBudgetFromMarkers b (sheetRows b) none uuid = some b := by
  obtain ⟨h1, hfne, h2, hndid, hnditem, hndname, hwfs⟩ := hwfb
  have hmk := markerRows_eq b front sumSec h1 h2 hwfs
  have hne : markersSpec b front 2 [] ≠ [] := by
    cases front with
    | nil => exact absurd rfl hfne
    | cons s t =>
      rw [markersSpec]
      exact List.cons_ne_nil _ _
  have hfold := markerFold b front sumSec uuid
    ⟨h1, hfne, h2, hndid, hnditem, hndname, hwfs⟩ front [] [] [] 0 rfl
  have he1 : (2 : Nat) + (layoutBlocks b [] 2 []).length = 2 := rfl
  have he2 : mapThrough b [] 2 [] = ([] : List (Str × Nat)) := rfl
  rw [he1, he2] at hfold
  simp only [List.nil_append] at hfold
  have hsum := summary_find b front sumSec h1 h2 hwfs
  have hexist := existingSections_filter b front sumSec h1 h2 hwfs
  have hlinked : front.map (fun s =>
      if s.type = INCOME ∨ s.type = EXPENSE then
        { s with items := s.items.map (fun it =>
            (hintsOf b front 2 []).foldl (fun cur h =>
              if cur.name = h.2 then { cur with savingsLink := some h.1 } else cur) it) }
      else s) = front := by
    have hid : ∀ s ∈ front, (fun s =>
        if s.type = INCOME ∨ s.type = EXPENSE then
          { s with items := s.items.map (fun it =>
              (hintsOf b front 2 []).foldl (fun cur h =>
                if cur.name = h.2 then { cur with savingsLink := some h.1 } else cur) it) }
        else s) s = id s := by
      intro s hs
      show (if s.type = INCOME ∨ s.type = EXPENSE then
        { s with items := s.items.map (fun it =>
            (hintsOf b front 2 []).foldl (fun cur h =>
              if cur.name = h.2 then { cur with savingsLink := some h.1 } else cur) it) }
        else s) = s
      by_cases hie : s.type = INCOME ∨ s.type = EXPENSE
      · rw [if_pos hie]
        have hitid : ∀ it ∈ s.items, (fun it =>
            (hintsOf b front 2 []).foldl (fun cur h =>
              if cur.name = h.2 then { cur with savingsLink := some h.1 } else cur) it) it =
            id it := by
          intro it hit
          show (hintsOf b front 2 []).foldl (fun cur h =>
            if cur.name = h.2 then { cur with savingsLink := some h.1 } else cur) it = it
          refine hint_fold_id it (hintsOf b front 2 []) ?_
          intro p hp hnm
          obtain ⟨sW, itW, hsW, htyW, hitW, hlinkW, hnameW⟩ := hintsOf_mem b front 2 [] p hp
          have hsWfront : sW ∈ front := by
            rw [h1] at hsW
            rcases List.mem_append.mp hsW with hs2 | hs2
            · exact hs2
            · have hse := List.eq_of_mem_singleton hs2
              subst hse
              rcases htyW with h | h <;> rw [h2] at h <;> exact absurd h (by decide)
          have heq : it = itW := incexp_name_inj front hndname s sW it itW hs hsWfront
            hie htyW.symm hit hitW (by rw [hnm, hnameW])
          rw [heq, hlinkW]
        rw [List.map_congr_left hitid, List.map_id, section_items_eta]
      · rw [if_neg hie]
    rw [List.map_congr_left hid, List.map_id]
  unfold buildBudgetFromMarkers
  rw [hmk]
  rw [if_neg hne]
  simp only []
  rw [hexist]
  rw [hfold]
  simp only []
  rw [hlinked]
  rw [hsum]
  simp only []
  rw [← h1, budget_sections_eta]

/-- C1 counterexample: the round trip is not the identity for every budget
the data model admits — with an empty `totalLabel` the generated total row
does not match the boundary walk of the parser, the marker rebuild reconstructs
a different section, and `parseSheetData` reports the synthetic
structure-rebuilt change instead of zero changes. -/
theorem C1_counterexample :
    (parseSheetData c1Bad (sheetRows c1Bad) none uuidFix).changes = [structRebuiltChange] ∧
    (parseSheetData c1Bad (sheetRows c1Bad) none uuidFix).changes ≠ [] := by
  constructor
  · decide
  · decide

/-- C1 (amended): for every budget whose sections split as
`front ++ [summary]` with a nonempty `front` of well-formed income, expense
and savings sections (trimmed nonempty names, ids and total labels, 12
monthly values per item, names that do not collide with the row
heuristics of the parser, globally distinct section ids, item ids and income/expense item
names, and zeroed values for percentage-mode savings items), running
`buildRowLayout`, `generateSheetsPayload`, a simulated read of the exact
emitted values, then `parseSheetData` against the same budget yields an
empty changes list — and the updated budget is the original budget. -/
theorem C1_round_trip_amended (b : Budget) (front : List Section) (sumSec : Section)
    (uuid : Nat → Str) (hwf : wfBudget b front sumSec) :
    (parseSheetData b (sheetRows b) none uuid).changes = [] ∧
    (parseSheetData b (sheetRows b) none uuid).updatedBudget = b := by
  have hb := buildBudgetFromMarkers_roundtrip b front sumSec uuid hwf
  unfold parseSheetData
  simp only [hb]
  rw [if_neg (fun hc => hc rfl)]
  exact ⟨rfl, trivial⟩

/-- Witness for C1 at a concrete three-section budget (income with a
savings link, savings with a percentage item and a plain item, summary). -/
theorem C1_witness :
    wfBudget c1Good [c1IncSec, c1SavSec] c1Summary ∧
    (parseSheetData c1Good (sheetRows c1Good) none uuidFix).changes = [] ∧
    (parseSheetData c1Good (sheetRows c1Good) none uuidFix).updatedBudget = c1Good :=
  ⟨by unfold wfBudget wfSection wfItem; decide,
   C1_round_trip_amended c1Good [c1IncSec, c1SavSec] c1Summary uuidFix
     (by unfold wfBudget wfSection wfItem; decide)⟩

end BudgetHelper
